import Mathlib

/-!
# netrap-controller: ring buffers, token flow control and line routing

A shallow embedding of `src/controller/netrap-controller.c`.

* `unsigned int` values are natural numbers; arithmetic that can wrap is
  reduced modulo `2 ^ 32` (`u32`, `usub`), and `x & (BUFFER_SIZE - 1)` is
  `mask x`.
* `char` arrays (`ringbuffer.data`, `buf`, `line`) are functions from an index
  to a byte value; a `char *` argument is such a function and the updated
  array is returned.
* Loops `for (i = 0; i < n; i++)` recurse on the number of iterations that are
  left; loops whose exit is not bounded by a counter (`ringbuffer_scannl`,
  `while (rmn)`, `while (nl > 0)`) take a fuel argument and return `none` when
  it runs out.
* Sockets live in a heap indexed by address; a pointer is an address. A handler
  has no successor state (`none`) when the process exits, when it dereferences
  a pointer that is indeterminate or freed, when it writes outside an array, or
  when a loop does not return within the fuel.
* The operating system is an input: the results of `read` and `write`, and the
  address and descriptor a new socket gets, come with the event.
* Logging (`printf`) and the configuration of the serial port are not
  modelled; `sock2a` is modelled by what it leaves in `buf`.
-/

namespace Netrap

/-! ## Machine integers -/

/-- The source constant `BUFFER_SIZE`. -/
abbrev BUFFER_SIZE : Nat := 1024

/-- Number of values of a 32-bit `unsigned int`. -/
abbrev UINT_MOD : Nat := 4294967296

/-- Truncation of a natural number to `unsigned int`. -/
def u32 (x : Nat) : Nat := x % UINT_MOD

/-- Subtraction `a - b` of two `unsigned int` values (both below `2 ^ 32`). -/
def usub (a b : Nat) : Nat := (a + UINT_MOD - b) % UINT_MOD

/-- The masking `x & (BUFFER_SIZE - 1)`. -/
def mask (x : Nat) : Nat := x &&& (BUFFER_SIZE - 1)

/-! ## Ring buffer -/

/-- The `ringbuffer` struct: `head`, `tail`, `data[1024]`, `nl`. -/
structure ringbuffer where
  head : Nat
  tail : Nat
  data : Nat → Nat
  nl : Nat

/-- `ringbuffer_init`: `rb->head = rb->tail = rb->nl = 0` (data untouched). -/
def ringbuffer_init (rb : ringbuffer) : ringbuffer :=
  { rb with head := 0, tail := 0, nl := 0 }

/-- `ringbuffer_canread`: `(head - tail) & (BUFFER_SIZE - 1)`. -/
def ringbuffer_canread (rb : ringbuffer) : Nat :=
  mask (usub rb.head rb.tail)

/-- `ringbuffer_canwrite`: `(tail - 1 - head) & (BUFFER_SIZE - 1)`. -/
def ringbuffer_canwrite (rb : ringbuffer) : Nat :=
  mask (usub (usub rb.tail 1) rb.head)

/-- Body of the `for` loop of `ringbuffer_read`; the first argument is the
number of iterations left (`maxchars - i`). -/
def ringbuffer_read_loop : Nat → Nat → ringbuffer → (Nat → Nat) → ringbuffer × (Nat → Nat)
  | 0, _, rb, buffer => (rb, buffer)
  | n + 1, i, rb, buffer =>
    let buffer1 := Function.update buffer i (rb.data rb.tail)
    let rb1 := { rb with tail := mask (u32 (rb.tail + 1)) }
    let rb2 := if buffer1 i = 10 ∧ rb1.nl > 0 then { rb1 with nl := rb1.nl - 1 } else rb1
    ringbuffer_read_loop n (i + 1) rb2 buffer1

/-- `ringbuffer_read`: returns the new ring, the destination array and the
returned count. -/
def ringbuffer_read (rb : ringbuffer) (buffer : Nat → Nat) (maxchars : Nat) :
    ringbuffer × (Nat → Nat) × Nat :=
  let maxchars1 := if maxchars > ringbuffer_canread rb then ringbuffer_canread rb else maxchars
  let r := ringbuffer_read_loop maxchars1 0 rb buffer
  (r.1, r.2, maxchars1)

/-- Result of the operating system accepting bytes in `write(fd, p, n)`:
`-1`, or a count that is at most `n`. -/
inductive OsWrite where
  | error
  | accepted (k : Nat)
  deriving DecidableEq, Repr

/-- The value of `r = write(fd, p, n)` as stored in an `unsigned int`. -/
def os_write_result (w : OsWrite) (n : Nat) : Nat :=
  match w with
  | OsWrite.error => UINT_MOD - 1
  | OsWrite.accepted k => min k n

/-- Start and length of the region `ringbuffer_readtofd` passes to `write`. -/
def ringbuffer_readtofd_region (rb : ringbuffer) : Nat × Nat :=
  if rb.head > rb.tail then (rb.tail, usub rb.head rb.tail)
  else (rb.tail, usub BUFFER_SIZE rb.tail)

/-- `ringbuffer_readtofd`: one `write` of the contiguous region at `tail`;
returns the ring, the bytes offered to the OS and the returned count. -/
def ringbuffer_readtofd (rb : ringbuffer) (w : OsWrite) : ringbuffer × List Nat × Nat :=
  let reg := ringbuffer_readtofd_region rb
  let offered := (List.range reg.2).map (fun k => rb.data (reg.1 + k))
  let r := os_write_result w reg.2
  ({ rb with tail := mask (u32 (rb.tail + r)) }, offered, r)

/-- Body of the `for` loop of `ringbuffer_readline`; the first argument is the
number of iterations left, `t` is the local scan index. The result carries the
ring, the line buffer and the return value. -/
def ringbuffer_readline_loop :
    Nat → Nat → Nat → Nat → ringbuffer → (Nat → Nat) → ringbuffer × (Nat → Nat) × Nat
  | 0, _, _, maxchars, rb, linebuffer => (rb, linebuffer, maxchars)
  | n + 1, i, t, maxchars, rb, linebuffer =>
    let linebuffer1 := Function.update linebuffer i (rb.data t)
    let t1 := mask (u32 (t + 1))
    if linebuffer1 i = 10 then
      let linebuffer2 := Function.update linebuffer1 (i + 1) 0
      ({ rb with nl := rb.nl - 1, tail := t1 }, linebuffer2, i + 1)
    else
      ringbuffer_readline_loop n (i + 1) t1 maxchars rb linebuffer1

/-- `ringbuffer_readline`. -/
def ringbuffer_readline (rb : ringbuffer) (linebuffer : Nat → Nat) (maxchars : Nat) :
    ringbuffer × (Nat → Nat) × Nat :=
  if rb.nl = 0 then (rb, linebuffer, 0)
  else
    let maxchars1 := if maxchars > ringbuffer_canread rb then ringbuffer_canread rb else maxchars
    ringbuffer_readline_loop maxchars1 0 rb.tail maxchars1 rb linebuffer

/-- The `for` loop of `ringbuffer_scannl` with scan index `i`; `none` when the
exit test `i != head + 1` has not failed within `fuel` tests. -/
def ringbuffer_scannl_loop : Nat → Nat → ringbuffer → Option ringbuffer
  | 0, _, _ => none
  | fuel + 1, i, rb =>
    if i ≠ u32 (rb.head + 1) then
      let rb1 := if rb.data i = 10 then { rb with nl := u32 (rb.nl + 1) } else rb
      ringbuffer_scannl_loop fuel (mask (u32 (i + 1))) rb1
    else some rb

/-- `ringbuffer_scannl`. -/
def ringbuffer_scannl (fuel : Nat) (rb : ringbuffer) : Option ringbuffer :=
  ringbuffer_scannl_loop fuel rb.tail { rb with nl := 0 }

/-- Result of one `read(fd, p, n)`: `-1`, or the bytes the descriptor has
available (at most `n` of them are delivered). -/
inductive OsRead where
  | error
  | bytes (bs : List Nat)
  deriving DecidableEq, Repr

/-- The value of `rcv = read(fd, p, n)` as stored in an `unsigned int`. -/
def os_read_result (rd : OsRead) (n : Nat) : Nat :=
  match rd with
  | OsRead.error => UINT_MOD - 1
  | OsRead.bytes bs => min bs.length n

/-- The array after `read(fd, &mem[off], n)` stored what it delivered. -/
def os_read_store (rd : OsRead) (mem : Nat → Nat) (off n : Nat) : Nat → Nat :=
  match rd with
  | OsRead.error => mem
  | OsRead.bytes bs =>
    fun j => if off ≤ j ∧ j < off + min bs.length n then bs.getD (j - off) 0 else mem j

/-- The `while (rmn)` loop of `ringbuffer_writefromfd`. `fd k` is the result
of the `k`-th `read` issued on the descriptor; `calls` counts the reads issued
so far. Returns the ring, `rcvtot` and the number of reads issued. -/
def ringbuffer_writefromfd_loop :
    Nat → ringbuffer → (Nat → OsRead) → Nat → Nat → Nat → Option (ringbuffer × Nat × Nat)
  | 0, _, _, _, _, _ => none
  | fuel + 1, rb, fd, rmn, rcvtot, calls =>
    if rmn ≠ 0 then
      let r0 := usub BUFFER_SIZE rb.head
      let r := if r0 > rmn then rmn else r0
      let rcv := os_read_result (fd calls) r
      let data1 := os_read_store (fd calls) rb.data rb.head r
      let rcvtot1 := u32 (rcvtot + rcv)
      let rb1 := { rb with data := data1, head := mask (u32 (rb.head + rcv)) }
      if rcv < r then
        (ringbuffer_scannl fuel rb1).map (fun rb2 => (rb2, rcvtot1, calls + 1))
      else
        ringbuffer_writefromfd_loop fuel rb1 fd (usub rmn r) rcvtot1 (calls + 1)
    else
      (ringbuffer_scannl fuel rb).map (fun rb2 => (rb2, rcvtot, calls))

/-- `ringbuffer_writefromfd`. -/
def ringbuffer_writefromfd (fuel : Nat) (rb : ringbuffer) (fd : Nat → OsRead) (nchars : Nat) :
    Option (ringbuffer × Nat × Nat) :=
  let nchars1 := if nchars > ringbuffer_canwrite rb then ringbuffer_canwrite rb else nchars
  ringbuffer_writefromfd_loop fuel rb fd nchars1 0 0

/-- Body of the `for` loop of `ringbuffer_write`; the first argument is the
number of iterations left (`maxchars - i`). -/
def ringbuffer_write_loop : Nat → Nat → ringbuffer → (Nat → Nat) → ringbuffer
  | 0, _, rb, _ => rb
  | n + 1, i, rb, buffer =>
    let rb1 := { rb with data := Function.update rb.data rb.head (buffer i),
                         head := mask (u32 (rb.head + 1)) }
    let rb2 := if buffer i = 10 then { rb1 with nl := u32 (rb1.nl + 1) } else rb1
    ringbuffer_write_loop n (i + 1) rb2 buffer

/-- `ringbuffer_write`: returns the new ring and the returned count. -/
def ringbuffer_write (rb : ringbuffer) (buffer : Nat → Nat) (maxchars : Nat) : ringbuffer × Nat :=
  let maxchars1 := if maxchars > ringbuffer_canwrite rb then ringbuffer_canwrite rb else maxchars
  (ringbuffer_write_loop maxchars1 0 rb buffer, maxchars1)

/-! ### Specification vocabulary for rings -/

/-- The readable region: the bytes from `tail` (inclusive) to `head`
(exclusive), wrapping at `BUFFER_SIZE`. -/
def readable (rb : ringbuffer) : List Nat :=
  (List.range (ringbuffer_canread rb)).map (fun k => rb.data ((rb.tail + k) % BUFFER_SIZE))

/-- The newline invariant: `nl` is the number of `'\n'` bytes in the readable
region. -/
def nl_inv (rb : ringbuffer) : Prop :=
  rb.nl = (readable rb).count 10

instance (rb : ringbuffer) : Decidable (nl_inv rb) := by
  unfold nl_inv
  infer_instance

/-- The first `n` entries of a `char` array. -/
def bytes_of (buffer : Nat → Nat) (n : Nat) : List Nat :=
  (List.range n).map buffer

/-- The array holding the list `bs` from index 0 (zero elsewhere). -/
def array_of (bs : List Nat) : Nat → Nat :=
  fun i => bs.getD i 0

/-! ### Specification vocabulary for descriptor input -/

/-- The bytes a `read` result carries (none for `-1`). -/
def os_bytes : OsRead → List Nat
  | OsRead.error => []
  | OsRead.bytes bs => bs

/-- The number of bytes `ringbuffer_writefromfd` sets out to read: `nchars`
capped at `ringbuffer_canwrite`. -/
def ingest_limit (rb : ringbuffer) (nchars : Nat) : Nat :=
  min nchars (ringbuffer_canwrite rb)

/-- The size of the first `read`: the contiguous region from `head` to the end
of the array, capped at the limit. -/
def first_request (rb : ringbuffer) (nchars : Nat) : Nat :=
  min (1024 - rb.head) (ingest_limit rb nchars)

/-- A second `read` is due: the first one filled the contiguous region up to
the end of the array and the limit is not reached. -/
def second_read (rb : ringbuffer) (fd : Nat → OsRead) (nchars : Nat) : Prop :=
  ingest_limit rb nchars ≠ 0 ∧ first_request rb nchars ≤ (os_bytes (fd 0)).length ∧
  first_request rb nchars < ingest_limit rb nchars

instance (rb : ringbuffer) (fd : Nat → OsRead) (nchars : Nat) :
    Decidable (second_read rb fd nchars) := by
  unfold second_read
  infer_instance

/-- The bytes the operating system delivers to one `ringbuffer_writefromfd`
when no `read` fails: those of the first `read` and, when a second is due,
those of the second. -/
def ingested (rb : ringbuffer) (fd : Nat → OsRead) (nchars : Nat) : List Nat :=
  if ingest_limit rb nchars = 0 then []
  else if second_read rb fd nchars then
    (os_bytes (fd 0)).take (first_request rb nchars)
      ++ (os_bytes (fd 1)).take (ingest_limit rb nchars - first_request rb nchars)
  else (os_bytes (fd 0)).take (first_request rb nchars)

/-- The number of `read` calls that go with `ingested`. -/
def reads_issued (rb : ringbuffer) (fd : Nat → OsRead) (nchars : Nat) : Nat :=
  if ingest_limit rb nchars = 0 then 0
  else if second_read rb fd nchars then 2
  else 1

/-- The ring after one `read` of size `r` into `&data[head]` found the bytes
`bs`: the bytes stored and `head` advanced. -/
def ring_after_read (rb : ringbuffer) (bs : List Nat) (r : Nat) : ringbuffer :=
  { rb with data := os_read_store (OsRead.bytes bs) rb.data rb.head r,
            head := mask (u32 (rb.head + min bs.length r)) }

/-! ## Pointer arrays (`array`) -/

/-- The loop of `array_indexof`, at index `i` of the array. -/
def array_indexof_loop : List Nat → Nat → Nat → Int
  | [], _, _ => -1
  | x :: xs, element, i =>
    if x = element then (i : Int) else array_indexof_loop xs element (i + 1)

/-- `array_indexof`: index of the first occurrence, or `-1`. -/
def array_indexof (a : List Nat) (element : Nat) : Int :=
  array_indexof_loop a element 0

/-- `array_push`: append at the end. -/
def array_push (a : List Nat) (element : Nat) : List Nat :=
  a ++ [element]

/-- `array_delete`: remove the first occurrence, closing the gap. -/
def array_delete (a : List Nat) (element : Nat) : List Nat :=
  let i := array_indexof a element
  if i ≥ 0 then a.eraseIdx i.toNat else a

/-! ## Sockets -/

/-- The `printer_socket` struct (`termios`, `portname`, `baud` and
`lastmsgindex` are not modelled). `lastmsgsock` is a pointer; `none` stands for
the indeterminate value it has until it is first assigned. -/
structure printer_socket where
  fd : Int
  rxbuffer : ringbuffer
  txbuffer : ringbuffer
  lastmsgsock : Option Nat
  tokens : Int
  maxtoken : Int

/-- The `client_socket` struct; `addr` is kept as the text `sock2a` prints for
it. -/
structure client_socket where
  fd : Int
  rxbuffer : ringbuffer
  txbuffer : ringbuffer
  addr : List Nat

/-- A heap object; the constructor is the `type` tag (`SOCKTYPE_LOCAL`,
`SOCKTYPE_PRINTER`, `SOCKTYPE_CLIENT`, `SOCKTYPE_LISTEN`). -/
inductive sockobj where
  | local_socket (fd : Int)
  | printer (p : printer_socket)
  | client (c : client_socket)
  | listen (fd : Int)

/-- What `malloc` and the descriptor-returning call (`open`, `accept`) hand to
a constructor: the address of the object, the descriptor, the indeterminate
contents of the two `data` arrays and, for `accept`, the peer address as the
text `sock2a` prints for it. -/
structure Alloc where
  addr : Nat
  fd : Int
  rxdata : Nat → Nat
  txdata : Nat → Nat
  peer : List Nat

/-- `new_printer_socket` (configuration of the port is not modelled):
`tokens = maxtoken = 1`, both rings initialised, `lastmsgsock` not assigned. -/
def new_printer_socket (a : Alloc) : printer_socket :=
  { fd := a.fd
    rxbuffer := ringbuffer_init { head := 0, tail := 0, data := a.rxdata, nl := 0 }
    txbuffer := ringbuffer_init { head := 0, tail := 0, data := a.txdata, nl := 0 }
    lastmsgsock := none
    tokens := 1
    maxtoken := 1 }

/-- The client socket built in the `SOCKTYPE_LISTEN` read handler. -/
def new_client_socket (a : Alloc) : client_socket :=
  { fd := a.fd
    rxbuffer := ringbuffer_init { head := 0, tail := 0, data := a.rxdata, nl := 0 }
    txbuffer := ringbuffer_init { head := 0, tail := 0, data := a.txdata, nl := 0 }
    addr := a.peer }

/-! ## State of `main` -/

/-- The variables of `main` that the event loop uses, the heap of sockets and
the record of `write` calls issued on descriptors. -/
structure State where
  /-- The heap: address to socket object, `none` when not allocated. -/
  heap : Nat → Option sockobj
  /-- The pointer variable `printer`. -/
  printer : Nat
  readsockets : List Nat
  writesockets : List Nat
  errorsockets : List Nat
  /-- The array `char buf[1024]`. -/
  buf : Nat → Nat
  /-- The storage of the block-local array `char line[BUFFER_SIZE]`. -/
  line : Nat → Nat
  /-- Every `write(fd, p, n)` issued so far: the descriptor and the `n` bytes at `p`. -/
  writes : List (Int × List Nat)

/-- Start-up parameters: addresses of `stdin_sock` and of the printer socket,
the listening sockets, and the indeterminate contents of `buf` and `line`. -/
structure Config where
  stdin_addr : Nat
  printer : Alloc
  listeners : List (Nat × Int)
  buf : Nat → Nat
  line : Nat → Nat

/-- The state when `main` enters `while (running)`. -/
def init_state (c : Config) : State :=
  { heap := fun a =>
      if a = c.stdin_addr then some (sockobj.local_socket 0)
      else if a = c.printer.addr then some (sockobj.printer (new_printer_socket c.printer))
      else (c.listeners.find? (fun l => l.1 = a)).map (fun l => sockobj.listen l.2)
    printer := c.printer.addr
    readsockets := [c.stdin_addr, c.printer.addr] ++ c.listeners.map Prod.fst
    writesockets := []
    errorsockets := [c.stdin_addr, c.printer.addr] ++ c.listeners.map Prod.fst
    buf := c.buf
    line := c.line
    writes := [] }

/-! ## String helpers -/

/-- `strlen` of the string held in a `BUFFER_SIZE` array; `none` when the
array holds no NUL. -/
def c_strlen (a : Nat → Nat) : Option Nat :=
  (List.range BUFFER_SIZE).find? (fun i => a i = 0)

/-- `snprintf(buf, BUFFER_SIZE, "< %s", line)` for a string of length `len`:
the new `buf` and the returned count. -/
def snprintf_reply (buf line : Nat → Nat) (len : Nat) : (Nat → Nat) × Nat :=
  let src : Nat → Nat := fun j => if j = 0 then 60 else if j = 1 then 32 else line (j - 2)
  let m := len + 2
  let n := min m (BUFFER_SIZE - 1)
  (fun j => if j < n then src j else if j = n then 0 else buf j, m)

/-- `sock2a(address, buffer, length)` for an address whose printed text is
`text`: the `snprintf` into `buffer`, cut to `length - 1` characters and
NUL-terminated. -/
def sock2a (text : List Nat) (buffer : Nat → Nat) (length : Nat) : Nat → Nat :=
  let n := min text.length (length - 1)
  fun j => if j < n then text.getD j 0 else if j = n then 0 else buffer j

/-- `strncmp(line, "ok", 2) == 0`. -/
def strncmp_ok (line : Nat → Nat) : Bool :=
  line 0 = 111 ∧ line 1 = 107

/-! ## Read handlers -/

/-- `case SOCKTYPE_LOCAL` of the read dispatch, for the socket at `s` and the
result `rd` of `read(s->fd, buf, 1024)`. No successor state when the process
exits (`r == 0`) or `buf[r] = 0` lies outside `buf` (`r == -1`, `r == 1024`). -/
def local_read_handler (st : State) (s : Nat) (rd : OsRead) : Option State :=
  match rd with
  | OsRead.error => none
  | OsRead.bytes bs =>
    let r := min bs.length 1024
    if r = 0 ∨ r = 1024 then none
    else
      let buf1 := Function.update (os_read_store rd st.buf 0 1024) r 0
      match st.heap st.printer with
      | some (sockobj.printer p) =>
        let w := ringbuffer_write p.txbuffer buf1 r
        let p1 := { p with lastmsgsock := some s, txbuffer := w.1 }
        let ws :=
          if p1.tokens > 0 then
            if array_indexof st.writesockets st.printer = -1 then
              array_push st.writesockets st.printer
            else st.writesockets
          else st.writesockets
        some { st with heap := Function.update st.heap st.printer (some (sockobj.printer p1))
                       buf := buf1
                       writesockets := ws }
      | _ => none

/-- Routing of one response line (the `if`/`else if` on `lastmsgsock->type`):
`target` is the object `lastmsgsock` points to, at address `l`; `line` holds
the line, `r` is what `ringbuffer_readline` returned, `m` what `snprintf`
returned. -/
def route_line (st : State) (l : Nat) (target : sockobj) (line : Nat → Nat) (r m : Nat) : State :=
  match target with
  | sockobj.local_socket fd =>
    { st with writes := st.writes ++ [(fd, (List.range m).map st.buf)] }
  | sockobj.client cs =>
    let w := ringbuffer_write cs.txbuffer line r
    let cs1 := { cs with txbuffer := w.1 }
    { st with heap := Function.update st.heap l (some (sockobj.client cs1))
              writesockets :=
                if array_indexof st.writesockets l = -1 then array_push st.writesockets l
                else st.writesockets }
  | _ => st

/-- The acknowledgement test: `if (strncmp(line, "ok", 2) == 0)
if (sock->tokens < sock->maxtoken) sock->tokens++;`. -/
def ack_tokens (sock : printer_socket) (line : Nat → Nat) : printer_socket :=
  if strncmp_ok line then
    if sock.tokens < sock.maxtoken then { sock with tokens := sock.tokens + 1 }
    else sock
  else sock

/-- The body of `while (sock->rxbuffer.nl > 0)` in `case SOCKTYPE_PRINTER` of
the read dispatch, for the printer object `sock` at `s` whose `lastmsgsock`
points to `target` at `l`, `len` being `strlen(line)` after the
`ringbuffer_readline` (the `printf` to stdout is not modelled). -/
def printer_line_body (st : State) (s : Nat) (sock : printer_socket) (l : Nat)
    (target : sockobj) (len : Nat) : State :=
  let rl := ringbuffer_readline sock.rxbuffer st.line BUFFER_SIZE
  let sock1 := { sock with rxbuffer := rl.1 }
  let line1 := rl.2.1
  let r := rl.2.2
  let heap1 := Function.update st.heap s (some (sockobj.printer sock1))
  let sp := snprintf_reply st.buf line1 len
  let st1 : State := { st with heap := heap1, buf := sp.1, line := line1 }
  let st2 := route_line st1 l target line1 r sp.2
  { st2 with
    heap := Function.update st2.heap s (some (sockobj.printer (ack_tokens sock1 line1))) }

/-- One iteration of `while (sock->rxbuffer.nl > 0)`: the dereferences the
body makes, then the body. No successor state when `s` is not a printer
socket, `lastmsgsock` does not point to a live socket or `line` holds no
NUL. -/
def printer_line_step (st : State) (s : Nat) : Option State :=
  match st.heap s with
  | some (sockobj.printer sock) =>
    match sock.lastmsgsock with
    | none => none
    | some l =>
      match Function.update st.heap s (some (sockobj.printer
              { sock with rxbuffer := (ringbuffer_readline sock.rxbuffer st.line BUFFER_SIZE).1 })) l,
            c_strlen (ringbuffer_readline sock.rxbuffer st.line BUFFER_SIZE).2.1 with
      | some target, some len => some (printer_line_body st s sock l target len)
      | _, _ => none
  | _ => none

/-- The loop `while (sock->rxbuffer.nl > 0)`. -/
def printer_drain : Nat → State → Nat → Option State
  | 0, _, _ => none
  | fuel + 1, st, s =>
    match st.heap s with
    | some (sockobj.printer sock) =>
      if sock.rxbuffer.nl > 0 then
        (printer_line_step st s).bind (fun st1 => printer_drain fuel st1 s)
      else some st
    | _ => none

/-- `case SOCKTYPE_PRINTER` of the read dispatch. `fd` gives the results of
the `read` calls on the device, `a` what `new_printer_socket` obtains when the
device is reopened. -/
def printer_read_handler (fuel : Nat) (st : State) (s : Nat) (fd : Nat → OsRead) (a : Alloc) :
    Option State :=
  match st.heap s with
  | some (sockobj.printer sock) =>
    match ringbuffer_writefromfd fuel sock.rxbuffer fd BUFFER_SIZE with
    | none => none
    | some (rx1, r, _) =>
      if r = 0 then
        let heap1 := Function.update st.heap s none
        if (heap1 a.addr).isSome then none
        else
          some { st with
            heap := Function.update heap1 a.addr (some (sockobj.printer (new_printer_socket a)))
            readsockets := array_push (array_delete st.readsockets s) a.addr
            writesockets := array_delete st.writesockets s
            errorsockets := array_push (array_delete st.errorsockets s) a.addr }
      else
        printer_drain fuel
          { st with heap := Function.update st.heap s
                      (some (sockobj.printer { sock with rxbuffer := rx1 })) } s
  | _ => none

/-- `case SOCKTYPE_CLIENT` of the read dispatch (the `printf` calls are not
modelled; the `sock2a` of the submit branch fills a local array that is not
used afterwards). `fd` gives the results of the `read` calls on the client
socket. -/
def client_read_handler (fuel : Nat) (st : State) (s : Nat) (fd : Nat → OsRead) : Option State :=
  match st.heap s with
  | some (sockobj.client sock) =>
    match ringbuffer_writefromfd fuel sock.rxbuffer fd (ringbuffer_canwrite sock.rxbuffer) with
    | none => none
    | some (rx1, r, _) =>
      if r = 0 then
        some { st with heap := Function.update st.heap s none
                       buf := sock2a sock.addr st.buf BUFFER_SIZE
                       readsockets := array_delete st.readsockets s
                       writesockets := array_delete st.writesockets s
                       errorsockets := array_delete st.errorsockets s }
      else
        let sock1 := { sock with rxbuffer := rx1 }
        let heap1 := Function.update st.heap s (some (sockobj.client sock1))
        if sock1.rxbuffer.nl > 0 then
          match heap1 st.printer with
          | some (sockobj.printer p) =>
            if p.tokens > 0 then
              let rl := ringbuffer_readline sock1.rxbuffer st.buf BUFFER_SIZE
              let sock2 := { sock1 with rxbuffer := rl.1 }
              let buf1 := rl.2.1
              let w := ringbuffer_write p.txbuffer buf1 r
              let p1 := { p with lastmsgsock := some s, txbuffer := w.1 }
              let heap2 := Function.update heap1 s (some (sockobj.client sock2))
              some { st with
                heap := Function.update heap2 st.printer (some (sockobj.printer p1))
                buf := buf1
                writesockets :=
                  if array_indexof st.writesockets st.printer = -1 then
                    array_push st.writesockets st.printer
                  else st.writesockets }
            else some { st with heap := heap1 }
          | _ => none
        else some { st with heap := heap1 }
  | _ => none

/-- `case SOCKTYPE_LISTEN` of the read dispatch: `a` is what `malloc` and
`accept` return; `sock2a` leaves the peer address text in `buf`. -/
def listen_read_handler (st : State) (s : Nat) (a : Alloc) : Option State :=
  match st.heap s with
  | some (sockobj.listen _) =>
    if (st.heap a.addr).isSome then none
    else
      some { st with
        heap := Function.update st.heap a.addr (some (sockobj.client (new_client_socket a)))
        buf := sock2a a.peer st.buf BUFFER_SIZE
        readsockets := array_push st.readsockets a.addr
        errorsockets := array_push st.errorsockets a.addr }
  | _ => none

/-! ## Write handlers -/

/-- The end of `case SOCKTYPE_PRINTER` of the write dispatch:
`if ((ringbuffer_canread(&sock->txbuffer) == 0) || (sock->tokens == 0))
writesockets = array_delete(writesockets, sock);` with the socket stored back. -/
def printer_write_finish (st : State) (s : Nat) (sock : printer_socket) : State :=
  { st with
    heap := Function.update st.heap s (some (sockobj.printer sock))
    writesockets :=
      if ringbuffer_canread sock.txbuffer = 0 ∨ sock.tokens = 0 then
        array_delete st.writesockets s
      else st.writesockets }

/-- `case SOCKTYPE_PRINTER` of the write dispatch (the `printf` is not
modelled). -/
def printer_write_handler (st : State) (s : Nat) : Option State :=
  match st.heap s with
  | some (sockobj.printer sock) =>
    if sock.txbuffer.nl > 0 then
      let rl := ringbuffer_readline sock.txbuffer st.buf BUFFER_SIZE
      let r := rl.2.2
      let buf1 := Function.update rl.2.1 r 0
      some (printer_write_finish
        { st with buf := buf1, writes := st.writes ++ [(sock.fd, (List.range r).map buf1)] } s
        { sock with txbuffer := rl.1, tokens := sock.tokens - 1 })
    else some (printer_write_finish st s sock)
  | _ => none

/-- The end of `case SOCKTYPE_CLIENT` of the write dispatch:
`if (ringbuffer_canread(&sock->txbuffer) == 0)
writesockets = array_delete(writesockets, s);` with the socket stored back. -/
def client_write_finish (st : State) (s : Nat) (sock : client_socket) : State :=
  { st with
    heap := Function.update st.heap s (some (sockobj.client sock))
    writesockets :=
      if ringbuffer_canread sock.txbuffer = 0 then array_delete st.writesockets s
      else st.writesockets }

/-- `case SOCKTYPE_CLIENT` of the write dispatch; `w` is the result of the
`write` issued by `ringbuffer_readtofd`. -/
def client_write_handler (st : State) (s : Nat) (w : OsWrite) : Option State :=
  match st.heap s with
  | some (sockobj.client sock) =>
    if ringbuffer_canread sock.txbuffer > 0 then
      let rt := ringbuffer_readtofd sock.txbuffer w
      some (client_write_finish { st with writes := st.writes ++ [(sock.fd, rt.2.1)] } s
        { sock with txbuffer := rt.1 })
    else some (client_write_finish st s sock)
  | _ => none

/-! ## Dispatch -/

/-- A socket reported ready by `select`, with what the operating system will
answer to the calls its handler makes. -/
inductive Event where
  | readable (s : Nat) (fd : Nat → OsRead) (a : Alloc)
  | writable (s : Nat) (w : OsWrite)
  | errored (s : Nat)

/-- One handler run of the event loop: the read dispatch for a member of
`readsockets`, the write dispatch for a member of `writesockets`, the error
dispatch for a member of `errorsockets` (a `printf` and a `switch` whose cases
are all `break`). -/
def step (fuel : Nat) (st : State) : Event → Option State
  | Event.readable s fd a =>
    if s ∈ st.readsockets then
      match st.heap s with
      | some (sockobj.local_socket _) => local_read_handler st s (fd 0)
      | some (sockobj.printer _) => printer_read_handler fuel st s fd a
      | some (sockobj.client _) => client_read_handler fuel st s fd
      | some (sockobj.listen _) => listen_read_handler st s a
      | none => none
    else none
  | Event.writable s w =>
    if s ∈ st.writesockets then
      match st.heap s with
      | some (sockobj.local_socket _) => some st
      | some (sockobj.printer _) => printer_write_handler st s
      | some (sockobj.client _) => client_write_handler st s w
      | some (sockobj.listen _) => some st
      | none => none
    else none
  | Event.errored s =>
    if s ∈ st.errorsockets then
      match st.heap s with
      | some _ => some st
      | none => none
    else none

/-- States the event loop can be in between two handler runs. -/
inductive Reachable : State → Prop where
  | init (c : Config) : Reachable (init_state c)
  | step (fuel : Nat) (st st1 : State) (e : Event) :
      Reachable st → step fuel st e = some st1 → Reachable st1

/-- The socket an event is about. -/
def event_socket : Event → Nat
  | Event.readable s _ _ => s
  | Event.writable s _ => s
  | Event.errored s => s

/-- The event is a read-ready stdin socket (`SOCKTYPE_LOCAL`). -/
def is_stdin_read (st : State) : Event → Bool
  | Event.readable s _ _ =>
    match st.heap s with
    | some (sockobj.local_socket _) => true
    | _ => false
  | _ => false

/-- The event is a read-ready device whose `ringbuffer_writefromfd` returns 0,
which makes the handler reopen the device. -/
def is_reopen (fuel : Nat) (st : State) : Event → Bool
  | Event.readable s fd _ =>
    match st.heap s with
    | some (sockobj.printer sock) =>
      match ringbuffer_writefromfd fuel sock.rxbuffer fd BUFFER_SIZE with
      | some (_, r, _) => r = 0
      | none => false
    | _ => false
  | _ => false

/-- A run of handlers, one per event. -/
def run (fuel : Nat) (st : State) : List Event → Option State
  | [] => some st
  | e :: es => (step fuel st e).bind (fun st1 => run fuel st1 es)

/-- The token invariant of a state: `writesockets` holds no pointer twice, and
every device socket has `0 <= tokens <= maxtoken` and, when it is in
`writesockets`, `tokens > 0`. -/
def token_inv (st : State) : Prop :=
  st.writesockets.Nodup ∧
  ∀ a p, st.heap a = some (sockobj.printer p) →
    0 ≤ p.tokens ∧ p.tokens ≤ p.maxtoken ∧ (a ∈ st.writesockets → 0 < p.tokens)

/-! ## Specification vocabulary for lines -/

/-- The first line of a byte sequence: everything up to and including the
first `'\n'`. -/
def first_line (bs : List Nat) : List Nat :=
  bs.takeWhile (fun b => b ≠ 10) ++ [10]

/-- A byte sequence made of complete lines only: it is empty or its last byte
is `'\n'`. -/
def complete_lines (bs : List Nat) : Prop :=
  ∀ b, bs.getLast? = some b → b = 10

/-! ## Sample data -/

/-- A ring holding the two bytes `A`, `'\n'` at indices 0 and 1. -/
def sample_ring : ringbuffer :=
  { head := 2, tail := 0, data := array_of [65, 10], nl := 1 }

/-- An array holding `o`, `k`, `'\n'`. -/
def sample_bytes : Nat → Nat := array_of [111, 107, 10]

/-- An array of zero bytes. -/
def zero_bytes : Nat → Nat := fun _ => 0

/-- A ring holding the line `ok\n`. -/
def ok_ring : ringbuffer :=
  { head := 3, tail := 0, data := array_of [111, 107, 10], nl := 1 }

/-- An empty ring. -/
def empty_ring : ringbuffer :=
  { head := 0, tail := 0, data := zero_bytes, nl := 0 }

/-- A device with `ok\n` received, `A\n` to send, one token, last served the
socket at address 2. -/
def sample_printer : printer_socket :=
  { fd := 3, rxbuffer := ok_ring, txbuffer := sample_ring, lastmsgsock := some 2,
    tokens := 1, maxtoken := 1 }

/-- A client with empty rings. -/
def sample_client : client_socket :=
  { fd := 4, rxbuffer := empty_ring, txbuffer := empty_ring, addr := [] }

/-- A state with stdin at address 0, the device at 1 and one client at 2. -/
def sample_state : State :=
  { heap := fun a =>
      if a = 0 then some (sockobj.local_socket 0)
      else if a = 1 then some (sockobj.printer sample_printer)
      else if a = 2 then some (sockobj.client sample_client)
      else none
    printer := 1
    readsockets := [0, 1, 2]
    writesockets := [1]
    errorsockets := [0, 1, 2]
    buf := zero_bytes
    line := zero_bytes
    writes := [] }

/-- Start-up with stdin at address 0, the device at address 1 (descriptor 3)
and one listening socket at address 5 (descriptor 6). -/
def boot_config : Config :=
  { stdin_addr := 0
    printer := { addr := 1, fd := 3, rxdata := zero_bytes, txdata := zero_bytes, peer := [] }
    listeners := [(5, 6)]
    buf := zero_bytes
    line := zero_bytes }

/-- The listening socket is readable and `accept` yields a client at address 2
(descriptor 4) whose peer address prints as `1.2.3.4:5`. -/
def accept_event : Event :=
  Event.readable 5 (fun _ => OsRead.error)
    { addr := 2, fd := 4, rxdata := zero_bytes, txdata := zero_bytes,
      peer := [49, 46, 50, 46, 51, 46, 52, 58, 53] }

/-- The socket at `s` is readable and every `read` on it finds the bytes `bs`. -/
def read_event (s : Nat) (bs : List Nat) : Event :=
  Event.readable s (fun _ => OsRead.bytes bs)
    { addr := 0, fd := 0, rxdata := zero_bytes, txdata := zero_bytes, peer := [] }

/-- Readable content of the tx ring of the device `printer` points to. -/
def device_tx (st : State) : List Nat :=
  match st.heap st.printer with
  | some (sockobj.printer p) => readable p.txbuffer
  | _ => []

/-- Readable content of the rx ring of the client at `a`. -/
def client_rx (st : State) (a : Nat) : List Nat :=
  match st.heap a with
  | some (sockobj.client c) => readable c.rxbuffer
  | _ => []

/-- Readable content of the tx ring of the client at `a`. -/
def client_tx (st : State) (a : Nat) : List Nat :=
  match st.heap a with
  | some (sockobj.client c) => readable c.txbuffer
  | _ => []

/-- The token count of the device `printer` points to. -/
def device_tokens (st : State) : Option Int :=
  match st.heap st.printer with
  | some (sockobj.printer p) => some p.tokens
  | _ => none

/-- The token count and `maxtoken` of the device socket at address `a`. -/
def tokens_at (st : State) (a : Nat) : Option (Int × Int) :=
  match st.heap a with
  | some (sockobj.printer p) => some (p.tokens, p.maxtoken)
  | _ => none

/-- The newline count `txbuffer.nl` of the device `printer` points to. -/
def device_tx_nl (st : State) : Option Nat :=
  match st.heap st.printer with
  | some (sockobj.printer p) => some p.txbuffer.nl
  | _ => none

/-- The `lastmsgsock` of the device `printer` points to. -/
def device_lastmsgsock (st : State) : Option Nat :=
  match st.heap st.printer with
  | some (sockobj.printer p) => p.lastmsgsock
  | _ => none

/-- The sample state with the device's token taken: a command of the client at
address 2 is outstanding. -/
def stalled_state : State :=
  { sample_state with
    heap := fun a =>
      if a = 0 then some (sockobj.local_socket 0)
      else if a = 1 then some (sockobj.printer { sample_printer with tokens := 0 })
      else if a = 2 then some (sockobj.client sample_client)
      else none
    writesockets := [] }

/-- The stalled state after the client at address 2 has disconnected: its
socket is freed, the device's `lastmsgsock` still holds its address. -/
def orphaned_state : State :=
  { stalled_state with
    heap := fun a =>
      if a = 0 then some (sockobj.local_socket 0)
      else if a = 1 then some (sockobj.printer { sample_printer with tokens := 0 })
      else none
    readsockets := [0, 1]
    errorsockets := [0, 1] }

/-- A descriptor on which every `read` finds `B\n`. -/
def line_reads : Nat → OsRead := fun _ => OsRead.bytes [66, 10]

/-- The listening socket is readable and `accept` yields a second client, at
address 7 (descriptor 8), whose peer address prints as `6.7.8.9:5`. -/
def accept_event_b : Event :=
  Event.readable 5 (fun _ => OsRead.error)
    { addr := 7, fd := 8, rxdata := zero_bytes, txdata := zero_bytes,
      peer := [54, 46, 55, 46, 56, 46, 57, 58, 53] }

/-- The device (address 1) is readable and its `read` returns 0 bytes; the
reopened device is allocated at address 9 and gets descriptor 3. -/
def reopen_event : Event :=
  Event.readable 1 (fun _ => OsRead.bytes [])
    { addr := 9, fd := 3, rxdata := zero_bytes, txdata := zero_bytes, peer := [] }

/-- The socket at `s` is readable and every `read` on it returns `-1`. -/
def error_read_event (s : Nat) : Event :=
  Event.readable s (fun _ => OsRead.error)
    { addr := 0, fd := 0, rxdata := zero_bytes, txdata := zero_bytes, peer := [] }

/-- A ring holding the byte `A`, with `'\n'` in the unused slot at `head`. -/
def nl_at_head_ring : ringbuffer :=
  { head := 1, tail := 0, data := array_of [65, 10], nl := 0 }

/-- A full ring (1023 readable bytes, index 5 unused) whose first readable
byte is `'\n'`. -/
def full_ring : ringbuffer :=
  { head := 5, tail := 6, data := fun i => if i = 6 then 10 else 0, nl := 0 }

/-- A ring holding two bytes just before the end of the array. -/
def wrap_ring : ringbuffer :=
  { head := 1022, tail := 1020, data := zero_bytes, nl := 0 }

/-- A descriptor whose first `read` finds `AB` and whose later reads find
`C\n`. -/
def two_reads : Nat → OsRead :=
  fun k => if k = 0 then OsRead.bytes [65, 66] else OsRead.bytes [67, 10]

/-- A ring whose `head` is the last index of the array. -/
def last_index_ring : ringbuffer :=
  { head := 1023, tail := 0, data := zero_bytes, nl := 0 }

/-- The byte `A` 1023 times: as many bytes as an empty ring can take. -/
def fill_bytes : List Nat :=
  List.replicate 1023 65

/-! ## Ring buffer lemmas -/

theorem mask_eq (x : Nat) : mask x = x % 1024 :=
  Nat.and_pow_two_sub_one_eq_mod x 10

theorem canread_eq (rb : ringbuffer) (hh : rb.head < 1024) (ht : rb.tail < 1024) :
    ringbuffer_canread rb = (rb.head + 1024 - rb.tail) % 1024 := by
  simp only [ringbuffer_canread, mask_eq, usub, UINT_MOD]
  omega

theorem canwrite_eq (rb : ringbuffer) (hh : rb.head < 1024) (ht : rb.tail < 1024) :
    ringbuffer_canwrite rb = (rb.tail + 1023 - rb.head) % 1024 := by
  simp only [ringbuffer_canwrite, mask_eq, usub, UINT_MOD]
  omega

theorem canread_lt (rb : ringbuffer) : ringbuffer_canread rb < 1024 := by
  simp only [ringbuffer_canread, mask_eq]
  omega

theorem canwrite_lt (rb : ringbuffer) : ringbuffer_canwrite rb < 1024 := by
  simp only [ringbuffer_canwrite, mask_eq]
  omega

theorem readable_length (rb : ringbuffer) : (readable rb).length = ringbuffer_canread rb := by
  simp [readable]

theorem readable_count_le (rb : ringbuffer) : (readable rb).count 10 ≤ 1023 := by
  have h1 := List.count_le_length 10 (readable rb)
  have h2 := canread_lt rb
  rw [readable_length] at h1
  omega

theorem readable_getElem (rb : ringbuffer) (k : Nat) (hk : k < (readable rb).length) :
    (readable rb)[k] = rb.data ((rb.tail + k) % 1024) := by
  simp [readable]

/-- Storing one byte at `head` and advancing `head` appends the byte to the
readable region. -/
theorem readable_push (rb rb1 : ringbuffer) (c : Nat) (hh : rb.head < 1024) (ht : rb.tail < 1024)
    (hw : 0 < ringbuffer_canwrite rb) (h1 : rb1.tail = rb.tail)
    (h2 : rb1.head = mask (u32 (rb.head + 1)))
    (h3 : rb1.data = Function.update rb.data rb.head c) :
    readable rb1 = readable rb ++ [c] := by
  have hh1 : rb1.head < 1024 := by rw [h2, mask_eq]; omega
  have ht1 : rb1.tail < 1024 := by rw [h1]; exact ht
  have hcw := canwrite_eq rb hh ht
  have hcr := canread_eq rb hh ht
  have hcr1 := canread_eq rb1 hh1 ht1
  rw [h2, h1, mask_eq] at hcr1
  simp only [u32, UINT_MOD] at hcr1
  have hn : ringbuffer_canread rb1 = ringbuffer_canread rb + 1 := by omega
  unfold readable
  rw [hn, List.range_succ, List.map_append, h1, h3]
  congr 1
  · apply List.map_congr_left
    intro k hk
    rw [List.mem_range] at hk
    have hne : (rb.tail + k) % BUFFER_SIZE ≠ rb.head := by
      simp only [BUFFER_SIZE]; omega
    simp [Function.update, hne]
  · have he : (rb.tail + ringbuffer_canread rb) % BUFFER_SIZE = rb.head := by
      simp only [BUFFER_SIZE]; omega
    rw [List.map_singleton, he, Function.update_same]

/-- Advancing `tail` by one removes the first byte of the readable region. -/
theorem readable_pop (rb rb1 : ringbuffer) (hh : rb.head < 1024) (ht : rb.tail < 1024)
    (hr : 0 < ringbuffer_canread rb) (h1 : rb1.head = rb.head)
    (h2 : rb1.tail = mask (u32 (rb.tail + 1))) (h3 : rb1.data = rb.data) :
    readable rb = rb.data rb.tail :: readable rb1 := by
  have ht1 : rb1.tail < 1024 := by rw [h2, mask_eq]; omega
  have hh1 : rb1.head < 1024 := by rw [h1]; exact hh
  have hcr := canread_eq rb hh ht
  have hcr1 := canread_eq rb1 hh1 ht1
  rw [h2, h1, mask_eq] at hcr1
  simp only [u32, UINT_MOD] at hcr1
  have hn : ringbuffer_canread rb = ringbuffer_canread rb1 + 1 := by omega
  unfold readable
  rw [hn, List.range_succ_eq_map, List.map_cons, List.map_map, h3, h2, mask_eq]
  congr 1
  · simp only [BUFFER_SIZE, Nat.add_zero]
    rw [Nat.mod_eq_of_lt ht]
  · apply List.map_congr_left
    intro k _
    simp only [Function.comp, u32, BUFFER_SIZE, UINT_MOD]
    congr 1
    omega

theorem canwrite_push (rb rb1 : ringbuffer) (hh : rb.head < 1024) (ht : rb.tail < 1024)
    (hw : 0 < ringbuffer_canwrite rb) (h1 : rb1.tail = rb.tail)
    (h2 : rb1.head = mask (u32 (rb.head + 1))) :
    rb1.head < 1024 ∧ ringbuffer_canwrite rb1 + 1 = ringbuffer_canwrite rb := by
  have hh1 : rb1.head < 1024 := by rw [h2, mask_eq]; omega
  have ht1 : rb1.tail < 1024 := by rw [h1]; exact ht
  have hcw := canwrite_eq rb hh ht
  have hcw1 := canwrite_eq rb1 hh1 ht1
  rw [h2, h1, mask_eq] at hcw1
  simp only [u32, UINT_MOD] at hcw1
  exact ⟨hh1, by omega⟩

theorem canread_add_canwrite (rb : ringbuffer) (hh : rb.head < 1024) (ht : rb.tail < 1024) :
    ringbuffer_canread rb + ringbuffer_canwrite rb = 1023 := by
  rw [canread_eq rb hh ht, canwrite_eq rb hh ht]
  omega

/-- What the `for` loop of `ringbuffer_write` does in `n` iterations when the
ring has room for `n` bytes. -/
theorem write_loop_spec (buffer : Nat → Nat) :
    ∀ (n i : Nat) (rb : ringbuffer), rb.head < 1024 → rb.tail < 1024 →
      n ≤ ringbuffer_canwrite rb →
      (ringbuffer_write_loop n i rb buffer).tail = rb.tail ∧
      (ringbuffer_write_loop n i rb buffer).head < 1024 ∧
      readable (ringbuffer_write_loop n i rb buffer)
        = readable rb ++ (List.range n).map (fun k => buffer (i + k)) ∧
      (nl_inv rb → nl_inv (ringbuffer_write_loop n i rb buffer)) := by
  intro n
  induction n with
  | zero =>
    intro i rb hh _ _
    simp [ringbuffer_write_loop, hh]
  | succ n ih =>
    intro i rb hh ht hn
    have hw : 0 < ringbuffer_canwrite rb := by omega
    -- the ring after one iteration
    obtain ⟨rb2, hrb2, h2t, h2h, h2d, h2nl⟩ :
        ∃ rb2 : ringbuffer,
          ringbuffer_write_loop (n + 1) i rb buffer = ringbuffer_write_loop n (i + 1) rb2 buffer ∧
          rb2.tail = rb.tail ∧ rb2.head = mask (u32 (rb.head + 1)) ∧
          rb2.data = Function.update rb.data rb.head (buffer i) ∧
          rb2.nl = if buffer i = 10 then u32 (rb.nl + 1) else rb.nl := by
      refine ⟨{ head := mask (u32 (rb.head + 1)), tail := rb.tail,
                data := Function.update rb.data rb.head (buffer i),
                nl := if buffer i = 10 then u32 (rb.nl + 1) else rb.nl }, ?_, rfl, rfl, rfl, rfl⟩
      by_cases hc : buffer i = 10
      · simp only [ringbuffer_write_loop, hc, if_true]
      · simp only [ringbuffer_write_loop, hc, if_false]
    have hpush := readable_push rb rb2 (buffer i) hh ht hw h2t h2h h2d
    obtain ⟨hh2, hcw2⟩ := canwrite_push rb rb2 hh ht hw h2t h2h
    have ht2 : rb2.tail < 1024 := by rw [h2t]; exact ht
    obtain ⟨iht, ihh, ihr, ihnl⟩ := ih (i + 1) rb2 hh2 ht2 (by omega)
    rw [hrb2]
    refine ⟨by rw [iht, h2t], ihh, ?_, ?_⟩
    · rw [ihr, hpush, List.range_succ_eq_map, List.map_cons, List.map_map, List.append_assoc]
      congr 1
      simp only [List.singleton_append, Nat.add_zero, List.cons.injEq, true_and]
      apply List.map_congr_left
      intro k _
      simp only [Function.comp]
      congr 1
      omega
    · intro hinv
      apply ihnl
      unfold nl_inv at hinv ⊢
      rw [h2nl, hpush, List.count_append, hinv]
      have hle := readable_count_le rb
      by_cases hc : buffer i = 10
      · simp only [hc, if_true, u32, UINT_MOD, List.count_singleton_self]
        omega
      · have : List.count 10 [buffer i] = 0 := by
          rw [List.count_eq_zero]
          simp only [List.mem_singleton]
          exact fun h => hc h.symm
        simp only [hc, if_false, this, Nat.add_zero]

/-- What the `for` loop of `ringbuffer_read` does in `n` iterations when the
ring holds at least `n` bytes. -/
theorem read_loop_spec :
    ∀ (n i : Nat) (rb : ringbuffer) (buffer : Nat → Nat), rb.head < 1024 → rb.tail < 1024 →
      n ≤ ringbuffer_canread rb →
      (ringbuffer_read_loop n i rb buffer).1.head = rb.head ∧
      (ringbuffer_read_loop n i rb buffer).1.data = rb.data ∧
      (ringbuffer_read_loop n i rb buffer).1.tail = (rb.tail + n) % 1024 ∧
      readable rb = (List.range n).map (fun k => (ringbuffer_read_loop n i rb buffer).2 (i + k))
        ++ readable (ringbuffer_read_loop n i rb buffer).1 ∧
      (∀ j, j < i ∨ i + n ≤ j → (ringbuffer_read_loop n i rb buffer).2 j = buffer j) ∧
      (nl_inv rb → nl_inv (ringbuffer_read_loop n i rb buffer).1) := by
  intro n
  induction n with
  | zero =>
    intro i rb buffer _ ht _
    simp [ringbuffer_read_loop, Nat.mod_eq_of_lt ht]
  | succ n ih =>
    intro i rb buffer hh ht hn
    have hr : 0 < ringbuffer_canread rb := by omega
    obtain ⟨rb2, hrb2, h2h, h2t, h2d, h2nl⟩ :
        ∃ rb2 : ringbuffer,
          ringbuffer_read_loop (n + 1) i rb buffer
            = ringbuffer_read_loop n (i + 1) rb2 (Function.update buffer i (rb.data rb.tail)) ∧
          rb2.head = rb.head ∧ rb2.tail = mask (u32 (rb.tail + 1)) ∧ rb2.data = rb.data ∧
          rb2.nl = if rb.data rb.tail = 10 ∧ rb.nl > 0 then rb.nl - 1 else rb.nl := by
      refine ⟨{ head := rb.head, tail := mask (u32 (rb.tail + 1)), data := rb.data,
                nl := if rb.data rb.tail = 10 ∧ rb.nl > 0 then rb.nl - 1 else rb.nl },
              ?_, rfl, rfl, rfl, rfl⟩
      by_cases hc : rb.data rb.tail = 10 ∧ rb.nl > 0
      · simp only [ringbuffer_read_loop, Function.update_same, hc, and_self, if_true]
      · simp only [ringbuffer_read_loop, Function.update_same, hc, if_false]
    have hpop := readable_pop rb rb2 hh ht hr h2h h2t h2d
    have hh2 : rb2.head < 1024 := by rw [h2h]; exact hh
    have ht2 : rb2.tail < 1024 := by rw [h2t, mask_eq]; omega
    have hlen : ringbuffer_canread rb = ringbuffer_canread rb2 + 1 := by
      have := congrArg List.length hpop
      simpa [readable_length] using this
    obtain ⟨ihh, ihd, iht, ihr, ihf, ihnl⟩ :=
      ih (i + 1) rb2 (Function.update buffer i (rb.data rb.tail)) hh2 ht2 (by omega)
    rw [hrb2]
    refine ⟨by rw [ihh, h2h], by rw [ihd, h2d], ?_, ?_, ?_, ?_⟩
    · rw [iht, h2t, mask_eq]
      simp only [u32, UINT_MOD]
      omega
    · rw [hpop, List.range_succ_eq_map, List.map_cons, List.map_map, List.cons_append]
      congr 1
      · have h0 := ihf i (Or.inl (Nat.lt_succ_self i))
        simp only [Nat.add_zero, h0, Function.update_same]
      · rw [ihr]
        congr 1
        apply List.map_congr_left
        intro k _
        simp only [Function.comp, Nat.succ_eq_add_one]
        rw [show i + (k + 1) = i + 1 + k from by omega]
    · intro j hj
      rw [ihf j (by omega), Function.update_noteq (by omega)]
    · intro hinv
      apply ihnl
      unfold nl_inv at hinv ⊢
      rw [hpop, List.count_cons] at hinv
      rw [h2nl]
      by_cases hc : rb.data rb.tail = 10
      · simp only [hc, beq_self_eq_true, if_true] at hinv
        have hpos : rb.nl > 0 := by omega
        simp only [hc, hpos, and_self, if_true]
        omega
      · have hne : (rb.data rb.tail == 10) = false := by simpa using hc
        simp only [hne] at hinv
        simp only [hc, false_and, if_false]
        simpa using hinv

theorem mask_u32_succ (t : Nat) (_ : t < 1024) : mask (u32 (t + 1)) = (t + 1) % 1024 := by
  rw [mask_eq]
  simp only [u32, UINT_MOD]
  omega

/-- The `for` loop of `ringbuffer_readline` when the first `'\n'` from the scan
index `t` lies `m` bytes ahead and within the `n` iterations left. -/
theorem readline_loop_found (rb : ringbuffer) (maxchars : Nat) :
    ∀ (m n i t : Nat) (lb : Nat → Nat), t < 1024 → m < n →
      rb.data ((t + m) % 1024) = 10 → (∀ k, k < m → rb.data ((t + k) % 1024) ≠ 10) →
      (ringbuffer_readline_loop n i t maxchars rb lb).1
        = { rb with nl := rb.nl - 1, tail := (t + m + 1) % 1024 } ∧
      (ringbuffer_readline_loop n i t maxchars rb lb).2.2 = i + m + 1 ∧
      (∀ k, k ≤ m →
        (ringbuffer_readline_loop n i t maxchars rb lb).2.1 (i + k) = rb.data ((t + k) % 1024)) ∧
      (ringbuffer_readline_loop n i t maxchars rb lb).2.1 (i + m + 1) = 0 ∧
      (∀ j, j < i ∨ i + m + 1 < j →
        (ringbuffer_readline_loop n i t maxchars rb lb).2.1 j = lb j) := by
  intro m
  induction m with
  | zero =>
    intro n i t lb ht hmn h10 _
    obtain ⟨n, rfl⟩ : ∃ n1, n = n1 + 1 := ⟨n - 1, by omega⟩
    have ht0 : rb.data t = 10 := by
      rw [Nat.add_zero, Nat.mod_eq_of_lt ht] at h10
      exact h10
    simp only [ringbuffer_readline_loop, Function.update_same, ht0, if_true, Nat.add_zero]
    refine ⟨by rw [mask_u32_succ t ht], trivial, ?_, trivial, ?_⟩
    · intro k hk
      obtain rfl : k = 0 := by omega
      simp only [Nat.add_zero]
      rw [Nat.mod_eq_of_lt ht, ht0, Function.update_noteq (by omega), Function.update_same]
    · intro j hj
      rw [Function.update_noteq (by omega), Function.update_noteq (by omega)]
  | succ m ih =>
    intro n i t lb ht hmn h10 hne
    obtain ⟨n, rfl⟩ : ∃ n1, n = n1 + 1 := ⟨n - 1, by omega⟩
    have ht0 : rb.data t ≠ 10 := by
      have := hne 0 (by omega)
      rw [Nat.add_zero, Nat.mod_eq_of_lt ht] at this
      exact this
    have hidx : ∀ k, ((t + 1) % 1024 + k) % 1024 = (t + (k + 1)) % 1024 := by
      intro k; omega
    have hstep : ringbuffer_readline_loop (n + 1) i t maxchars rb lb
        = ringbuffer_readline_loop n (i + 1) ((t + 1) % 1024) maxchars rb
            (Function.update lb i (rb.data t)) := by
      simp only [ringbuffer_readline_loop, Function.update_same, ht0, if_false,
        mask_u32_succ t ht]
    obtain ⟨h1, h2, h3, h4, h5⟩ := ih n (i + 1) ((t + 1) % 1024)
      (Function.update lb i (rb.data t)) (by omega) (by omega)
      (by rw [hidx]; exact h10)
      (by intro k hk; rw [hidx]; exact hne (k + 1) (by omega))
    rw [hstep]
    refine ⟨?_, by rw [h2]; omega, ?_, ?_, ?_⟩
    · rw [h1]
      congr 1
      omega
    · intro k hk
      cases k with
      | zero =>
        simp only [Nat.add_zero]
        rw [h5 i (Or.inl (Nat.lt_succ_self i)), Function.update_same, Nat.mod_eq_of_lt ht]
      | succ k =>
        have := h3 k (by omega)
        rw [hidx] at this
        rw [← this, show i + (k + 1) = i + 1 + k from by omega]
    · rw [← h4, show i + (m + 1) + 1 = i + 1 + m + 1 from by omega]
    · intro j hj
      rw [h5 j (by omega), Function.update_noteq (by omega)]

/-- The `for` loop of `ringbuffer_readline` when none of the `n` bytes it scans
is `'\n'`: the ring is left as it was and `maxchars` is returned. -/
theorem readline_loop_not_found (rb : ringbuffer) (maxchars : Nat) :
    ∀ (n i t : Nat) (lb : Nat → Nat), t < 1024 →
      (∀ k, k < n → rb.data ((t + k) % 1024) ≠ 10) →
      (ringbuffer_readline_loop n i t maxchars rb lb).1 = rb ∧
      (ringbuffer_readline_loop n i t maxchars rb lb).2.2 = maxchars := by
  intro n
  induction n with
  | zero =>
    intro i t lb _ _
    simp [ringbuffer_readline_loop]
  | succ n ih =>
    intro i t lb ht hne
    have ht0 : rb.data t ≠ 10 := by
      have := hne 0 (by omega)
      rw [Nat.add_zero, Nat.mod_eq_of_lt ht] at this
      exact this
    have hidx : ∀ k, ((t + 1) % 1024 + k) % 1024 = (t + (k + 1)) % 1024 := by
      intro k; omega
    have hstep : ringbuffer_readline_loop (n + 1) i t maxchars rb lb
        = ringbuffer_readline_loop n (i + 1) ((t + 1) % 1024) maxchars rb
            (Function.update lb i (rb.data t)) := by
      simp only [ringbuffer_readline_loop, Function.update_same, ht0, if_false,
        mask_u32_succ t ht]
    rw [hstep]
    exact ih (i + 1) ((t + 1) % 1024) _ (by omega)
      (by intro k hk; rw [hidx]; exact hne (k + 1) (by omega))

/-- Advancing `tail` by `j` drops the first `j` readable bytes. -/
theorem readable_advance (rb rb1 : ringbuffer) (j : Nat) (hh : rb.head < 1024)
    (ht : rb.tail < 1024) (hj : j ≤ ringbuffer_canread rb) (h1 : rb1.head = rb.head)
    (h2 : rb1.tail = (rb.tail + j) % 1024) (h3 : rb1.data = rb.data) :
    readable rb1 = (readable rb).drop j := by
  have ht1 : rb1.tail < 1024 := by rw [h2]; omega
  have hh1 : rb1.head < 1024 := by rw [h1]; exact hh
  have hcr := canread_eq rb hh ht
  have hcr1 := canread_eq rb1 hh1 ht1
  rw [h2, h1] at hcr1
  have hn : ringbuffer_canread rb1 = ringbuffer_canread rb - j := by omega
  apply List.ext_getElem
  · rw [List.length_drop, readable_length, readable_length, hn]
  · intro k hk1 hk2
    rw [List.getElem_drop, readable_getElem, readable_getElem, h3, h2]
    congr 1
    omega

theorem readable_getElem? (rb : ringbuffer) (k : Nat) (hk : k < ringbuffer_canread rb) :
    (readable rb)[k]? = some (rb.data ((rb.tail + k) % 1024)) := by
  have hk1 : k < (readable rb).length := by rw [readable_length]; exact hk
  rw [List.getElem?_eq_getElem hk1, readable_getElem]

/-- A list that contains `'\n'` has a first position holding it. -/
theorem exists_first_nl :
    ∀ (l : List Nat), 10 ∈ l →
      ∃ m, m < l.length ∧ l[m]? = some 10 ∧ ∀ k, k < m → l[k]? ≠ some 10 := by
  intro l
  induction l with
  | nil => intro h; simp at h
  | cons x xs ih =>
    intro h
    by_cases hx : x = 10
    · exact ⟨0, by simp, by simp [hx], by intro k hk; omega⟩
    · have hmem : 10 ∈ xs := by
        rcases List.mem_cons.mp h with h1 | h1
        · exact absurd h1.symm hx
        · exact h1
      obtain ⟨m, hm, h10, hne⟩ := ih hmem
      refine ⟨m + 1, by simp [hm], by simpa using h10, ?_⟩
      intro k hk
      cases k with
      | zero => simp [hx]
      | succ k => simpa using hne k (by omega)

/-- Up to and including the first `'\n'` a list is its `first_line`. -/
theorem take_eq_first_line :
    ∀ (l : List Nat) (m : Nat), l[m]? = some 10 → (∀ k, k < m → l[k]? ≠ some 10) →
      l.take (m + 1) = first_line l := by
  intro l
  induction l with
  | nil => intro m h; simp at h
  | cons x xs ih =>
    intro m h10 hne
    cases m with
    | zero =>
      have hx : x = 10 := by simpa using h10
      simp [first_line, hx]
    | succ m =>
      have hx : x ≠ 10 := by
        have := hne 0 (by omega)
        simpa using this
      have hrec := ih m (by simpa using h10)
        (by intro k hk; simpa using hne (k + 1) (by omega))
      simp only [first_line] at hrec ⊢
      rw [List.take_succ_cons, hrec, List.takeWhile_cons]
      simp [hx]

theorem first_line_count (l : List Nat) : (first_line l).count 10 = 1 := by
  unfold first_line
  rw [List.count_append, List.count_singleton_self]
  have : List.count 10 (List.takeWhile (fun b => decide (b ≠ 10)) l) = 0 := by
    rw [List.count_eq_zero]
    intro hmem
    have := List.mem_takeWhile_imp hmem
    simp at this
  omega

theorem first_line_length_pos (l : List Nat) : 1 ≤ (first_line l).length := by
  simp [first_line]

theorem bytes_of_length (buffer : Nat → Nat) (n : Nat) : (bytes_of buffer n).length = n := by
  simp [bytes_of]

theorem bytes_of_array_of (bs : List Nat) : bytes_of (array_of bs) bs.length = bs := by
  apply List.ext_getElem
  · simp [bytes_of]
  · intro k hk1 hk2
    simp only [bytes_of, array_of, List.getElem_map, List.getElem_range]
    rw [List.getD_eq_getElem?_getD, List.getElem?_eq_getElem hk2]
    rfl

/-- The complete effect of `ringbuffer_write`. -/
theorem write_spec (rb : ringbuffer) (buffer : Nat → Nat) (maxchars : Nat)
    (hh : rb.head < 1024) (ht : rb.tail < 1024) :
    (ringbuffer_write rb buffer maxchars).2 = min maxchars (ringbuffer_canwrite rb) ∧
    (ringbuffer_write rb buffer maxchars).1.tail = rb.tail ∧
    (ringbuffer_write rb buffer maxchars).1.head < 1024 ∧
    readable (ringbuffer_write rb buffer maxchars).1
      = readable rb ++ bytes_of buffer (ringbuffer_write rb buffer maxchars).2 ∧
    (nl_inv rb → nl_inv (ringbuffer_write rb buffer maxchars).1) := by
  have hn : (if maxchars > ringbuffer_canwrite rb then ringbuffer_canwrite rb else maxchars)
      = min maxchars (ringbuffer_canwrite rb) := by
    split <;> omega
  obtain ⟨h1, h2, h3, h4⟩ := write_loop_spec buffer (min maxchars (ringbuffer_canwrite rb)) 0 rb
    hh ht (by omega)
  simp only [ringbuffer_write, hn]
  refine ⟨trivial, h1, h2, ?_, h4⟩
  rw [h3]
  simp [bytes_of]

/-- The complete effect of `ringbuffer_read`. -/
theorem read_spec (rb : ringbuffer) (buffer : Nat → Nat) (maxchars : Nat)
    (hh : rb.head < 1024) (ht : rb.tail < 1024) :
    (ringbuffer_read rb buffer maxchars).2.2 = min maxchars (ringbuffer_canread rb) ∧
    (ringbuffer_read rb buffer maxchars).1.head = rb.head ∧
    (ringbuffer_read rb buffer maxchars).1.tail < 1024 ∧
    readable rb = bytes_of (ringbuffer_read rb buffer maxchars).2.1
        (ringbuffer_read rb buffer maxchars).2.2
      ++ readable (ringbuffer_read rb buffer maxchars).1 ∧
    (nl_inv rb → nl_inv (ringbuffer_read rb buffer maxchars).1) := by
  have hn : (if maxchars > ringbuffer_canread rb then ringbuffer_canread rb else maxchars)
      = min maxchars (ringbuffer_canread rb) := by
    split <;> omega
  obtain ⟨h1, _, h3, h4, _, h6⟩ :=
    read_loop_spec (min maxchars (ringbuffer_canread rb)) 0 rb buffer hh ht (by omega)
  simp only [ringbuffer_read, hn]
  refine ⟨trivial, h1, by rw [h3]; omega, ?_, h6⟩
  conv_lhs => rw [h4]
  simp [bytes_of]

/-- `ringbuffer_readline` when the first `'\n'` of the readable region is at
position `m`, within the `maxchars` bytes it may scan. -/
theorem readline_found (rb : ringbuffer) (lb : Nat → Nat) (maxchars m : Nat)
    (hh : rb.head < 1024) (ht : rb.tail < 1024) (hnl : rb.nl ≠ 0)
    (hm1 : m < maxchars) (hm2 : m < ringbuffer_canread rb)
    (h10 : (readable rb)[m]? = some 10) (hne : ∀ k, k < m → (readable rb)[k]? ≠ some 10) :
    (ringbuffer_readline rb lb maxchars).1
      = { rb with nl := rb.nl - 1, tail := (rb.tail + m + 1) % 1024 } ∧
    (ringbuffer_readline rb lb maxchars).2.2 = m + 1 ∧
    bytes_of (ringbuffer_readline rb lb maxchars).2.1 (m + 1) = first_line (readable rb) ∧
    (readable rb).take (m + 1) = first_line (readable rb) ∧
    (ringbuffer_readline rb lb maxchars).2.1 (m + 1) = 0 ∧
    (∀ j, m + 1 < j → (ringbuffer_readline rb lb maxchars).2.1 j = lb j) ∧
    readable (ringbuffer_readline rb lb maxchars).1 = (readable rb).drop (m + 1) := by
  have hn : (if maxchars > ringbuffer_canread rb then ringbuffer_canread rb else maxchars)
      = min maxchars (ringbuffer_canread rb) := by
    split <;> omega
  have hd10 : rb.data ((rb.tail + m) % 1024) = 10 := by
    rw [readable_getElem? rb m hm2] at h10
    exact Option.some.inj h10
  have hdne : ∀ k, k < m → rb.data ((rb.tail + k) % 1024) ≠ 10 := by
    intro k hk hc
    have := hne k hk
    rw [readable_getElem? rb k (by omega)] at this
    exact this (by rw [hc])
  obtain ⟨h1, h2, h3, h4, h5⟩ := readline_loop_found rb (min maxchars (ringbuffer_canread rb))
    m (min maxchars (ringbuffer_canread rb)) 0 rb.tail lb ht (by omega) hd10 hdne
  have htake := take_eq_first_line (readable rb) m h10 hne
  simp only [ringbuffer_readline, hnl, if_false, hn]
  refine ⟨h1, by rw [h2]; omega, ?_, htake, ?_, ?_, ?_⟩
  · rw [← htake]
    apply List.ext_getElem
    · rw [bytes_of_length, List.length_take, readable_length]
      omega
    · intro k hk1 hk2
      rw [bytes_of_length] at hk1
      simp only [bytes_of, List.getElem_map, List.getElem_range, List.getElem_take]
      rw [readable_getElem]
      have := h3 k (by omega)
      rw [Nat.zero_add] at this
      exact this
  · have := h4
    rw [Nat.zero_add] at this
    exact this
  · intro j hj
    exact h5 j (Or.inr (by omega))
  · rw [h1]
    exact readable_advance rb _ (m + 1) hh ht (by omega) rfl rfl rfl

/-- `ringbuffer_readline` keeps the indices in range and the newline count
exact, whatever `maxchars` is. -/
theorem readline_inv (rb : ringbuffer) (lb : Nat → Nat) (maxchars : Nat)
    (hh : rb.head < 1024) (ht : rb.tail < 1024) (hinv : nl_inv rb) :
    (ringbuffer_readline rb lb maxchars).1.head < 1024 ∧
    (ringbuffer_readline rb lb maxchars).1.tail < 1024 ∧
    nl_inv (ringbuffer_readline rb lb maxchars).1 := by
  by_cases hnl : rb.nl = 0
  · simp only [ringbuffer_readline, hnl, if_true]
    exact ⟨hh, ht, hinv⟩
  · by_cases hex : ∃ k, k < min maxchars (ringbuffer_canread rb) ∧
        rb.data ((rb.tail + k) % 1024) = 10
    · -- a newline is within reach: take the first one
      have hmem : 10 ∈ (readable rb).take (min maxchars (ringbuffer_canread rb)) := by
        obtain ⟨k, hk, h10⟩ := hex
        rw [List.mem_iff_getElem?]
        refine ⟨k, ?_⟩
        rw [List.getElem?_take_of_lt hk, readable_getElem? rb k (by omega), h10]
      obtain ⟨m, hm, h10, hne⟩ := exists_first_nl _ hmem
      rw [List.length_take, readable_length] at hm
      rw [List.getElem?_take_of_lt (by omega)] at h10
      have hne1 : ∀ k, k < m → (readable rb)[k]? ≠ some 10 := by
        intro k hk
        have := hne k hk
        rw [List.getElem?_take_of_lt (by omega)] at this
        exact this
      obtain ⟨h1, _, _, htake, _, _, hdrop⟩ :=
        readline_found rb lb maxchars m hh ht hnl (by omega) (by omega) h10 hne1
      refine ⟨by rw [h1]; exact hh, by rw [h1]; show (rb.tail + m + 1) % 1024 < 1024; omega, ?_⟩
      unfold nl_inv at hinv ⊢
      rw [hdrop]
      have hsplit := List.take_append_drop (m + 1) (readable rb)
      have hcount := congrArg (List.count 10) hsplit
      rw [List.count_append, htake, first_line_count] at hcount
      rw [h1]
      show rb.nl - 1 = _
      omega
    · -- no newline within reach: the ring is not changed
      have hn : (if maxchars > ringbuffer_canread rb then ringbuffer_canread rb else maxchars)
          = min maxchars (ringbuffer_canread rb) := by
        split <;> omega
      have hall : ∀ k, k < min maxchars (ringbuffer_canread rb) →
          rb.data ((rb.tail + k) % 1024) ≠ 10 := by
        intro k hk hc
        exact hex ⟨k, hk, hc⟩
      obtain ⟨h1, _⟩ := readline_loop_not_found rb (min maxchars (ringbuffer_canread rb))
        (min maxchars (ringbuffer_canread rb)) 0 rb.tail lb ht hall
      simp only [ringbuffer_readline, hnl, if_false, hn, h1]
      exact ⟨hh, ht, hinv⟩

/-- Under the newline invariant a non-zero count means a `'\n'` is readable. -/
theorem mem_of_nl_inv (rb : ringbuffer) (hinv : nl_inv rb) (hnl : rb.nl ≠ 0) :
    10 ∈ readable rb := by
  unfold nl_inv at hinv
  have : 0 < (readable rb).count 10 := by omega
  exact List.count_pos_iff.mp this

/-- `ringbuffer_readline` with `maxchars >= BUFFER_SIZE` on a ring that holds a
`'\n'` and whose newline count is not zero: it takes exactly the first line. -/
theorem readline_line (rb : ringbuffer) (lb : Nat → Nat) (maxchars : Nat)
    (hh : rb.head < 1024) (ht : rb.tail < 1024) (hmem : 10 ∈ readable rb) (hnl : rb.nl ≠ 0)
    (hmax : 1024 ≤ maxchars) :
    (ringbuffer_readline rb lb maxchars).2.2 = (first_line (readable rb)).length ∧
    (first_line (readable rb)).length ≤ ringbuffer_canread rb ∧
    bytes_of (ringbuffer_readline rb lb maxchars).2.1 (first_line (readable rb)).length
      = first_line (readable rb) ∧
    (readable rb).take (first_line (readable rb)).length = first_line (readable rb) ∧
    (ringbuffer_readline rb lb maxchars).2.1 (first_line (readable rb)).length = 0 ∧
    (∀ j, (first_line (readable rb)).length < j →
      (ringbuffer_readline rb lb maxchars).2.1 j = lb j) ∧
    (ringbuffer_readline rb lb maxchars).1
      = { rb with nl := rb.nl - 1,
                  tail := (rb.tail + (first_line (readable rb)).length) % 1024 } ∧
    readable (ringbuffer_readline rb lb maxchars).1
      = (readable rb).drop (first_line (readable rb)).length := by
  obtain ⟨m, hm, h10, hne⟩ := exists_first_nl _ hmem
  rw [readable_length] at hm
  have hlt := canread_lt rb
  obtain ⟨h1, h2, h3, h4, h5, h6, h7⟩ :=
    readline_found rb lb maxchars m hh ht hnl (by omega) hm h10 hne
  have hlen : (first_line (readable rb)).length = m + 1 := by
    rw [← h4, List.length_take, readable_length]
    omega
  rw [hlen]
  exact ⟨h2, by omega, h3, h4, h5, h6, h1, h7⟩

theorem first_line_last (l : List Nat) :
    (first_line l)[(first_line l).length - 1]? = some 10 := by
  simp [first_line]

theorem first_line_before_last (l : List Nat) (k : Nat) (hk : k + 1 < (first_line l).length) :
    (first_line l)[k]? ≠ some 10 := by
  simp only [first_line, List.length_append, List.length_singleton] at hk ⊢
  have hk1 : k < (List.takeWhile (fun b => decide (b ≠ 10)) l).length := by omega
  rw [List.getElem?_append_left hk1, List.getElem?_eq_getElem hk1]
  intro hc
  have hmem := List.getElem_mem hk1
  have := List.mem_takeWhile_imp hmem
  rw [Option.some.inj hc] at this
  simp at this

theorem bytes_of_getElem? (buffer : Nat → Nat) (n k : Nat) (hk : k < n) :
    (bytes_of buffer n)[k]? = some (buffer k) := by
  simp [bytes_of, hk]

theorem canread_of_empty (rb : ringbuffer) (he : rb.head = rb.tail) (ht : rb.tail < 1024) :
    ringbuffer_canread rb = 0 ∧ ringbuffer_canwrite rb = 1023 ∧ readable rb = [] := by
  have hh : rb.head < 1024 := by rw [he]; exact ht
  have h1 : ringbuffer_canread rb = 0 := by rw [canread_eq rb hh ht]; omega
  have h2 : ringbuffer_canwrite rb = 1023 := by rw [canwrite_eq rb hh ht]; omega
  refine ⟨h1, h2, ?_⟩
  apply List.eq_nil_of_length_eq_zero
  rw [readable_length, h1]

/-! ## Pointer array lemmas -/

theorem array_indexof_loop_spec (element : Nat) :
    ∀ (l : List Nat) (i : Nat),
      (element ∉ l → array_indexof_loop l element i = -1) ∧
      (element ∈ l → ∃ k, array_indexof_loop l element i = ((i + k : Nat) : Int) ∧
        l.eraseIdx k = l.erase element) := by
  intro l
  induction l with
  | nil =>
    intro i
    simp [array_indexof_loop]
  | cons x xs ih =>
    intro i
    by_cases hx : x = element
    · subst hx
      refine ⟨by simp, fun _ => ⟨0, ?_, ?_⟩⟩
      · simp [array_indexof_loop]
      · simp
    · obtain ⟨ih1, ih2⟩ := ih (i + 1)
      refine ⟨?_, ?_⟩
      · intro hnot
        have : element ∉ xs := fun h => hnot (List.mem_cons_of_mem _ h)
        simp only [array_indexof_loop, hx, if_false]
        exact ih1 this
      · intro hmem
        have hmem1 : element ∈ xs := by
          rcases List.mem_cons.mp hmem with h | h
          · exact absurd h.symm hx
          · exact h
        obtain ⟨k, hk1, hk2⟩ := ih2 hmem1
        refine ⟨k + 1, ?_, ?_⟩
        · simp only [array_indexof_loop, hx, if_false, hk1]
          congr 1
          omega
        · rw [List.eraseIdx_cons_succ, hk2, List.erase_cons_tail]
          simpa using hx

theorem array_indexof_eq_neg_one (a : List Nat) (element : Nat) :
    array_indexof a element = -1 ↔ element ∉ a := by
  constructor
  · intro h hmem
    obtain ⟨k, hk, _⟩ := (array_indexof_loop_spec element a 0).2 hmem
    unfold array_indexof at h
    rw [hk] at h
    omega
  · intro h
    exact (array_indexof_loop_spec element a 0).1 h

theorem array_delete_eq_erase (a : List Nat) (element : Nat) :
    array_delete a element = a.erase element := by
  unfold array_delete array_indexof
  by_cases hmem : element ∈ a
  · obtain ⟨k, hk, hk2⟩ := (array_indexof_loop_spec element a 0).2 hmem
    simp only [hk, Nat.zero_add]
    rw [if_pos (by omega)]
    simpa using hk2
  · rw [(array_indexof_loop_spec element a 0).1 hmem, List.erase_of_not_mem hmem]
    simp

/-- The guarded push `if (array_indexof(a, e) == -1) a = array_push(a, e)`. -/
theorem guarded_push_nodup (a : List Nat) (element : Nat) (h : a.Nodup) :
    (if array_indexof a element = -1 then array_push a element else a).Nodup := by
  by_cases hi : array_indexof a element = -1
  · rw [if_pos hi]
    have hnot := (array_indexof_eq_neg_one a element).1 hi
    unfold array_push
    rw [List.nodup_append]
    refine ⟨h, List.nodup_singleton _, ?_⟩
    intro x hx hx1
    rw [List.mem_singleton] at hx1
    subst hx1
    exact hnot hx
  · rw [if_neg hi]
    exact h

theorem guarded_push_mem (a : List Nat) (element x : Nat) :
    x ∈ (if array_indexof a element = -1 then array_push a element else a)
      ↔ x ∈ a ∨ x = element := by
  by_cases hi : array_indexof a element = -1
  · rw [if_pos hi]
    simp [array_push]
  · rw [if_neg hi]
    have hmem : element ∈ a := by
      by_contra hc
      exact hi ((array_indexof_eq_neg_one a element).2 hc)
    constructor
    · exact fun h => Or.inl h
    · rintro (h | h)
      · exact h
      · rw [h]; exact hmem

theorem array_delete_nodup (a : List Nat) (element : Nat) (h : a.Nodup) :
    (array_delete a element).Nodup := by
  rw [array_delete_eq_erase]
  exact h.erase element

theorem array_delete_mem (a : List Nat) (element x : Nat) (h : a.Nodup) :
    x ∈ array_delete a element ↔ x ≠ element ∧ x ∈ a := by
  rw [array_delete_eq_erase]
  exact h.mem_erase_iff

/-! ## Handler lemmas -/

theorem c_strlen_some (a : Nat → Nat) (n : Nat) (hn : n < 1024) (h : a n = 0) :
    ∃ len, c_strlen a = some len := by
  have : (c_strlen a).isSome := by
    unfold c_strlen
    rw [List.find?_isSome]
    exact ⟨n, List.mem_range.mpr hn, by simp [h]⟩
  exact Option.isSome_iff_exists.mp this

theorem printer_line_step_eq (st : State) (s : Nat) (sock : printer_socket) (l : Nat)
    (target : sockobj) (len : Nat)
    (hs : st.heap s = some (sockobj.printer sock)) (hl : sock.lastmsgsock = some l)
    (ht : Function.update st.heap s (some (sockobj.printer
            { sock with rxbuffer := (ringbuffer_readline sock.rxbuffer st.line BUFFER_SIZE).1 })) l
          = some target)
    (hlen : c_strlen (ringbuffer_readline sock.rxbuffer st.line BUFFER_SIZE).2.1 = some len) :
    printer_line_step st s = some (printer_line_body st s sock l target len) := by
  simp only [printer_line_step, hs, hl, hlen]
  simp only [hl] at ht
  rw [ht]

theorem printer_line_step_inv (st st1 : State) (s : Nat)
    (h : printer_line_step st s = some st1) :
    ∃ sock l target len, st.heap s = some (sockobj.printer sock) ∧ sock.lastmsgsock = some l ∧
      Function.update st.heap s (some (sockobj.printer
            { sock with rxbuffer := (ringbuffer_readline sock.rxbuffer st.line BUFFER_SIZE).1 })) l
          = some target ∧
      st1 = printer_line_body st s sock l target len := by
  unfold printer_line_step at h
  split at h
  · rename_i sock hs
    split at h
    · exact absurd h (by simp)
    · rename_i l hl
      split at h
      · rename_i target len ht hlen
        exact ⟨sock, l, target, len, hs, hl, ht, (Option.some.inj h).symm⟩
      · exact absurd h (by simp)
  · exact absurd h (by simp)

theorem printer_line_body_heap_self (st : State) (s : Nat) (sock : printer_socket) (l : Nat)
    (target : sockobj) (len : Nat) :
    (printer_line_body st s sock l target len).heap s
      = some (sockobj.printer (ack_tokens
          { sock with rxbuffer := (ringbuffer_readline sock.rxbuffer st.line BUFFER_SIZE).1 }
          (ringbuffer_readline sock.rxbuffer st.line BUFFER_SIZE).2.1)) := by
  simp [printer_line_body]

theorem printer_line_body_heap_other (st : State) (s : Nat) (sock : printer_socket) (l : Nat)
    (target : sockobj) (len : Nat) (a : Nat) (ha1 : a ≠ s) (ha2 : a ≠ l) :
    (printer_line_body st s sock l target len).heap a = st.heap a := by
  cases target <;> simp [printer_line_body, route_line, Function.update_noteq ha1,
    Function.update_noteq ha2]

theorem printer_line_body_heap_client (st : State) (s : Nat) (sock : printer_socket) (l : Nat)
    (cs : client_socket) (len : Nat) (hne : l ≠ s) :
    (printer_line_body st s sock l (sockobj.client cs) len).heap l
      = some (sockobj.client { cs with txbuffer :=
          (ringbuffer_write cs.txbuffer
            (ringbuffer_readline sock.rxbuffer st.line BUFFER_SIZE).2.1
            (ringbuffer_readline sock.rxbuffer st.line BUFFER_SIZE).2.2).1 }) := by
  simp [printer_line_body, route_line, Function.update_noteq hne]

theorem printer_line_body_writesockets_client (st : State) (s : Nat) (sock : printer_socket)
    (l : Nat) (cs : client_socket) (len : Nat) :
    (printer_line_body st s sock l (sockobj.client cs) len).writesockets
      = if array_indexof st.writesockets l = -1 then array_push st.writesockets l
        else st.writesockets := by
  simp [printer_line_body, route_line]

theorem printer_line_body_writesockets_other (st : State) (s : Nat) (sock : printer_socket)
    (l : Nat) (target : sockobj) (len : Nat) (h : ∀ cs, target ≠ sockobj.client cs) :
    (printer_line_body st s sock l target len).writesockets = st.writesockets := by
  cases target with
  | client cs => exact absurd rfl (h cs)
  | local_socket fd => simp [printer_line_body, route_line]
  | printer p => simp [printer_line_body, route_line]
  | listen fd => simp [printer_line_body, route_line]

theorem ack_tokens_fields (sock : printer_socket) (line : Nat → Nat) :
    (ack_tokens sock line).maxtoken = sock.maxtoken ∧
    (ack_tokens sock line).rxbuffer = sock.rxbuffer ∧
    (ack_tokens sock line).txbuffer = sock.txbuffer ∧
    (ack_tokens sock line).lastmsgsock = sock.lastmsgsock ∧
    (ack_tokens sock line).tokens
      = if strncmp_ok line = true ∧ sock.tokens < sock.maxtoken then sock.tokens + 1
        else sock.tokens := by
  unfold ack_tokens
  by_cases h1 : strncmp_ok line = true <;> by_cases h2 : sock.tokens < sock.maxtoken <;>
    simp [h1, h2]

/-! ## The token invariant -/

theorem token_inv_init (c : Config) : token_inv (init_state c) := by
  refine ⟨List.nodup_nil, ?_⟩
  intro a p hp
  simp only [init_state] at hp
  split at hp
  · simp at hp
  · split at hp
    · have : p = new_printer_socket c.printer := by
        have := Option.some.inj hp
        injection this with h
        exact h.symm
      subst this
      simp [new_printer_socket, init_state]
    · cases hf : List.find? (fun l => decide (l.1 = a)) c.listeners with
      | none => simp [hf] at hp
      | some v => simp [hf] at hp

/-- A state whose device sockets all come, with their token counts, from
device sockets of a state that has the token invariant, and whose
`writesockets` gained at most pointers to device sockets with `tokens > 0`,
has the token invariant. -/
theorem token_inv_frame (st st1 : State) (hinv : token_inv st)
    (hnd : st1.writesockets.Nodup)
    (hp : ∀ a q, st1.heap a = some (sockobj.printer q) →
      (∃ p, st.heap a = some (sockobj.printer p) ∧ q.maxtoken = p.maxtoken ∧
        (q.tokens = p.tokens ∨ (q.tokens = p.tokens + 1 ∧ p.tokens < p.maxtoken)) ∧
        (a ∈ st1.writesockets → a ∈ st.writesockets ∨ 0 < q.tokens)) ∨
      (q.tokens = 1 ∧ q.maxtoken = 1)) :
    token_inv st1 := by
  obtain ⟨_, hall⟩ := hinv
  refine ⟨hnd, ?_⟩
  intro a q hq
  rcases hp a q hq with ⟨p, hp1, hp2, hp3, hp4⟩ | ⟨h1, h2⟩
  · obtain ⟨h0, h1, h2⟩ := hall a p hp1
    refine ⟨by omega, by omega, ?_⟩
    intro hm
    rcases hp4 hm with h | h
    · have := h2 h
      omega
    · exact h
  · exact ⟨by omega, by omega, fun _ => by omega⟩

theorem token_inv_local_read (st st1 : State) (s : Nat) (rd : OsRead)
    (h : local_read_handler st s rd = some st1) (hinv : token_inv st) : token_inv st1 := by
  unfold local_read_handler at h
  split at h
  · exact absurd h (by simp)
  · rename_i bs
    dsimp only at h
    split at h
    · exact absurd h (by simp)
    · split at h
      · rename_i p hp
        have hst1 := (Option.some.inj h).symm
        subst hst1
        apply token_inv_frame st _ hinv
        · show (if p.tokens > 0 then _ else _ : List Nat).Nodup
          split
          · exact guarded_push_nodup _ _ hinv.1
          · exact hinv.1
        · intro a q hq
          left
          by_cases ha : a = st.printer
          · subst ha
            simp only [Function.update_same, Option.some.injEq, sockobj.printer.injEq] at hq
            subst hq
            refine ⟨p, hp, rfl, Or.inl rfl, ?_⟩
            intro hm
            change st.printer ∈ (if p.tokens > 0 then _ else _ : List Nat) at hm
            split at hm
            · rename_i hpos
              exact Or.inr hpos
            · exact Or.inl hm
          · simp only [Function.update_noteq ha] at hq
            refine ⟨q, hq, rfl, Or.inl rfl, ?_⟩
            intro hm
            change a ∈ (if p.tokens > 0 then _ else _ : List Nat) at hm
            split at hm
            · rcases (guarded_push_mem _ _ _).mp hm with h1 | h1
              · exact Or.inl h1
              · exact absurd h1 ha
            · exact Or.inl hm
      · exact absurd h (by simp)

theorem token_inv_listen_read (st st1 : State) (s : Nat) (a : Alloc)
    (h : listen_read_handler st s a = some st1) (hinv : token_inv st) : token_inv st1 := by
  unfold listen_read_handler at h
  split at h
  · split at h
    · exact absurd h (by simp)
    · have hst1 := (Option.some.inj h).symm
      subst hst1
      apply token_inv_frame st _ hinv
      · exact hinv.1
      · intro b q hq
        left
        by_cases hb : b = a.addr
        · subst hb
          simp [Function.update_same] at hq
        · simp only [Function.update_noteq hb] at hq
          exact ⟨q, hq, rfl, Or.inl rfl, fun hm => Or.inl hm⟩
  · exact absurd h (by simp)

theorem token_inv_client_write_finish (st st0 : State) (s : Nat) (sock : client_socket)
    (hinv : token_inv st) (hheap : st0.heap = st.heap)
    (hws : st0.writesockets = st.writesockets) :
    token_inv (client_write_finish st0 s sock) := by
  apply token_inv_frame st _ hinv
  · show (if _ then _ else _ : List Nat).Nodup
    rw [hws]
    split
    · exact array_delete_nodup _ _ hinv.1
    · exact hinv.1
  · intro b q hq
    left
    have hq1 : Function.update st0.heap s (some (sockobj.client sock)) b
        = some (sockobj.printer q) := hq
    by_cases hb : b = s
    · subst hb
      simp [Function.update_same] at hq1
    · rw [Function.update_noteq hb, hheap] at hq1
      refine ⟨q, hq1, rfl, Or.inl rfl, ?_⟩
      intro hm
      change b ∈ (if _ then _ else _ : List Nat) at hm
      rw [hws] at hm
      split at hm
      · exact Or.inl ((array_delete_mem _ _ _ hinv.1).mp hm).2
      · exact Or.inl hm

theorem token_inv_client_write (st st1 : State) (s : Nat) (w : OsWrite)
    (h : client_write_handler st s w = some st1) (hinv : token_inv st) : token_inv st1 := by
  unfold client_write_handler at h
  split at h
  · rename_i sock hs
    split at h
    · have hst1 := (Option.some.inj h).symm
      subst hst1
      exact token_inv_client_write_finish st _ s _ hinv rfl rfl
    · have hst1 := (Option.some.inj h).symm
      subst hst1
      exact token_inv_client_write_finish st _ s _ hinv rfl rfl
  · exact absurd h (by simp)

theorem token_inv_printer_write_finish (st st0 : State) (s : Nat) (sock0 : printer_socket)
    (hinv : token_inv st) (hheap : st0.heap = st.heap)
    (hws : st0.writesockets = st.writesockets)
    (h0 : 0 ≤ sock0.tokens) (h1 : sock0.tokens ≤ sock0.maxtoken) :
    token_inv (printer_write_finish st0 s sock0) := by
  obtain ⟨hnd, hall⟩ := hinv
  refine ⟨?_, ?_⟩
  · show (if _ then _ else _ : List Nat).Nodup
    rw [hws]
    split
    · exact array_delete_nodup _ _ hnd
    · exact hnd
  · intro b q hq
    have hq1 : Function.update st0.heap s (some (sockobj.printer sock0)) b
        = some (sockobj.printer q) := hq
    by_cases hb : b = s
    · subst hb
      simp only [Function.update_same, Option.some.injEq, sockobj.printer.injEq] at hq1
      subst hq1
      refine ⟨h0, h1, ?_⟩
      intro hm
      change b ∈ (if _ then _ else _ : List Nat) at hm
      rw [hws] at hm
      split at hm
      · exact absurd rfl ((array_delete_mem _ _ _ hnd).mp hm).1
      · rename_i hc
        have : sock0.tokens ≠ 0 := fun h => hc (Or.inr h)
        omega
    · rw [Function.update_noteq hb, hheap] at hq1
      obtain ⟨hq0, hq1', hq2⟩ := hall b q hq1
      refine ⟨hq0, hq1', ?_⟩
      intro hm
      apply hq2
      change b ∈ (if _ then _ else _ : List Nat) at hm
      rw [hws] at hm
      split at hm
      · exact ((array_delete_mem _ _ _ hnd).mp hm).2
      · exact hm

theorem token_inv_printer_write (st st1 : State) (s : Nat)
    (h : printer_write_handler st s = some st1) (hinv : token_inv st)
    (hmem : s ∈ st.writesockets) : token_inv st1 := by
  unfold printer_write_handler at h
  split at h
  · rename_i sock hs
    obtain ⟨h0, h1, h2⟩ := hinv.2 s sock hs
    have hpos := h2 hmem
    split at h
    · have hst1 := (Option.some.inj h).symm
      subst hst1
      exact token_inv_printer_write_finish st _ s _ hinv rfl rfl
        (by show 0 ≤ sock.tokens - 1; omega) (by show sock.tokens - 1 ≤ sock.maxtoken; omega)
    · have hst1 := (Option.some.inj h).symm
      subst hst1
      exact token_inv_printer_write_finish st _ s _ hinv rfl rfl h0 h1
  · exact absurd h (by simp)

theorem token_inv_printer_line_step (st st1 : State) (s : Nat)
    (h : printer_line_step st s = some st1) (hinv : token_inv st) : token_inv st1 := by
  obtain ⟨sock, l, target, len, hs, _, htarget, hst1⟩ := printer_line_step_inv st st1 s h
  subst hst1
  obtain ⟨a1, _, _, _, a5⟩ := ack_tokens_fields
    { sock with rxbuffer := (ringbuffer_readline sock.rxbuffer st.line BUFFER_SIZE).1 }
    (ringbuffer_readline sock.rxbuffer st.line BUFFER_SIZE).2.1
  apply token_inv_frame st _ hinv
  · by_cases hc : ∃ cs, target = sockobj.client cs
    · obtain ⟨cs, rfl⟩ := hc
      rw [printer_line_body_writesockets_client]
      exact guarded_push_nodup _ _ hinv.1
    · rw [printer_line_body_writesockets_other _ _ _ _ _ _ (fun cs h => hc ⟨cs, h⟩)]
      exact hinv.1
  · intro a q hq
    left
    by_cases ha : a = s
    · subst ha
      rw [printer_line_body_heap_self] at hq
      simp only [Option.some.injEq, sockobj.printer.injEq] at hq
      subst hq
      refine ⟨sock, hs, a1, ?_, ?_⟩
      · rw [a5]
        split
        · rename_i hc
          exact Or.inr ⟨rfl, hc.2⟩
        · exact Or.inl rfl
      · intro hm
        left
        by_cases hc : ∃ cs, target = sockobj.client cs
        · obtain ⟨cs, rfl⟩ := hc
          rw [printer_line_body_writesockets_client] at hm
          rcases (guarded_push_mem _ _ _).mp hm with h1 | h1
          · exact h1
          · subst h1
            rw [Function.update_same] at htarget
            simp at htarget
        · rw [printer_line_body_writesockets_other _ _ _ _ _ _ (fun cs h => hc ⟨cs, h⟩)] at hm
          exact hm
    · by_cases hc : ∃ cs, target = sockobj.client cs
      · obtain ⟨cs, rfl⟩ := hc
        by_cases hal : a = l
        · subst hal
          rw [printer_line_body_heap_client _ _ _ _ _ _ ha] at hq
          simp at hq
        · rw [printer_line_body_heap_other _ _ _ _ _ _ a ha hal] at hq
          refine ⟨q, hq, rfl, Or.inl rfl, ?_⟩
          intro hm
          rw [printer_line_body_writesockets_client] at hm
          rcases (guarded_push_mem _ _ _).mp hm with h1 | h1
          · exact Or.inl h1
          · exact absurd h1 hal
      · have hheap : (printer_line_body st s sock l target len).heap a = st.heap a := by
          cases target with
          | client cs => exact absurd ⟨cs, rfl⟩ hc
          | local_socket fd => simp [printer_line_body, route_line, Function.update_noteq ha]
          | printer p => simp [printer_line_body, route_line, Function.update_noteq ha]
          | listen fd => simp [printer_line_body, route_line, Function.update_noteq ha]
        rw [hheap] at hq
        refine ⟨q, hq, rfl, Or.inl rfl, ?_⟩
        intro hm
        rw [printer_line_body_writesockets_other _ _ _ _ _ _ (fun cs h => hc ⟨cs, h⟩)] at hm
        exact Or.inl hm

theorem token_inv_printer_drain (s : Nat) :
    ∀ (fuel : Nat) (st st1 : State), printer_drain fuel st s = some st1 → token_inv st →
      token_inv st1 := by
  intro fuel
  induction fuel with
  | zero =>
    intro st st1 h _
    simp [printer_drain] at h
  | succ fuel ih =>
    intro st st1 h hinv
    unfold printer_drain at h
    split at h
    · split at h
      · cases hstep : printer_line_step st s with
        | none => simp [hstep] at h
        | some st2 =>
          simp only [hstep, Option.bind_some] at h
          exact ih st2 st1 h (token_inv_printer_line_step st st2 s hstep hinv)
      · have hst1 := (Option.some.inj h).symm
        subst hst1
        exact hinv
    · exact absurd h (by simp)

/-- Replacing a socket object by one of the same kind with the same token
fields keeps the token invariant. -/
theorem token_inv_update_printer (st : State) (s : Nat) (sock sock1 : printer_socket)
    (hinv : token_inv st) (hs : st.heap s = some (sockobj.printer sock))
    (ht : sock1.tokens = sock.tokens) (hm : sock1.maxtoken = sock.maxtoken) :
    token_inv { st with heap := Function.update st.heap s (some (sockobj.printer sock1)) } := by
  apply token_inv_frame st _ hinv
  · exact hinv.1
  · intro a q hq
    left
    have hq1 : Function.update st.heap s (some (sockobj.printer sock1)) a
        = some (sockobj.printer q) := hq
    by_cases ha : a = s
    · subst ha
      simp only [Function.update_same, Option.some.injEq, sockobj.printer.injEq] at hq1
      subst hq1
      exact ⟨sock, hs, hm, Or.inl ht, fun h => Or.inl h⟩
    · rw [Function.update_noteq ha] at hq1
      exact ⟨q, hq1, rfl, Or.inl rfl, fun h => Or.inl h⟩

theorem token_inv_printer_read (fuel : Nat) (st st1 : State) (s : Nat) (fd : Nat → OsRead)
    (a : Alloc) (h : printer_read_handler fuel st s fd a = some st1) (hinv : token_inv st) :
    token_inv st1 := by
  unfold printer_read_handler at h
  split at h
  · rename_i sock hs
    split at h
    · exact absurd h (by simp)
    · rename_i rx1 r calls hw
      split at h
      · dsimp only at h
        split at h
        · exact absurd h (by simp)
        · rename_i hfree
          have hst1 := (Option.some.inj h).symm
          subst hst1
          apply token_inv_frame st _ hinv
          · exact array_delete_nodup _ _ hinv.1
          · intro b q hq
            have hq1 : Function.update (Function.update st.heap s none) a.addr
                (some (sockobj.printer (new_printer_socket a))) b = some (sockobj.printer q) := hq
            by_cases hb : b = a.addr
            · subst hb
              simp only [Function.update_same, Option.some.injEq, sockobj.printer.injEq] at hq1
              subst hq1
              right
              exact ⟨rfl, rfl⟩
            · left
              rw [Function.update_noteq hb] at hq1
              by_cases hbs : b = s
              · subst hbs
                simp [Function.update_same] at hq1
              · rw [Function.update_noteq hbs] at hq1
                refine ⟨q, hq1, rfl, Or.inl rfl, ?_⟩
                intro hm
                exact Or.inl ((array_delete_mem _ _ _ hinv.1).mp hm).2
      · exact token_inv_printer_drain s fuel _ st1 h
          (token_inv_update_printer st s sock _ hinv hs rfl rfl)
  · exact absurd h (by simp)

theorem token_inv_client_read (fuel : Nat) (st st1 : State) (s : Nat) (fd : Nat → OsRead)
    (h : client_read_handler fuel st s fd = some st1) (hinv : token_inv st) :
    token_inv st1 := by
  unfold client_read_handler at h
  split at h
  · rename_i sock hs
    have hupd : ∀ (c : client_socket) (b : Nat) (q : printer_socket),
        Function.update st.heap s (some (sockobj.client c)) b = some (sockobj.printer q) →
        b ≠ s ∧ st.heap b = some (sockobj.printer q) := by
      intro c b q hq
      by_cases hb : b = s
      · subst hb
        simp [Function.update_same] at hq
      · rw [Function.update_noteq hb] at hq
        exact ⟨hb, hq⟩
    split at h
    · exact absurd h (by simp)
    · rename_i rx1 r calls hw
      split at h
      · have hst1 := (Option.some.inj h).symm
        subst hst1
        apply token_inv_frame st _ hinv
        · exact array_delete_nodup _ _ hinv.1
        · intro b q hq
          left
          have hq1 : Function.update st.heap s none b = some (sockobj.printer q) := hq
          by_cases hb : b = s
          · subst hb
            simp [Function.update_same] at hq1
          · rw [Function.update_noteq hb] at hq1
            refine ⟨q, hq1, rfl, Or.inl rfl, ?_⟩
            intro hm
            exact Or.inl ((array_delete_mem _ _ _ hinv.1).mp hm).2
      · dsimp only at h
        split at h
        · split at h
          · rename_i p hp
            obtain ⟨hps, hp1⟩ := hupd _ _ _ hp
            split at h
            · rename_i hpos
              have hst1 := (Option.some.inj h).symm
              subst hst1
              apply token_inv_frame st _ hinv
              · exact guarded_push_nodup _ _ hinv.1
              · intro b q hq
                left
                have hq1 : Function.update (Function.update
                    (Function.update st.heap s (some (sockobj.client { sock with rxbuffer := rx1 })))
                    s (some (sockobj.client { sock with rxbuffer :=
                      (ringbuffer_readline rx1 st.buf BUFFER_SIZE).1 })))
                    st.printer (some (sockobj.printer { p with lastmsgsock := some s, txbuffer :=
                      (ringbuffer_write p.txbuffer (ringbuffer_readline rx1 st.buf BUFFER_SIZE).2.1
                        r).1 })) b = some (sockobj.printer q) := hq
                by_cases hb : b = st.printer
                · subst hb
                  simp only [Function.update_same, Option.some.injEq,
                    sockobj.printer.injEq] at hq1
                  subst hq1
                  exact ⟨p, hp1, rfl, Or.inl rfl, fun _ => Or.inr hpos⟩
                · rw [Function.update_noteq hb] at hq1
                  by_cases hbs : b = s
                  · subst hbs
                    simp [Function.update_same] at hq1
                  · rw [Function.update_noteq hbs, Function.update_noteq hbs] at hq1
                    refine ⟨q, hq1, rfl, Or.inl rfl, ?_⟩
                    intro hm
                    rcases (guarded_push_mem _ _ _).mp hm with h1 | h1
                    · exact Or.inl h1
                    · exact absurd h1 hb
            · have hst1 := (Option.some.inj h).symm
              subst hst1
              apply token_inv_frame st _ hinv
              · exact hinv.1
              · intro b q hq
                left
                obtain ⟨_, hq1⟩ := hupd _ b q hq
                exact ⟨q, hq1, rfl, Or.inl rfl, fun hm => Or.inl hm⟩
          · exact absurd h (by simp)
        · have hst1 := (Option.some.inj h).symm
          subst hst1
          apply token_inv_frame st _ hinv
          · exact hinv.1
          · intro b q hq
            left
            obtain ⟨_, hq1⟩ := hupd _ b q hq
            exact ⟨q, hq1, rfl, Or.inl rfl, fun hm => Or.inl hm⟩
  · exact absurd h (by simp)

theorem token_inv_step (fuel : Nat) (st st1 : State) (e : Event)
    (h : step fuel st e = some st1) (hinv : token_inv st) : token_inv st1 := by
  cases e with
  | readable s fd a =>
    simp only [step] at h
    split at h
    · split at h
      · exact token_inv_local_read st st1 s _ h hinv
      · exact token_inv_printer_read fuel st st1 s fd a h hinv
      · exact token_inv_client_read fuel st st1 s fd h hinv
      · exact token_inv_listen_read st st1 s a h hinv
      · exact absurd h (by simp)
    · exact absurd h (by simp)
  | writable s w =>
    simp only [step] at h
    split at h
    · rename_i hmem
      split at h
      · rw [← Option.some.inj h]; exact hinv
      · exact token_inv_printer_write st st1 s h hinv hmem
      · exact token_inv_client_write st st1 s w h hinv
      · rw [← Option.some.inj h]; exact hinv
      · exact absurd h (by simp)
    · exact absurd h (by simp)
  | errored s =>
    simp only [step] at h
    split at h
    · split at h
      · rw [← Option.some.inj h]; exact hinv
      · exact absurd h (by simp)
    · exact absurd h (by simp)

theorem token_inv_reachable (st : State) (h : Reachable st) : token_inv st := by
  induction h with
  | init c => exact token_inv_init c
  | step fuel st st1 e _ hstep ih => exact token_inv_step fuel st st1 e hstep ih

theorem run_reachable (fuel : Nat) :
    ∀ (es : List Event) (st st1 : State), Reachable st → run fuel st es = some st1 →
      Reachable st1 := by
  intro es
  induction es with
  | nil =>
    intro st st1 hr h
    simp only [run, Option.some.injEq] at h
    rw [← h]
    exact hr
  | cons e es ih =>
    intro st st1 hr h
    simp only [run] at h
    cases hstep : step fuel st e with
    | none => simp [hstep] at h
    | some st2 =>
      simp only [hstep, Option.bind_some] at h
      exact ih st2 st1 (Reachable.step fuel st st2 e hr hstep) h

/-! ## Sample runs

The first concrete scenario of the specification: a client sends `G28\n`, the
device is written exactly that line and the token is taken, the device answers
`ok\n`, the token comes back and the answer is queued for and then sent to the
client. -/

set_option maxRecDepth 100000 in
theorem sample_run_command_sent :
    (run 16 (init_state boot_config)
      [accept_event, read_event 2 [71, 50, 56, 10], Event.writable 1 (OsWrite.accepted 0)]).map
      (fun st => (device_tokens st, st.writesockets, st.writes, device_tx st))
    = some (some 0, [], [(3, [71, 50, 56, 10])], []) := by
  decide

set_option maxRecDepth 100000 in
theorem sample_run_ok_received :
    (run 16 (init_state boot_config)
      [accept_event, read_event 2 [71, 50, 56, 10], Event.writable 1 (OsWrite.accepted 0),
       read_event 1 [111, 107, 10]]).map
      (fun st => (device_tokens st, st.writesockets, client_tx st 2))
    = some (some 1, [2], [111, 107, 10]) := by
  decide

set_option maxRecDepth 100000 in
theorem sample_run_answer_sent :
    (run 16 (init_state boot_config)
      [accept_event, read_event 2 [71, 50, 56, 10], Event.writable 1 (OsWrite.accepted 0),
       read_event 1 [111, 107, 10], Event.writable 2 (OsWrite.accepted 3)]).map
      (fun st => (device_tokens st, st.writesockets, client_tx st 2, st.writes))
    = some (some 1, [], [], [(3, [71, 50, 56, 10]), (4, [111, 107, 10])]) := by
  decide

/-! ## Ring buffer claims -/

/-- C2: a ring with `head, tail < 1024` whose `nl` equals the number of `'\n'`
bytes in its readable region is again such a ring after `ringbuffer_write`,
after `ringbuffer_read` and after `ringbuffer_readline`, for all bytes and
every `maxchars`. -/
theorem C2_ring_ops_keep_invariant (rb : ringbuffer) (buffer : Nat → Nat) (maxchars : Nat)
    (hh : rb.head < 1024) (ht : rb.tail < 1024) (hinv : nl_inv rb) :
    ((ringbuffer_write rb buffer maxchars).1.head < 1024 ∧
      (ringbuffer_write rb buffer maxchars).1.tail < 1024 ∧
      nl_inv (ringbuffer_write rb buffer maxchars).1) ∧
    ((ringbuffer_read rb buffer maxchars).1.head < 1024 ∧
      (ringbuffer_read rb buffer maxchars).1.tail < 1024 ∧
      nl_inv (ringbuffer_read rb buffer maxchars).1) ∧
    ((ringbuffer_readline rb buffer maxchars).1.head < 1024 ∧
      (ringbuffer_readline rb buffer maxchars).1.tail < 1024 ∧
      nl_inv (ringbuffer_readline rb buffer maxchars).1) := by
  obtain ⟨_, w2, w3, _, w5⟩ := write_spec rb buffer maxchars hh ht
  obtain ⟨_, r2, r3, _, r5⟩ := read_spec rb buffer maxchars hh ht
  exact ⟨⟨w3, by rw [w2]; exact ht, w5 hinv⟩, ⟨by rw [r2]; exact hh, r3, r5 hinv⟩,
    readline_inv rb buffer maxchars hh ht hinv⟩

/-- C2 applied to a ring holding `A\n`, written with `ok\n`. -/
theorem C2_ring_ops_keep_invariant_witness :
    (sample_ring.head < 1024 ∧ sample_ring.tail < 1024 ∧ nl_inv sample_ring) ∧
    nl_inv (ringbuffer_write sample_ring sample_bytes 3).1 ∧
    nl_inv (ringbuffer_read sample_ring sample_bytes 3).1 ∧
    nl_inv (ringbuffer_readline sample_ring sample_bytes 3).1 :=
  have h := C2_ring_ops_keep_invariant sample_ring sample_bytes 3 (by decide) (by decide)
    (by decide)
  ⟨⟨by decide, by decide, by decide⟩, h.1.2.2, h.2.1.2.2, h.2.2.2.2⟩

/-- C3: for every ring with `head, tail < 1024` (32-bit unsigned indices),
`ringbuffer_canread + ringbuffer_canwrite = 1023`; an initialised ring has
`canread = 0` and `canwrite = 1023`. -/
theorem C3_canread_plus_canwrite (rb : ringbuffer) (hh : rb.head < 1024) (ht : rb.tail < 1024) :
    ringbuffer_canread rb + ringbuffer_canwrite rb = 1023 ∧
    ringbuffer_canread (ringbuffer_init rb) = 0 ∧
    ringbuffer_canwrite (ringbuffer_init rb) = 1023 := by
  refine ⟨canread_add_canwrite rb hh ht, ?_, ?_⟩
  · rw [canread_eq _ (by simp [ringbuffer_init]) (by simp [ringbuffer_init])]
    simp [ringbuffer_init]
  · rw [canwrite_eq _ (by simp [ringbuffer_init]) (by simp [ringbuffer_init])]
    simp [ringbuffer_init]

/-- C3 applied to a ring holding two bytes. -/
theorem C3_canread_plus_canwrite_witness :
    (sample_ring.head < 1024 ∧ sample_ring.tail < 1024) ∧
    ringbuffer_canread sample_ring + ringbuffer_canwrite sample_ring = 1023 :=
  ⟨⟨by decide, by decide⟩, (C3_canread_plus_canwrite sample_ring (by decide) (by decide)).1⟩

/-- C4 (FIFO round trip): for a ring with `head, tail < 1024` whose readable
content is `X` and every byte sequence `B` that fits (`length B <= canwrite`),
`ringbuffer_write` of `B` followed by `ringbuffer_read` of
`length X + length B` bytes returns that count, delivers exactly `X ++ B` and
leaves `canread = 0`. -/
theorem C4_fifo_round_trip (rb : ringbuffer) (B : List Nat) (out : Nat → Nat)
    (hh : rb.head < 1024) (ht : rb.tail < 1024) (hB : B.length ≤ ringbuffer_canwrite rb) :
    (ringbuffer_write rb (array_of B) B.length).2 = B.length ∧
    (ringbuffer_read (ringbuffer_write rb (array_of B) B.length).1 out
      ((readable rb).length + B.length)).2.2 = (readable rb).length + B.length ∧
    bytes_of (ringbuffer_read (ringbuffer_write rb (array_of B) B.length).1 out
      ((readable rb).length + B.length)).2.1 ((readable rb).length + B.length)
      = readable rb ++ B ∧
    ringbuffer_canread (ringbuffer_read (ringbuffer_write rb (array_of B) B.length).1 out
      ((readable rb).length + B.length)).1 = 0 := by
  obtain ⟨w1, w2, w3, w4, _⟩ := write_spec rb (array_of B) B.length hh ht
  have hw : (ringbuffer_write rb (array_of B) B.length).2 = B.length := by rw [w1]; omega
  rw [hw, bytes_of_array_of] at w4
  have hcr : ringbuffer_canread (ringbuffer_write rb (array_of B) B.length).1
      = (readable rb).length + B.length := by
    rw [← readable_length, w4, List.length_append]
  obtain ⟨r1, _, _, r4, _⟩ := read_spec (ringbuffer_write rb (array_of B) B.length).1 out
    ((readable rb).length + B.length) (by exact w3) (by rw [w2]; exact ht)
  have hr : (ringbuffer_read (ringbuffer_write rb (array_of B) B.length).1 out
      ((readable rb).length + B.length)).2.2 = (readable rb).length + B.length := by
    rw [r1, hcr]; omega
  rw [hr] at r4
  have hlen := congrArg List.length r4
  rw [List.length_append, bytes_of_length] at hlen
  have hw1 : (readable (ringbuffer_write rb (array_of B) B.length).1).length
      = (readable rb).length + B.length := by
    rw [readable_length]; exact hcr
  rw [hw1] at hlen
  have hnil : readable (ringbuffer_read (ringbuffer_write rb (array_of B) B.length).1 out
      ((readable rb).length + B.length)).1 = [] :=
    List.eq_nil_of_length_eq_zero (by omega)
  have h0 := readable_length (ringbuffer_read (ringbuffer_write rb (array_of B) B.length).1 out
      ((readable rb).length + B.length)).1
  rw [hnil] at h0
  rw [hnil, List.append_nil, w4] at r4
  exact ⟨hw, hr, r4.symm, h0.symm⟩

/-- C4 applied to a ring holding `A\n`, written with `ok\n`. -/
theorem C4_fifo_round_trip_witness :
    (sample_ring.head < 1024 ∧ sample_ring.tail < 1024 ∧
      [111, 107, 10].length ≤ ringbuffer_canwrite sample_ring) ∧
    bytes_of (ringbuffer_read (ringbuffer_write sample_ring (array_of [111, 107, 10]) 3).1
      zero_bytes 5).2.1 5 = [65, 10, 111, 107, 10] :=
  ⟨⟨by decide, by decide, by decide⟩,
   (C4_fifo_round_trip sample_ring [111, 107, 10] zero_bytes (by decide) (by decide)
      (by decide)).2.2.1⟩

/-- C5: on a ring with `head, tail < 1024` whose newline count is exact, with
`maxchars >= 1024`: if `nl = 0`, `ringbuffer_readline` returns 0 and leaves the
ring as it was; otherwise it returns `n >= 1`, the `n` bytes copied out are the
first `n` readable bytes, the last of them is `'\n'` and none before it is,
`tail` advances by `n` modulo 1024 and `nl` goes down by exactly one. A line of
1023 bytes written into an empty ring comes back as one line of 1023 bytes. -/
theorem C5_readline_takes_first_line (rb : ringbuffer) (lb : Nat → Nat) (maxchars : Nat)
    (hh : rb.head < 1024) (ht : rb.tail < 1024) (hinv : nl_inv rb) (hmax : 1024 ≤ maxchars) :
    (rb.nl = 0 →
      (ringbuffer_readline rb lb maxchars).2.2 = 0 ∧ (ringbuffer_readline rb lb maxchars).1 = rb) ∧
    (rb.nl ≠ 0 →
      1 ≤ (ringbuffer_readline rb lb maxchars).2.2 ∧
      bytes_of (ringbuffer_readline rb lb maxchars).2.1 (ringbuffer_readline rb lb maxchars).2.2
        = (readable rb).take (ringbuffer_readline rb lb maxchars).2.2 ∧
      (ringbuffer_readline rb lb maxchars).2.1 ((ringbuffer_readline rb lb maxchars).2.2 - 1) = 10 ∧
      (∀ k, k + 1 < (ringbuffer_readline rb lb maxchars).2.2 →
        (ringbuffer_readline rb lb maxchars).2.1 k ≠ 10) ∧
      (ringbuffer_readline rb lb maxchars).1.tail
        = (rb.tail + (ringbuffer_readline rb lb maxchars).2.2) % 1024 ∧
      (ringbuffer_readline rb lb maxchars).1.nl + 1 = rb.nl ∧
      (ringbuffer_readline rb lb maxchars).1.head = rb.head) ∧
    (∀ (rb0 : ringbuffer) (buffer : Nat → Nat), rb0.head = rb0.tail → rb0.tail < 1024 →
      rb0.nl = 0 → buffer 1022 = 10 → (∀ k, k < 1022 → buffer k ≠ 10) →
      (ringbuffer_write rb0 buffer 1023).2 = 1023 ∧
      (ringbuffer_readline (ringbuffer_write rb0 buffer 1023).1 lb maxchars).2.2 = 1023) := by
  refine ⟨?_, ?_, ?_⟩
  · intro h0
    simp [ringbuffer_readline, h0]
  · intro hnl
    obtain ⟨h1, _, h3, h4, _, _, h7, _⟩ :=
      readline_line rb lb maxchars hh ht (mem_of_nl_inv rb hinv hnl) hnl hmax
    have hpos := first_line_length_pos (readable rb)
    rw [h1, h7]
    refine ⟨hpos, by rw [h3, h4], ?_, ?_, rfl, ?_, rfl⟩
    · have hl := first_line_last (readable rb)
      rw [← h3, bytes_of_getElem? _ _ _ (by rw [h3]; omega)] at hl
      rw [h3] at hl
      exact Option.some.inj hl
    · intro k hk hc
      have hl := first_line_before_last (readable rb) k hk
      rw [← h3, bytes_of_getElem? _ _ _ (by omega), hc] at hl
      exact hl rfl
    · show rb.nl - 1 + 1 = rb.nl
      omega
  · intro rb0 buffer he ht0 hnl0 h10 hne
    have hh0 : rb0.head < 1024 := by rw [he]; exact ht0
    obtain ⟨e1, e2, e3⟩ := canread_of_empty rb0 he ht0
    have hinv0 : nl_inv rb0 := by
      unfold nl_inv
      rw [e3, hnl0]
      rfl
    obtain ⟨w1, w2, w3, w4, w5⟩ := write_spec rb0 buffer 1023 hh0 ht0
    have hw : (ringbuffer_write rb0 buffer 1023).2 = 1023 := by rw [w1, e2]; rfl
    rw [hw, e3, List.nil_append] at w4
    have hL10 : (readable (ringbuffer_write rb0 buffer 1023).1)[1022]? = some 10 := by
      rw [w4, bytes_of_getElem? _ _ _ (by omega), h10]
    have hLne : ∀ k, k < 1022 → (readable (ringbuffer_write rb0 buffer 1023).1)[k]? ≠ some 10 := by
      intro k hk hc
      rw [w4, bytes_of_getElem? _ _ _ (by omega)] at hc
      exact hne k hk (Option.some.inj hc)
    have htake := take_eq_first_line _ 1022 hL10 hLne
    have hmem : 10 ∈ readable (ringbuffer_write rb0 buffer 1023).1 :=
      List.mem_iff_getElem?.mpr ⟨1022, hL10⟩
    have hnl1 : (ringbuffer_write rb0 buffer 1023).1.nl ≠ 0 := by
      have hi := w5 hinv0
      unfold nl_inv at hi
      rw [hi]
      have := List.count_pos_iff.mpr hmem
      omega
    obtain ⟨r1, _⟩ := readline_line (ringbuffer_write rb0 buffer 1023).1 lb maxchars w3
      (by rw [w2]; exact ht0) hmem hnl1 hmax
    refine ⟨hw, ?_⟩
    rw [r1, ← htake, List.length_take, w4, bytes_of_length]
    rfl

/-- C5 applied to a ring holding `A\n`: one line of two bytes comes out. -/
theorem C5_readline_takes_first_line_witness :
    (sample_ring.head < 1024 ∧ sample_ring.tail < 1024 ∧ nl_inv sample_ring ∧ 1024 ≤ 1024) ∧
    (ringbuffer_readline sample_ring zero_bytes 1024).1.tail
      = (sample_ring.tail + (ringbuffer_readline sample_ring zero_bytes 1024).2.2) % 1024 ∧
    (ringbuffer_readline sample_ring zero_bytes 1024).1.nl + 1 = sample_ring.nl :=
  have h := (C5_readline_takes_first_line sample_ring zero_bytes 1024 (by decide) (by decide)
    (by decide) (by decide)).2.1 (by decide)
  ⟨⟨by decide, by decide, by decide, by decide⟩, h.2.2.2.2.1, h.2.2.2.2.2.1⟩

/-- C6: for every ring with `head, tail < 1024` and every input of `len`
bytes, `ringbuffer_write` returns `min len canwrite`, appends exactly that
prefix of the input to the readable content, raises `canread` by the returned
count and leaves `tail` as it was; so 1024 bytes offered to an empty ring are
cut to 1023, and an empty ring written with 1023 bytes has `canwrite = 0`. -/
theorem C6_write_accepts_min (rb : ringbuffer) (buffer : Nat → Nat) (len : Nat)
    (hh : rb.head < 1024) (ht : rb.tail < 1024) :
    (ringbuffer_write rb buffer len).2 = min len (ringbuffer_canwrite rb) ∧
    readable (ringbuffer_write rb buffer len).1
      = readable rb ++ bytes_of buffer (min len (ringbuffer_canwrite rb)) ∧
    ringbuffer_canread (ringbuffer_write rb buffer len).1
      = ringbuffer_canread rb + (ringbuffer_write rb buffer len).2 ∧
    (ringbuffer_write rb buffer len).1.tail = rb.tail ∧
    (rb.head = rb.tail →
      (ringbuffer_write rb buffer 1024).2 = 1023 ∧
      (ringbuffer_write rb buffer 1023).2 = 1023 ∧
      ringbuffer_canwrite (ringbuffer_write rb buffer 1023).1 = 0) := by
  obtain ⟨w1, w2, _, w4, _⟩ := write_spec rb buffer len hh ht
  have hcr : ∀ n, ringbuffer_canread (ringbuffer_write rb buffer n).1
      = ringbuffer_canread rb + (ringbuffer_write rb buffer n).2 := by
    intro n
    obtain ⟨_, _, _, v4, _⟩ := write_spec rb buffer n hh ht
    rw [← readable_length, v4, List.length_append, readable_length, bytes_of_length]
  refine ⟨w1, by rw [w4, w1], hcr len, w2, ?_⟩
  intro he
  obtain ⟨e1, e2, _⟩ := canread_of_empty rb he ht
  obtain ⟨a1, _, _, _, _⟩ := write_spec rb buffer 1024 hh ht
  obtain ⟨b1, b2, b3, _, _⟩ := write_spec rb buffer 1023 hh ht
  have hb : (ringbuffer_write rb buffer 1023).2 = 1023 := by rw [b1, e2]; rfl
  refine ⟨by rw [a1, e2]; rfl, hb, ?_⟩
  have hsum := canread_add_canwrite (ringbuffer_write rb buffer 1023).1 b3
    (by rw [b2]; exact ht)
  rw [hcr 1023, hb, e1] at hsum
  omega

/-- C6 applied to a ring holding `A\n`, written with `ok\n`. -/
theorem C6_write_accepts_min_witness :
    (sample_ring.head < 1024 ∧ sample_ring.tail < 1024) ∧
    (ringbuffer_write sample_ring sample_bytes 3).2 = min 3 (ringbuffer_canwrite sample_ring) ∧
    readable (ringbuffer_write sample_ring sample_bytes 3).1
      = readable sample_ring ++ bytes_of sample_bytes (min 3 (ringbuffer_canwrite sample_ring)) :=
  have h := C6_write_accepts_min sample_ring sample_bytes 3 (by decide) (by decide)
  ⟨⟨by decide, by decide⟩, h.1, h.2.1⟩

/-! ## Token and routing claims -/

/-- `strncmp(line, "ok", 2) == 0` on a NUL-terminated copy of the line `F`
tests whether `F` starts with `ok`. -/
theorem strncmp_ok_iff (line : Nat → Nat) (F : List Nat) (hF : bytes_of line F.length = F)
    (hnul : line F.length = 0) (hpos : 1 ≤ F.length) :
    strncmp_ok line = true ↔ F.take 2 = [111, 107] := by
  have hk : ∀ k, k < F.length → F[k]? = some (line k) := by
    intro k hk
    have := bytes_of_getElem? line F.length k hk
    rw [hF] at this
    exact this
  match F, hnul, hpos, hk with
  | [], _, hpos, _ => simp at hpos
  | [a], hnul, _, hk =>
    have h0 := hk 0 (by simp)
    simp only [List.length_singleton] at hnul
    simp [strncmp_ok, hnul]
  | a :: b :: rest, _, _, hk =>
    have h0 := hk 0 (by simp)
    have h1 := hk 1 (by simp)
    simp only [List.getElem?_cons_zero, List.getElem?_cons_succ, Option.some.injEq] at h0 h1
    simp [strncmp_ok, ← h0, ← h1]

/-- C7: when the device read handler takes a response line from the rx ring
(a `'\n'` is readable, `nl` is not zero) with `0 <= tokens <= maxtoken`, the
token count follows the acknowledgement rule only when `lastmsgsock` points to
a live socket: then, if the line starts with the two bytes `o`, `k` the new
token count is `min (tokens + 1) maxtoken`, and for every other line the token
count is unchanged. When `lastmsgsock` was never assigned (no submit since the
device was opened) or points to a freed socket, the handler dereferences it
before it looks at the line and has no defined result: no token is returned. -/
theorem C7_token_rule_needs_live_submitter (st : State) (s : Nat)
    (sock : printer_socket)
    (hs : st.heap s = some (sockobj.printer sock))
    (hh : sock.rxbuffer.head < 1024) (ht : sock.rxbuffer.tail < 1024)
    (hline : 10 ∈ readable sock.rxbuffer) (hnl : sock.rxbuffer.nl ≠ 0)
    (htok : 0 ≤ sock.tokens ∧ sock.tokens ≤ sock.maxtoken) :
    (∀ l, sock.lastmsgsock = some l → (st.heap l).isSome = true →
      ∃ st1 sock1, printer_line_step st s = some st1 ∧
        st1.heap s = some (sockobj.printer sock1) ∧
        ((first_line (readable sock.rxbuffer)).take 2 = [111, 107] →
          sock1.tokens = min (sock.tokens + 1) sock.maxtoken) ∧
        ((first_line (readable sock.rxbuffer)).take 2 ≠ [111, 107] →
          sock1.tokens = sock.tokens)) ∧
    (sock.lastmsgsock = none → printer_line_step st s = none) ∧
    (∀ l, sock.lastmsgsock = some l → st.heap l = none → printer_line_step st s = none) := by
  refine ⟨?_, ?_, ?_⟩
  · intro l hl hlive
    obtain ⟨r1, r2, r3, _, r5, _, _, _⟩ :=
      readline_line sock.rxbuffer st.line BUFFER_SIZE hh ht hline hnl (le_refl _)
    have hlt := canread_lt sock.rxbuffer
    obtain ⟨len, hlen⟩ := c_strlen_some _ _ (by omega) r5
    obtain ⟨target, htarget⟩ : ∃ target, Function.update st.heap s (some (sockobj.printer
        { sock with rxbuffer := (ringbuffer_readline sock.rxbuffer st.line BUFFER_SIZE).1 })) l
        = some target := by
      by_cases hls : l = s
      · subst hls
        exact ⟨_, Function.update_same _ _ _⟩
      · rw [Function.update_noteq hls]
        exact Option.isSome_iff_exists.mp hlive
    have hstep := printer_line_step_eq st s sock l target len hs hl htarget hlen
    have hok := strncmp_ok_iff _ _ r3 r5 (first_line_length_pos _)
    obtain ⟨_, _, _, _, a5⟩ := ack_tokens_fields
      { sock with rxbuffer := (ringbuffer_readline sock.rxbuffer st.line BUFFER_SIZE).1 }
      (ringbuffer_readline sock.rxbuffer st.line BUFFER_SIZE).2.1
    refine ⟨_, _, hstep, printer_line_body_heap_self st s sock l target len, ?_, ?_⟩
    · intro hpre
      rw [a5]
      have hline := hok.mpr hpre
      by_cases hlt2 : sock.tokens < sock.maxtoken
      · simp only [hline, hlt2, and_self, if_true]
        omega
      · simp only [hline, hlt2, and_false, if_false]
        omega
    · intro hpre
      rw [a5]
      have hline : ¬ strncmp_ok (ringbuffer_readline sock.rxbuffer st.line BUFFER_SIZE).2.1
          = true := fun h => hpre (hok.mp h)
      simp [hline]
  · intro hl
    simp only [printer_line_step, hs, hl]
  · intro l hl hfree
    have hls : l ≠ s := by
      intro h
      rw [h, hs] at hfree
      simp at hfree
    simp only [printer_line_step, hs, hl, Function.update_noteq hls, hfree]

/-- C7 applied to a device that holds `ok\n` with `tokens = 0`, `maxtoken = 1`:
with the submitter (address 2) alive the token count becomes 1; with the
submitter freed the line has no result. -/
theorem C7_token_rule_needs_live_submitter_witness :
    (stalled_state.heap 1 = some (sockobj.printer { sample_printer with tokens := 0 }) ∧
      orphaned_state.heap 1 = some (sockobj.printer { sample_printer with tokens := 0 }) ∧
      10 ∈ readable sample_printer.rxbuffer ∧ sample_printer.rxbuffer.nl ≠ 0 ∧
      first_line (readable sample_printer.rxbuffer) = [111, 107, 10] ∧
      (stalled_state.heap 2).isSome = true ∧ orphaned_state.heap 2 = none) ∧
    (∃ st1 sock1, printer_line_step stalled_state 1 = some st1 ∧
      st1.heap 1 = some (sockobj.printer sock1) ∧ sock1.tokens = 1) ∧
    printer_line_step orphaned_state 1 = none := by
  have ha := C7_token_rule_needs_live_submitter stalled_state 1
    { sample_printer with tokens := 0 } rfl (by decide) (by decide) (by decide) (by decide)
    (by decide)
  have hb := C7_token_rule_needs_live_submitter orphaned_state 1
    { sample_printer with tokens := 0 } rfl (by decide) (by decide) (by decide) (by decide)
    (by decide)
  obtain ⟨st1, sock1, h1, h2, h3, _⟩ := ha.1 2 rfl rfl
  exact ⟨⟨rfl, rfl, by decide, by decide, by decide, rfl, rfl⟩,
    ⟨st1, sock1, h1, h2, h3 (by decide)⟩, hb.2.2 2 rfl rfl⟩

/-- C8: for a device whose tx ring has an exact newline count, holds at least
one complete line and has `tokens > 0`, one run of the device write handler
issues exactly one `write` on the device descriptor, carrying exactly the first
line of the tx ring (up to and including its `'\n'`), removes exactly that line
from the tx ring and lowers `tokens` by exactly one. -/
theorem C8_device_write_sends_first_line (st : State) (s : Nat) (sock : printer_socket)
    (hs : st.heap s = some (sockobj.printer sock))
    (hh : sock.txbuffer.head < 1024) (ht : sock.txbuffer.tail < 1024)
    (hinv : nl_inv sock.txbuffer) (hnl : 0 < sock.txbuffer.nl) (htok : 0 < sock.tokens) :
    ∃ st1 sock1, printer_write_handler st s = some st1 ∧
      st1.heap s = some (sockobj.printer sock1) ∧
      st1.writes = st.writes ++ [(sock.fd, first_line (readable sock.txbuffer))] ∧
      readable sock.txbuffer = first_line (readable sock.txbuffer) ++ readable sock1.txbuffer ∧
      sock1.tokens = sock.tokens - 1 ∧ 0 ≤ sock1.tokens := by
  obtain ⟨r1, _, r3, r4, _, _, _, r8⟩ :=
    readline_line sock.txbuffer st.buf BUFFER_SIZE hh ht
      (mem_of_nl_inv sock.txbuffer hinv (by omega)) (by omega) (le_refl _)
  have hbytes : (List.range (ringbuffer_readline sock.txbuffer st.buf BUFFER_SIZE).2.2).map
      (Function.update (ringbuffer_readline sock.txbuffer st.buf BUFFER_SIZE).2.1
        (ringbuffer_readline sock.txbuffer st.buf BUFFER_SIZE).2.2 0)
      = first_line (readable sock.txbuffer) := by
    rw [← r3, r1]
    unfold bytes_of
    apply List.map_congr_left
    intro k hk
    rw [List.mem_range] at hk
    rw [Function.update_noteq (by omega)]
  simp only [printer_write_handler, hs, gt_iff_lt, hnl, if_true]
  refine ⟨_, _, rfl, Function.update_same _ _ _, ?_, ?_, rfl, ?_⟩
  · show st.writes ++ [(sock.fd, _)] = _
    rw [hbytes]
  · show _ = _ ++ readable (ringbuffer_readline sock.txbuffer st.buf BUFFER_SIZE).1
    rw [r8]
    conv_lhs => rw [← List.take_append_drop (first_line (readable sock.txbuffer)).length
      (readable sock.txbuffer)]
    rw [r4]
  · show 0 ≤ sock.tokens - 1
    omega

/-- C8 applied to a device with `A\n` to send and one token. -/
theorem C8_device_write_sends_first_line_witness :
    (sample_state.heap 1 = some (sockobj.printer sample_printer) ∧
      nl_inv sample_printer.txbuffer ∧ 0 < sample_printer.txbuffer.nl ∧
      0 < sample_printer.tokens) ∧
    ∃ st1 sock1, printer_write_handler sample_state 1 = some st1 ∧
      st1.heap 1 = some (sockobj.printer sock1) ∧
      st1.writes = sample_state.writes ++ [(3, first_line (readable sample_ring))] ∧
      sock1.tokens = 0 := by
  obtain ⟨st1, sock1, h1, h2, h3, _, h5, _⟩ := C8_device_write_sends_first_line sample_state 1
    sample_printer rfl (by decide) (by decide) (by decide) (by decide) (by decide)
  exact ⟨⟨rfl, by decide, by decide, by decide⟩, st1, sock1, h1, h2, h3, h5⟩

/-- C10: when the device read handler takes a complete line from the rx ring
(a `'\n'` is readable, `nl` is not zero) while `lastmsgsock` points to a client
whose tx ring has room for the line, the
readable content of that client's tx ring grows by exactly the bytes of the
line (no `"< "` prefix, no NUL), every socket other than the device and that
client is left as it was, and afterwards the client occurs exactly once in
`writesockets` (which, as in every reachable state, holds no duplicates
before). -/
theorem C10_line_appended_to_submitter (st : State) (s : Nat) (sock : printer_socket) (l : Nat)
    (cs : client_socket)
    (hs : st.heap s = some (sockobj.printer sock))
    (hh : sock.rxbuffer.head < 1024) (ht : sock.rxbuffer.tail < 1024)
    (hline : 10 ∈ readable sock.rxbuffer) (hnl : sock.rxbuffer.nl ≠ 0)
    (hl : sock.lastmsgsock = some l) (hcs : st.heap l = some (sockobj.client cs))
    (hth : cs.txbuffer.head < 1024) (htt : cs.txbuffer.tail < 1024)
    (hroom : (first_line (readable sock.rxbuffer)).length ≤ ringbuffer_canwrite cs.txbuffer)
    (hnd : st.writesockets.Nodup) :
    ∃ st1 cs1, printer_line_step st s = some st1 ∧
      st1.heap l = some (sockobj.client cs1) ∧
      readable cs1.txbuffer = readable cs.txbuffer ++ first_line (readable sock.rxbuffer) ∧
      cs1.rxbuffer = cs.rxbuffer ∧
      (∀ a, a ≠ l → a ≠ s → st1.heap a = st.heap a) ∧
      st1.writesockets.count l = 1 := by
  have hls : l ≠ s := by
    intro h
    rw [h, hs] at hcs
    simp at hcs
  obtain ⟨r1, r2, r3, _, r5, _, _, _⟩ :=
    readline_line sock.rxbuffer st.line BUFFER_SIZE hh ht hline hnl (le_refl _)
  have hlt := canread_lt sock.rxbuffer
  obtain ⟨len, hlen⟩ := c_strlen_some _ _ (by omega) r5
  have htarget : Function.update st.heap s (some (sockobj.printer
      { sock with rxbuffer := (ringbuffer_readline sock.rxbuffer st.line BUFFER_SIZE).1 })) l
      = some (sockobj.client cs) := by
    rw [Function.update_noteq hls, hcs]
  have hstep := printer_line_step_eq st s sock l _ len hs hl htarget hlen
  obtain ⟨w1, _, _, w4, _⟩ := write_spec cs.txbuffer
    (ringbuffer_readline sock.rxbuffer st.line BUFFER_SIZE).2.1
    (ringbuffer_readline sock.rxbuffer st.line BUFFER_SIZE).2.2 hth htt
  refine ⟨_, _, hstep, printer_line_body_heap_client st s sock l cs len hls, ?_, rfl, ?_, ?_⟩
  · show readable (ringbuffer_write cs.txbuffer _ _).1 = _
    rw [w4, w1, r1, Nat.min_eq_left hroom, r3]
  · intro a ha1 ha2
    exact printer_line_body_heap_other st s sock l _ len a ha2 ha1
  · rw [printer_line_body_writesockets_client]
    have hnd1 := guarded_push_nodup st.writesockets l hnd
    have hmem := (guarded_push_mem st.writesockets l l).mpr (Or.inr rfl)
    exact List.count_eq_one_of_mem hnd1 hmem

/-- C10 applied to a device holding `ok\n` whose last submitter is the client
at address 2. -/
theorem C10_line_appended_to_submitter_witness :
    (sample_state.heap 1 = some (sockobj.printer sample_printer) ∧
      sample_state.heap 2 = some (sockobj.client sample_client) ∧
      10 ∈ readable sample_printer.rxbuffer ∧
      (first_line (readable sample_printer.rxbuffer)).length
        ≤ ringbuffer_canwrite sample_client.txbuffer ∧
      sample_state.writesockets.Nodup) ∧
    ∃ st1 cs1, printer_line_step sample_state 1 = some st1 ∧
      st1.heap 2 = some (sockobj.client cs1) ∧
      readable cs1.txbuffer = readable sample_client.txbuffer ++ first_line (readable ok_ring) ∧
      st1.writesockets.count 2 = 1 := by
  obtain ⟨st1, cs1, h1, h2, h3, _, _, h6⟩ := C10_line_appended_to_submitter sample_state 1
    sample_printer 2 sample_client rfl (by decide) (by decide) (by decide) (by decide) rfl rfl
    (by decide) (by decide) (by decide) (by decide)
  exact ⟨⟨rfl, rfl, by decide, by decide, by decide⟩, st1, cs1, h1, h2, h3, h6⟩

/-! ## Event loop claims -/

/-- C1: in every state reachable from start-up (`tokens = maxtoken = 1`, the
device not in `writesockets`) through any sequence of handler runs, every
device socket has `0 <= tokens <= maxtoken`, a device socket that is in
`writesockets` has `tokens > 0`, and so the write dispatch runs the device
write handler (the only place that writes to the device descriptor) only from
states with `tokens > 0`: from a state with `tokens = 0` there is no such
run. -/
theorem C1_tokens_within_bounds (st : State) (hreach : Reachable st) (a : Nat)
    (p : printer_socket) (hp : st.heap a = some (sockobj.printer p)) :
    0 ≤ p.tokens ∧ p.tokens ≤ p.maxtoken ∧
    (a ∈ st.writesockets → 0 < p.tokens) ∧
    (∀ fuel w st1, step fuel st (Event.writable a w) = some st1 → 0 < p.tokens) ∧
    (p.tokens = 0 → ∀ fuel w, step fuel st (Event.writable a w) = none) := by
  obtain ⟨h0, h1, h2⟩ := (token_inv_reachable st hreach).2 a p hp
  have hguard : ∀ fuel w st1, step fuel st (Event.writable a w) = some st1 →
      a ∈ st.writesockets := by
    intro fuel w st1 hstep
    by_contra hmem
    simp [step, hmem] at hstep
  refine ⟨h0, h1, h2, fun fuel w st1 hstep => h2 (hguard fuel w st1 hstep), ?_⟩
  intro hz fuel w
  cases hstep : step fuel st (Event.writable a w) with
  | none => rfl
  | some st1 =>
    have := h2 (hguard fuel w st1 hstep)
    omega

/-- C1 applied to the state reached when a client has submitted `G28\n` and the
device-writable handler has sent it: the device has `tokens = 0`, within the
bounds, and from this state no device-writable handler run exists. -/
theorem C1_tokens_within_bounds_witness :
    ∃ st p, run 16 (init_state boot_config)
        [accept_event, read_event 2 [71, 50, 56, 10], Event.writable 1 (OsWrite.accepted 0)]
        = some st ∧
      Reachable st ∧ st.heap st.printer = some (sockobj.printer p) ∧ p.tokens = 0 ∧
      st.writes = [(3, [71, 50, 56, 10])] ∧
      (0 ≤ p.tokens ∧ p.tokens ≤ p.maxtoken) ∧
      (∀ fuel w, step fuel st (Event.writable st.printer w) = none) := by
  have hrun := sample_run_command_sent
  cases hst : run 16 (init_state boot_config)
      [accept_event, read_event 2 [71, 50, 56, 10], Event.writable 1 (OsWrite.accepted 0)] with
  | none =>
    rw [hst] at hrun
    simp at hrun
  | some st =>
    rw [hst] at hrun
    simp only [Option.map_some', Option.some.injEq, Prod.mk.injEq] at hrun
    obtain ⟨htok, _, hwrites, _⟩ := hrun
    have hreach : Reachable st :=
      run_reachable 16 _ _ st (Reachable.init boot_config) hst
    unfold device_tokens at htok
    split at htok
    · rename_i p hp
      have hz : p.tokens = 0 := Option.some.inj htok
      have h := C1_tokens_within_bounds st hreach st.printer p hp
      exact ⟨st, p, rfl, hreach, hp, hz, hwrites, ⟨h.1, h.2.1⟩, h.2.2.2.2 hz⟩
    · simp at htok

/-- C9, the code at a failing input: after start-up and one accepted client,
the client socket delivers the two lines `A\n`, `B\n` in one `read` of 4
bytes. One line is taken from the client's rx ring (`B\n` stays),
`lastmsgsock` is the client and the device is in `writesockets`, but the device
tx ring receives 4 bytes, the line `A\n` followed by the NUL and a stale byte
of `buf` (the `.` that `sock2a` left there at `accept`), not the 2 bytes of the
line. When the line `A\n` arrives in two reads
of one byte each, the second read submits only the first byte of the line. -/
theorem C9_client_submit_length_is_ingest_count :
    first_line [65, 10, 66, 10] = [65, 10] ∧
    (run 16 (init_state boot_config) [accept_event, read_event 2 [65, 10, 66, 10]]).map
        (fun st => (device_tx st, client_rx st 2, device_lastmsgsock st, st.writesockets))
      = some ([65, 10, 0, 46], [66, 10], some 2, [1]) ∧
    (run 16 (init_state boot_config)
        [accept_event, read_event 2 [65], read_event 2 [10]]).map
        (fun st => (device_tx st, client_rx st 2, device_lastmsgsock st, st.writesockets))
      = some ([65], [], some 2, [1]) := by
  refine ⟨by decide, by decide, by decide⟩

/-! ## Descriptor input lemmas -/

theorem scannl_loop_frame :
    ∀ (fuel i : Nat) (rb rb1 : ringbuffer), ringbuffer_scannl_loop fuel i rb = some rb1 →
      rb1.head = rb.head ∧ rb1.tail = rb.tail ∧ rb1.data = rb.data := by
  intro fuel
  induction fuel with
  | zero =>
    intro i rb rb1 h
    simp [ringbuffer_scannl_loop] at h
  | succ fuel ih =>
    intro i rb rb1 h
    unfold ringbuffer_scannl_loop at h
    split at h
    · dsimp only at h
      split at h
      · obtain ⟨h1, h2, h3⟩ := ih _ _ _ h
        exact ⟨h1, h2, h3⟩
      · exact ih _ _ _ h
    · rw [← Option.some.inj h]
      exact ⟨rfl, rfl, rfl⟩

theorem readable_congr (rb rb1 : ringbuffer) (h1 : rb1.head = rb.head) (h2 : rb1.tail = rb.tail)
    (h3 : rb1.data = rb.data) : readable rb1 = readable rb := by
  simp only [readable, ringbuffer_canread, h1, h2, h3]

/-- `ringbuffer_scannl` changes nothing but `nl`. -/
theorem scannl_frame (fuel : Nat) (rb rb1 : ringbuffer) (h : ringbuffer_scannl fuel rb = some rb1) :
    rb1.head = rb.head ∧ rb1.tail = rb.tail ∧ rb1.data = rb.data ∧
    readable rb1 = readable rb := by
  obtain ⟨h1, h2, h3⟩ := scannl_loop_frame fuel rb.tail _ rb1 h
  exact ⟨h1, h2, h3, readable_congr rb rb1 h1 h2 h3⟩

theorem scannl_loop_returns :
    ∀ (d fuel i : Nat) (rb : ringbuffer), rb.head < 1023 → i < 1024 →
      (rb.head + 1 + 1024 - i) % 1024 = d → d < fuel →
      ∃ rb1, ringbuffer_scannl_loop fuel i rb = some rb1 := by
  intro d
  induction d with
  | zero =>
    intro fuel i rb hh hi hd hf
    obtain ⟨f, rfl⟩ : ∃ f, fuel = f + 1 := ⟨fuel - 1, by omega⟩
    have hi1 : i = u32 (rb.head + 1) := by
      simp only [u32, UINT_MOD]
      omega
    refine ⟨rb, ?_⟩
    unfold ringbuffer_scannl_loop
    rw [if_neg (by simp [hi1])]
  | succ d ih =>
    intro fuel i rb hh hi hd hf
    obtain ⟨f, rfl⟩ : ∃ f, fuel = f + 1 := ⟨fuel - 1, by omega⟩
    have hi1 : i ≠ u32 (rb.head + 1) := by
      simp only [u32, UINT_MOD]
      omega
    have hnext : mask (u32 (i + 1)) = (i + 1) % 1024 := mask_u32_succ i hi
    unfold ringbuffer_scannl_loop
    rw [if_pos hi1]
    dsimp only
    rw [hnext]
    split
    · exact ih f _ _ hh (by omega) (by show (rb.head + 1 + 1024 - (i + 1) % 1024) % 1024 = d; omega)
        (by omega)
    · exact ih f _ _ hh (by omega) (by omega) (by omega)

/-- `ringbuffer_scannl` returns when `head` is not the last index and the fuel
covers one turn of the ring. -/
theorem scannl_returns (fuel : Nat) (rb : ringbuffer) (hh : rb.head < 1023)
    (ht : rb.tail < 1024) (hf : 1024 < fuel) :
    ∃ rb1, ringbuffer_scannl fuel rb = some rb1 := by
  unfold ringbuffer_scannl
  exact scannl_loop_returns ((rb.head + 1 + 1024 - rb.tail) % 1024) fuel rb.tail _ hh ht rfl
    (by omega)

/-- One `read` that stores its bytes in the free contiguous region at `head`
appends them to the readable content. -/
theorem readable_after_read (rb : ringbuffer) (bs : List Nat) (r : Nat)
    (hh : rb.head < 1024) (ht : rb.tail < 1024) (hr1 : rb.head + r ≤ 1024)
    (hr2 : r ≤ ringbuffer_canwrite rb) :
    (ring_after_read rb bs r).tail = rb.tail ∧
    (ring_after_read rb bs r).head = (rb.head + min bs.length r) % 1024 ∧
    readable (ring_after_read rb bs r) = readable rb ++ bs.take r ∧
    ringbuffer_canwrite (ring_after_read rb bs r) + min bs.length r = ringbuffer_canwrite rb := by
  have hhead : (ring_after_read rb bs r).head = (rb.head + min bs.length r) % 1024 := by
    simp only [ring_after_read, mask_eq, u32, UINT_MOD]
    omega
  have htail : (ring_after_read rb bs r).tail = rb.tail := rfl
  have hh1 : (ring_after_read rb bs r).head < 1024 := by rw [hhead]; omega
  have hcw := canwrite_eq rb hh ht
  have hcr := canread_eq rb hh ht
  have hcr1 := canread_eq (ring_after_read rb bs r) hh1 (by rw [htail]; exact ht)
  have hcw1 := canwrite_eq (ring_after_read rb bs r) hh1 (by rw [htail]; exact ht)
  rw [hhead, htail] at hcr1 hcw1
  have hn : ringbuffer_canread (ring_after_read rb bs r)
      = ringbuffer_canread rb + min bs.length r := by omega
  refine ⟨htail, hhead, ?_, by omega⟩
  apply List.ext_getElem
  · rw [readable_length, List.length_append, readable_length, List.length_take, hn]
    omega
  · intro j hj1 hj2
    rw [readable_getElem, htail]
    rw [readable_length, hn] at hj1
    by_cases hj : j < ringbuffer_canread rb
    · rw [List.getElem_append_left (by rw [readable_length]; exact hj), readable_getElem]
      have hout : ¬ (rb.head ≤ (rb.tail + j) % 1024 ∧
          (rb.tail + j) % 1024 < rb.head + min bs.length r) := by omega
      simp only [ring_after_read, os_read_store, hout, if_false]
    · have hin : rb.head ≤ (rb.tail + j) % 1024 ∧
          (rb.tail + j) % 1024 < rb.head + min bs.length r := by omega
      have hidx : (rb.tail + j) % 1024 - rb.head = j - ringbuffer_canread rb := by omega
      rw [List.getElem_append_right (by rw [readable_length]; omega)]
      simp only [ring_after_read, os_read_store, hin, and_self, if_true, hidx, readable_length,
        List.getElem_take]
      rw [List.getD_eq_getElem?_getD, List.getElem?_eq_getElem (by omega)]
      rfl

theorem writefromfd_loop_zero (f : Nat) (rb : ringbuffer) (fd : Nat → OsRead)
    (rcvtot calls : Nat) :
    ringbuffer_writefromfd_loop (f + 1) rb fd 0 rcvtot calls
      = (ringbuffer_scannl f rb).map (fun rb2 => (rb2, rcvtot, calls)) := by
  simp [ringbuffer_writefromfd_loop]

theorem writefromfd_loop_step (f : Nat) (rb : ringbuffer) (fd : Nat → OsRead)
    (rmn rcvtot calls : Nat) (bs : List Nat) (hrmn : rmn ≠ 0) (hrmn2 : rmn < 1024)
    (hfd : fd calls = OsRead.bytes bs) (hh : rb.head < 1024) (htot : rcvtot < 1024) :
    ringbuffer_writefromfd_loop (f + 1) rb fd rmn rcvtot calls
      = if min bs.length (min (1024 - rb.head) rmn) < min (1024 - rb.head) rmn then
          (ringbuffer_scannl f (ring_after_read rb bs (min (1024 - rb.head) rmn))).map
            (fun rb2 => (rb2, rcvtot + min bs.length (min (1024 - rb.head) rmn), calls + 1))
        else
          ringbuffer_writefromfd_loop f (ring_after_read rb bs (min (1024 - rb.head) rmn)) fd
            (rmn - min (1024 - rb.head) rmn)
            (rcvtot + min bs.length (min (1024 - rb.head) rmn)) (calls + 1) := by
  have hr0 : usub BUFFER_SIZE rb.head = 1024 - rb.head := by
    simp only [usub, UINT_MOD, BUFFER_SIZE]; omega
  have hr : (if usub BUFFER_SIZE rb.head > rmn then rmn else usub BUFFER_SIZE rb.head)
      = min (1024 - rb.head) rmn := by
    rw [hr0]; split <;> omega
  have hsub : usub rmn (min (1024 - rb.head) rmn) = rmn - min (1024 - rb.head) rmn := by
    simp only [usub, UINT_MOD]; omega
  have htot2 : u32 (rcvtot + min bs.length (min (1024 - rb.head) rmn))
      = rcvtot + min bs.length (min (1024 - rb.head) rmn) := by
    simp only [u32, UINT_MOD]; omega
  conv_lhs => rw [ringbuffer_writefromfd_loop]
  simp only [hrmn, ne_eq, not_false_eq_true, if_true, hr, hfd, os_read_result, hsub, htot2]
  rfl

theorem writefromfd_eq_loop (fuel : Nat) (rb : ringbuffer) (fd : Nat → OsRead) (nchars : Nat) :
    ringbuffer_writefromfd fuel rb fd nchars
      = ringbuffer_writefromfd_loop fuel rb fd (ingest_limit rb nchars) 0 0 := by
  have : (if nchars > ringbuffer_canwrite rb then ringbuffer_canwrite rb else nchars)
      = ingest_limit rb nchars := by
    unfold ingest_limit; split <;> omega
  simp only [ringbuffer_writefromfd, this]

/-- What one `ringbuffer_writefromfd` does when no `read` fails: the ring
before the rescan holds the old content followed by the ingested bytes, and the
call returns what `ringbuffer_scannl` makes of that ring, with the number of
bytes ingested and the number of reads issued; `k0` is the fuel the loop itself
uses. -/
theorem writefromfd_char (rb : ringbuffer) (fd : Nat → OsRead) (nchars : Nat)
    (hh : rb.head < 1024) (ht : rb.tail < 1024) (hfd : ∀ k, fd k ≠ OsRead.error) :
    ∃ rbF k0, 1 ≤ k0 ∧ k0 ≤ 3 ∧ rbF.tail = rb.tail ∧
      rbF.head = (rb.head + (ingested rb fd nchars).length) % 1024 ∧
      readable rbF = readable rb ++ ingested rb fd nchars ∧
      (ingested rb fd nchars).length ≤ ingest_limit rb nchars ∧
      ∀ fuel, ringbuffer_writefromfd fuel rb fd nchars
        = if fuel < k0 then none
          else (ringbuffer_scannl (fuel - k0) rbF).map
            (fun rb2 => (rb2, (ingested rb fd nchars).length, reads_issued rb fd nchars)) := by
  have hcwlt := canwrite_lt rb
  have hnle : ingest_limit rb nchars ≤ ringbuffer_canwrite rb := by
    unfold ingest_limit; omega
  by_cases hn0 : ingest_limit rb nchars = 0
  · -- nothing to read
    have hing : ingested rb fd nchars = [] := by simp [ingested, hn0]
    have hreads : reads_issued rb fd nchars = 0 := by simp [reads_issued, hn0]
    refine ⟨rb, 1, le_refl _, by omega, rfl, by rw [hing]; simp [Nat.mod_eq_of_lt hh],
      by rw [hing, List.append_nil], by rw [hing]; simp, ?_⟩
    intro fuel
    rw [writefromfd_eq_loop, hn0, hing, hreads]
    cases fuel with
    | zero => simp [ringbuffer_writefromfd_loop]
    | succ f => rw [writefromfd_loop_zero]; simp
  · obtain ⟨bs0, hbs0⟩ : ∃ bs0, fd 0 = OsRead.bytes bs0 := by
      cases h : fd 0 with
      | error => exact absurd h (hfd 0)
      | bytes bs => exact ⟨bs, rfl⟩
    have hr : min (1024 - rb.head) (ingest_limit rb nchars) = first_request rb nchars := rfl
    have hrle : first_request rb nchars ≤ ingest_limit rb nchars := by
      unfold first_request; omega
    have hrhead : rb.head + first_request rb nchars ≤ 1024 := by
      unfold first_request; omega
    have hrpos : 1 ≤ first_request rb nchars := by
      unfold first_request; omega
    obtain ⟨a1, a2, a3, a4⟩ := readable_after_read rb bs0 (first_request rb nchars) hh ht hrhead
      (by omega)
    have hstep1 := fun f => writefromfd_loop_step f rb fd (ingest_limit rb nchars) 0 0 bs0 hn0
      (by omega) hbs0 hh (by omega)
    simp only [hr, Nat.zero_add] at hstep1
    have hob : os_bytes (fd 0) = bs0 := by rw [hbs0]; rfl
    by_cases hshort : bs0.length < first_request rb nchars
    · -- the first read is short
      have hmin : min bs0.length (first_request rb nchars) = bs0.length := by omega
      have hsr : ¬ second_read rb fd nchars := by
        unfold second_read; rw [hob]; omega
      have hing : ingested rb fd nchars = bs0.take (first_request rb nchars) := by
        simp [ingested, hn0, hsr, hob]
      have hreads : reads_issued rb fd nchars = 1 := by simp [reads_issued, hn0, hsr]
      have hlen : (ingested rb fd nchars).length = bs0.length := by
        rw [hing, List.length_take]; omega
      refine ⟨ring_after_read rb bs0 (first_request rb nchars), 1, le_refl _, by omega, a1,
        by rw [a2, hlen, hmin], by rw [a3, hing], by rw [hlen]; omega, ?_⟩
      intro fuel
      rw [writefromfd_eq_loop, hlen, hreads]
      cases fuel with
      | zero => simp [ringbuffer_writefromfd_loop]
      | succ f =>
        rw [hstep1 f, hmin, if_pos hshort]
        simp
    · have hmin : min bs0.length (first_request rb nchars) = first_request rb nchars := by omega
      by_cases hdone : first_request rb nchars = ingest_limit rb nchars
      · -- the first read reaches the limit
        have hsr : ¬ second_read rb fd nchars := by
          unfold second_read; omega
        have hing : ingested rb fd nchars = bs0.take (first_request rb nchars) := by
          simp [ingested, hn0, hsr, hob]
        have hreads : reads_issued rb fd nchars = 1 := by simp [reads_issued, hn0, hsr]
        have hlen : (ingested rb fd nchars).length = first_request rb nchars := by
          rw [hing, List.length_take]; omega
        refine ⟨ring_after_read rb bs0 (first_request rb nchars), 2, by omega, by omega, a1,
          by rw [a2, hlen, hmin], by rw [a3, hing], by rw [hlen]; omega, ?_⟩
        intro fuel
        rw [writefromfd_eq_loop, hlen, hreads]
        match fuel with
        | 0 => simp [ringbuffer_writefromfd_loop]
        | 1 =>
          rw [hstep1 0, hmin, if_neg (by omega)]
          simp [ringbuffer_writefromfd_loop]
        | f + 2 =>
          rw [hstep1 (f + 1), hmin, if_neg (by omega), hdone, Nat.sub_self, writefromfd_loop_zero]
          simp
      · -- the first read fills the array to its end and a second read follows
        have hsr : second_read rb fd nchars := by
          unfold second_read; rw [hob]; omega
        have hrend : first_request rb nchars = 1024 - rb.head := by
          unfold first_request at hdone ⊢; omega
        obtain ⟨bs1, hbs1⟩ : ∃ bs1, fd 1 = OsRead.bytes bs1 := by
          cases h : fd 1 with
          | error => exact absurd h (hfd 1)
          | bytes bs => exact ⟨bs, rfl⟩
        have hob1 : os_bytes (fd 1) = bs1 := by rw [hbs1]; rfl
        have hhead1 : (ring_after_read rb bs0 (first_request rb nchars)).head = 0 := by
          rw [a2, hmin, hrend]; omega
        have hr2 : min (1024 - (ring_after_read rb bs0 (first_request rb nchars)).head)
            (ingest_limit rb nchars - first_request rb nchars)
            = ingest_limit rb nchars - first_request rb nchars := by
          rw [hhead1]; omega
        obtain ⟨b1, b2, b3, _⟩ := readable_after_read
          (ring_after_read rb bs0 (first_request rb nchars)) bs1
          (ingest_limit rb nchars - first_request rb nchars) (by rw [hhead1]; omega)
          (by rw [a1]; exact ht) (by rw [hhead1]; omega) (by omega)
        have hstep2 := fun f => writefromfd_loop_step f
          (ring_after_read rb bs0 (first_request rb nchars)) fd
          (ingest_limit rb nchars - first_request rb nchars) (first_request rb nchars) 1 bs1
          (by omega) (by omega) hbs1 (by rw [hhead1]; omega) (by omega)
        simp only [hr2] at hstep2
        have hing : ingested rb fd nchars = bs0.take (first_request rb nchars)
            ++ bs1.take (ingest_limit rb nchars - first_request rb nchars) := by
          simp [ingested, hn0, hsr, hob, hob1]
        have hreads : reads_issued rb fd nchars = 2 := by simp [reads_issued, hn0, hsr]
        have hlen : (ingested rb fd nchars).length = first_request rb nchars
            + min bs1.length (ingest_limit rb nchars - first_request rb nchars) := by
          rw [hing, List.length_append, List.length_take, List.length_take]; omega
        have hheadF : (ring_after_read (ring_after_read rb bs0 (first_request rb nchars)) bs1
            (ingest_limit rb nchars - first_request rb nchars)).head
            = (rb.head + (ingested rb fd nchars).length) % 1024 := by
          rw [b2, hhead1, hlen, hrend]; omega
        have hreadF : readable (ring_after_read (ring_after_read rb bs0 (first_request rb nchars))
            bs1 (ingest_limit rb nchars - first_request rb nchars))
            = readable rb ++ ingested rb fd nchars := by
          rw [b3, a3, hing, List.append_assoc]
        by_cases hshort2 : bs1.length < ingest_limit rb nchars - first_request rb nchars
        · refine ⟨_, 2, by omega, by omega, by rw [b1, a1], hheadF, hreadF,
            by rw [hlen]; omega, ?_⟩
          intro fuel
          rw [writefromfd_eq_loop, hreads]
          match fuel with
          | 0 => simp [ringbuffer_writefromfd_loop]
          | 1 =>
            rw [hstep1 0, hmin, if_neg (by omega)]
            simp [ringbuffer_writefromfd_loop]
          | f + 2 =>
            rw [hstep1 (f + 1), hmin, if_neg (by omega), hstep2 f, if_pos (by omega), hlen]
            simp
        · refine ⟨_, 3, by omega, by omega, by rw [b1, a1], hheadF, hreadF,
            by rw [hlen]; omega, ?_⟩
          intro fuel
          rw [writefromfd_eq_loop, hreads]
          match fuel with
          | 0 => simp [ringbuffer_writefromfd_loop]
          | 1 =>
            rw [hstep1 0, hmin, if_neg (by omega)]
            simp [ringbuffer_writefromfd_loop]
          | 2 =>
            rw [hstep1 1, hmin, if_neg (by omega), hstep2 0, if_neg (by omega)]
            simp [ringbuffer_writefromfd_loop]
          | f + 3 =>
            have hmin2 : min bs1.length (ingest_limit rb nchars - first_request rb nchars)
                = ingest_limit rb nchars - first_request rb nchars := by omega
            rw [hstep1 (f + 2), hmin, if_neg (by omega), hstep2 (f + 1), if_neg (by omega),
              hmin2, Nat.sub_self, writefromfd_loop_zero, hlen, hmin2]
            simp

/-! ## Descriptor input and output claims -/

theorem readtofd_region_eq (rb : ringbuffer) (hh : rb.head < 1024) (ht : rb.tail < 1024) :
    (ringbuffer_readtofd_region rb).1 = rb.tail ∧
    (ringbuffer_readtofd_region rb).2
      = (if rb.tail < rb.head then rb.head - rb.tail else 1024 - rb.tail) := by
  unfold ringbuffer_readtofd_region
  by_cases h : rb.head > rb.tail
  · have h1 : rb.tail < rb.head := h
    simp only [h, h1, if_true, usub, UINT_MOD, true_and]
    omega
  · have h1 : ¬ rb.tail < rb.head := h
    simp only [h, h1, if_false, usub, UINT_MOD, BUFFER_SIZE, true_and]
    omega

/-- C17: for every non-empty ring with `head, tail < 1024`,
`ringbuffer_readtofd` offers the OS one contiguous region of `data`, starting
at `tail` and running to `head` when `tail < head` and to the end of the array
otherwise; the region is a non-empty prefix of the readable content. For every
count `k` the OS accepts (`k` at most the bytes offered) it returns `k`,
advances `tail` by `k` modulo 1024, leaves `head` as it was, and the readable
content afterwards is the old content without its first `k` bytes. -/
theorem C17_readtofd_offers_prefix (rb : ringbuffer) (k : Nat)
    (hh : rb.head < 1024) (ht : rb.tail < 1024) (hne : ringbuffer_canread rb ≠ 0)
    (hk : k ≤ (ringbuffer_readtofd_region rb).2) :
    (ringbuffer_readtofd_region rb).1 = rb.tail ∧
    (ringbuffer_readtofd_region rb).2
      = (if rb.tail < rb.head then rb.head - rb.tail else 1024 - rb.tail) ∧
    1 ≤ (ringbuffer_readtofd_region rb).2 ∧
    (ringbuffer_readtofd_region rb).2 ≤ ringbuffer_canread rb ∧
    (ringbuffer_readtofd rb (OsWrite.accepted k)).2.1
      = (List.range (ringbuffer_readtofd_region rb).2).map (fun j => rb.data (rb.tail + j)) ∧
    (ringbuffer_readtofd rb (OsWrite.accepted k)).2.1
      = (readable rb).take (ringbuffer_readtofd_region rb).2 ∧
    (ringbuffer_readtofd rb (OsWrite.accepted k)).2.2 = k ∧
    (ringbuffer_readtofd rb (OsWrite.accepted k)).1.tail = (rb.tail + k) % 1024 ∧
    (ringbuffer_readtofd rb (OsWrite.accepted k)).1.head = rb.head ∧
    readable (ringbuffer_readtofd rb (OsWrite.accepted k)).1 = (readable rb).drop k := by
  obtain ⟨g1, g2⟩ := readtofd_region_eq rb hh ht
  have hcr := canread_eq rb hh ht
  have hlen1 : 1 ≤ (ringbuffer_readtofd_region rb).2 := by
    rw [g2]; split <;> omega
  have hlen2 : (ringbuffer_readtofd_region rb).2 ≤ ringbuffer_canread rb := by
    rw [g2]; split <;> omega
  have hlen3 : rb.tail + (ringbuffer_readtofd_region rb).2 ≤ 1024 := by
    rw [g2]; split <;> omega
  have hoff : (ringbuffer_readtofd rb (OsWrite.accepted k)).2.1
      = (List.range (ringbuffer_readtofd_region rb).2).map (fun j => rb.data (rb.tail + j)) := by
    simp only [ringbuffer_readtofd, g1]
  have hret : (ringbuffer_readtofd rb (OsWrite.accepted k)).2.2 = k := by
    simp only [ringbuffer_readtofd, os_write_result]
    omega
  have htail : (ringbuffer_readtofd rb (OsWrite.accepted k)).1.tail = (rb.tail + k) % 1024 := by
    simp only [ringbuffer_readtofd, os_write_result, mask_eq, u32, UINT_MOD]
    rw [Nat.min_eq_left hk]
    omega
  refine ⟨g1, g2, hlen1, hlen2, hoff, ?_, hret, htail, rfl, ?_⟩
  · rw [hoff]
    apply List.ext_getElem
    · rw [List.length_map, List.length_range, List.length_take, readable_length]
      omega
    · intro j hj1 hj2
      rw [List.length_map, List.length_range] at hj1
      simp only [List.getElem_map, List.getElem_range, List.getElem_take]
      rw [readable_getElem, Nat.mod_eq_of_lt (by omega)]
  · exact readable_advance rb _ k hh ht (by omega) rfl htail rfl

/-- C17 applied to the ring holding `A\n`, with one byte accepted. -/
theorem C17_readtofd_offers_prefix_witness :
    (sample_ring.head < 1024 ∧ sample_ring.tail < 1024 ∧ ringbuffer_canread sample_ring ≠ 0 ∧
      1 ≤ (ringbuffer_readtofd_region sample_ring).2) ∧
    (ringbuffer_readtofd sample_ring (OsWrite.accepted 1)).2.1 = (readable sample_ring).take 2 ∧
    readable (ringbuffer_readtofd sample_ring (OsWrite.accepted 1)).1
      = (readable sample_ring).drop 1 :=
  have h := C17_readtofd_offers_prefix sample_ring 1 (by decide) (by decide) (by decide)
    (by decide)
  ⟨⟨by decide, by decide, by decide, by decide⟩, by rw [h.2.2.2.2.2.1]; decide, h.2.2.2.2.2.2.2.2.2⟩

/-- When `ringbuffer_writefromfd` returns and no `read` failed: `tail` is as
before, the readable content is the old content followed by the ingested bytes,
and the returned count and the number of reads are those of `ingested` and
`reads_issued`. -/
theorem writefromfd_result (fuel : Nat) (rb rx1 : ringbuffer) (fd : Nat → OsRead)
    (nchars r calls : Nat) (hh : rb.head < 1024) (ht : rb.tail < 1024)
    (hfd : ∀ k, fd k ≠ OsRead.error)
    (h : ringbuffer_writefromfd fuel rb fd nchars = some (rx1, r, calls)) :
    rx1.tail = rb.tail ∧ rx1.head = (rb.head + (ingested rb fd nchars).length) % 1024 ∧
    readable rx1 = readable rb ++ ingested rb fd nchars ∧
    r = (ingested rb fd nchars).length ∧ calls = reads_issued rb fd nchars := by
  obtain ⟨rbF, k0, _, _, c1, c2, c3, _, c5⟩ := writefromfd_char rb fd nchars hh ht hfd
  rw [c5 fuel] at h
  split at h
  · exact absurd h (by simp)
  · cases hs : ringbuffer_scannl (fuel - k0) rbF with
    | none => simp [hs] at h
    | some rb2 =>
      simp only [hs, Option.map_some', Option.some.injEq, Prod.mk.injEq] at h
      obtain ⟨h1, h2, h3⟩ := h
      obtain ⟨f1, f2, _, f4⟩ := scannl_frame _ _ _ hs
      subst h1
      exact ⟨by rw [f2, c1], by rw [f1, c2], by rw [f4, c3], h2.symm, h3.symm⟩

/-- `ringbuffer_writefromfd` returns when no `read` fails, the new `head` is not
the last index and the fuel covers the loop and one turn of the ring. -/
theorem writefromfd_returns (fuel : Nat) (rb : ringbuffer) (fd : Nat → OsRead) (nchars : Nat)
    (hh : rb.head < 1024) (ht : rb.tail < 1024) (hfd : ∀ k, fd k ≠ OsRead.error)
    (hlast : (rb.head + (ingested rb fd nchars).length) % 1024 ≠ 1023) (hf : 1028 ≤ fuel) :
    ∃ rx1, ringbuffer_writefromfd fuel rb fd nchars
      = some (rx1, (ingested rb fd nchars).length, reads_issued rb fd nchars) := by
  obtain ⟨rbF, k0, _, _, c1, c2, _, _, c5⟩ := writefromfd_char rb fd nchars hh ht hfd
  obtain ⟨rb2, hs⟩ := scannl_returns (fuel - k0) rbF (by rw [c2]; omega) (by rw [c1]; exact ht)
    (by omega)
  refine ⟨rb2, ?_⟩
  rw [c5 fuel, if_neg (by omega), hs]
  rfl

/-- C16, counterexample: on a ring with two free slots before the end of the
array, a first `read` that fills both is followed by a second `read`. -/
theorem C16_second_read_after_filling_to_array_end :
    first_request wrap_ring 1024 = 1024 - wrap_ring.head ∧
    (os_bytes (two_reads 0)).length = first_request wrap_ring 1024 ∧
    (ringbuffer_writefromfd 16 wrap_ring two_reads 1024).map (fun x => (x.2.2, readable x.1))
      = some (2, [0, 0, 65, 66, 67, 10]) := by
  refine ⟨by decide, by decide, by decide⟩

/-- C16 as amended: for every ring with `head, tail < 1024`, every `nchars`
and every descriptor whose reads do not fail, one `ringbuffer_writefromfd`
issues at most two `read` calls; it issues a second one exactly when the first
filled the contiguous region up to the end of the array and the limit
`min nchars canwrite` is not reached; after a short first read it issues no
further read. The call returns when the new `head` is not the last index. -/
theorem C16_at_most_two_reads (rb : ringbuffer) (fd : Nat → OsRead) (nchars : Nat)
    (hh : rb.head < 1024) (ht : rb.tail < 1024) (hfd : ∀ k, fd k ≠ OsRead.error) :
    (∀ fuel rx1 r calls, ringbuffer_writefromfd fuel rb fd nchars = some (rx1, r, calls) →
      calls ≤ 2 ∧
      (calls = 2 ↔ (ingest_limit rb nchars ≠ 0 ∧
        1024 - rb.head ≤ (os_bytes (fd 0)).length ∧ 1024 - rb.head < ingest_limit rb nchars)) ∧
      ((os_bytes (fd 0)).length < first_request rb nchars → calls = 1)) ∧
    (∀ fuel, 1028 ≤ fuel → (rb.head + (ingested rb fd nchars).length) % 1024 ≠ 1023 →
      ∃ rx1 r calls, ringbuffer_writefromfd fuel rb fd nchars = some (rx1, r, calls)) := by
  refine ⟨?_, ?_⟩
  · intro fuel rx1 r calls h
    obtain ⟨_, _, _, _, hc⟩ := writefromfd_result fuel rb rx1 fd nchars r calls hh ht hfd h
    have hsr : second_read rb fd nchars ↔ (ingest_limit rb nchars ≠ 0 ∧
        1024 - rb.head ≤ (os_bytes (fd 0)).length ∧ 1024 - rb.head < ingest_limit rb nchars) := by
      unfold second_read first_request
      constructor
      · rintro ⟨h1, h2, h3⟩
        refine ⟨h1, by omega, by omega⟩
      · rintro ⟨h1, h2, h3⟩
        refine ⟨h1, by omega, by omega⟩
    rw [hc, ← hsr]
    unfold reads_issued
    by_cases hn0 : ingest_limit rb nchars = 0
    · have hns : ¬ second_read rb fd nchars := fun hs => hs.1 hn0
      have hfr : first_request rb nchars = 0 := by unfold first_request; omega
      simp [hn0, hns, hfr]
    · by_cases hs : second_read rb fd nchars
      · simp only [hn0, hs, if_false, if_true, le_refl, true_iff, true_and]
        intro hlt
        have := hs.2.1
        omega
      · simp [hn0, hs]
  · intro fuel hf hlast
    obtain ⟨rx1, h⟩ := writefromfd_returns fuel rb fd nchars hh ht hfd hlast hf
    exact ⟨rx1, _, _, h⟩

/-- C16 as amended, applied to the ring with two free slots before the end of
the array. -/
theorem C16_at_most_two_reads_witness :
    (wrap_ring.head < 1024 ∧ wrap_ring.tail < 1024 ∧ (∀ k, two_reads k ≠ OsRead.error) ∧
      (wrap_ring.head + (ingested wrap_ring two_reads 1024).length) % 1024 ≠ 1023) ∧
    ∃ rx1 r calls, ringbuffer_writefromfd 1028 wrap_ring two_reads 1024 = some (rx1, r, calls) ∧
      calls ≤ 2 := by
  have hfd : ∀ k, two_reads k ≠ OsRead.error := by
    intro k
    unfold two_reads
    split <;> simp
  have h := C16_at_most_two_reads wrap_ring two_reads 1024 (by decide) (by decide) hfd
  obtain ⟨rx1, r, calls, hw⟩ := h.2 1028 (le_refl _) (by decide)
  exact ⟨⟨by decide, by decide, hfd, by decide⟩, rx1, r, calls, hw, (h.1 1028 rx1 r calls hw).1⟩

/-- `case SOCKTYPE_CLIENT` of the read dispatch when bytes were ingested and the
device has no token: only the client's rx ring is changed. -/
theorem client_read_no_token (fuel : Nat) (st : State) (s : Nat) (sock : client_socket)
    (fd : Nat → OsRead) (rx1 : ringbuffer) (r calls : Nat) (p : printer_socket)
    (hs : st.heap s = some (sockobj.client sock))
    (hw : ringbuffer_writefromfd fuel sock.rxbuffer fd (ringbuffer_canwrite sock.rxbuffer)
      = some (rx1, r, calls))
    (hr : r ≠ 0) (hp : st.heap st.printer = some (sockobj.printer p)) (htok : ¬ p.tokens > 0) :
    client_read_handler fuel st s fd
      = some { st with
          heap := Function.update st.heap s (some (sockobj.client { sock with rxbuffer := rx1 })) } := by
  have hne : st.printer ≠ s := by
    intro h
    rw [h, hs] at hp
    simp at hp
  simp only [client_read_handler, hs, hw, hr, if_false, Function.update_noteq hne, hp, htok]
  split <;> rfl

/-- C13 (backpressure): for every client-readable event that ingests at least
one byte (no `read` failing) while the device has `tokens = 0`, whenever the
handler returns nothing is consumed from the client's rx ring (`tail` is as
before; the readable content is the old content followed by the ingested
bytes), and the device socket with its tx ring, token count and `lastmsgsock`,
the pointer `printer` and `writesockets` are all as before. The handler
returns when the new `head` of the rx ring is not the last index. -/
theorem C13_backpressure_without_token (fuel : Nat) (st : State) (s : Nat)
    (sock : client_socket) (p : printer_socket) (fd : Nat → OsRead)
    (hs : st.heap s = some (sockobj.client sock))
    (hp : st.heap st.printer = some (sockobj.printer p)) (htok : p.tokens = 0)
    (hh : sock.rxbuffer.head < 1024) (ht : sock.rxbuffer.tail < 1024)
    (hfd : ∀ k, fd k ≠ OsRead.error)
    (hnz : ingested sock.rxbuffer fd (ringbuffer_canwrite sock.rxbuffer) ≠ []) :
    (∀ st1, client_read_handler fuel st s fd = some st1 →
      ∃ sock1, st1.heap s = some (sockobj.client sock1) ∧
        sock1.rxbuffer.tail = sock.rxbuffer.tail ∧
        readable sock1.rxbuffer = readable sock.rxbuffer
          ++ ingested sock.rxbuffer fd (ringbuffer_canwrite sock.rxbuffer) ∧
        sock1.txbuffer = sock.txbuffer ∧
        st1.heap st.printer = some (sockobj.printer p) ∧
        st1.printer = st.printer ∧
        st1.writesockets = st.writesockets ∧ st1.readsockets = st.readsockets ∧
        st1.errorsockets = st.errorsockets ∧
        (∀ a, a ≠ s → st1.heap a = st.heap a)) ∧
    (1028 ≤ fuel →
      (sock.rxbuffer.head
        + (ingested sock.rxbuffer fd (ringbuffer_canwrite sock.rxbuffer)).length) % 1024 ≠ 1023 →
      ∃ st1, client_read_handler fuel st s fd = some st1) := by
  have hne : st.printer ≠ s := by
    intro h
    rw [h, hs] at hp
    simp at hp
  have hlen : (ingested sock.rxbuffer fd (ringbuffer_canwrite sock.rxbuffer)).length ≠ 0 := by
    intro h
    exact hnz (List.eq_nil_of_length_eq_zero h)
  refine ⟨?_, ?_⟩
  · intro st1 hst1
    cases hw : ringbuffer_writefromfd fuel sock.rxbuffer fd (ringbuffer_canwrite sock.rxbuffer) with
    | none => simp [client_read_handler, hs, hw] at hst1
    | some res =>
      obtain ⟨rx1, r, calls⟩ := res
      obtain ⟨w1, _, w3, w4, _⟩ := writefromfd_result fuel sock.rxbuffer rx1 fd _ r calls hh ht hfd hw
      rw [client_read_no_token fuel st s sock fd rx1 r calls p hs hw (by omega) hp (by omega)]
        at hst1
      rw [← Option.some.inj hst1]
      refine ⟨{ sock with rxbuffer := rx1 }, Function.update_same _ _ _, w1, w3, rfl, ?_, rfl, rfl,
        rfl, rfl, ?_⟩
      · show Function.update st.heap s _ st.printer = _
        rw [Function.update_noteq hne, hp]
      · intro a ha
        show Function.update st.heap s _ a = _
        rw [Function.update_noteq ha]
  · intro hf hlast
    obtain ⟨rx1, hw⟩ := writefromfd_returns fuel sock.rxbuffer fd _ hh ht hfd hlast hf
    exact ⟨_, client_read_no_token fuel st s sock fd rx1 _ _ p hs hw hlen hp (by omega)⟩

/-- C13 applied to a client that receives `B\n` while the device has no
token. -/
theorem C13_backpressure_without_token_witness :
    (stalled_state.heap 2 = some (sockobj.client sample_client) ∧
      device_tokens stalled_state = some 0 ∧
      (∀ k, line_reads k ≠ OsRead.error) ∧
      ingested sample_client.rxbuffer line_reads (ringbuffer_canwrite sample_client.rxbuffer)
        = [66, 10]) ∧
    ∃ st1 sock1, client_read_handler 1028 stalled_state 2 line_reads = some st1 ∧
      st1.heap 2 = some (sockobj.client sock1) ∧
      readable sock1.rxbuffer = readable sample_client.rxbuffer ++ [66, 10] ∧
      st1.writesockets = stalled_state.writesockets := by
  have hfd : ∀ k, line_reads k ≠ OsRead.error := by
    intro k
    simp [line_reads]
  have hing : ingested sample_client.rxbuffer line_reads
      (ringbuffer_canwrite sample_client.rxbuffer) = [66, 10] := by decide
  have h := C13_backpressure_without_token 1028 stalled_state 2 sample_client
    { sample_printer with tokens := 0 } line_reads rfl rfl rfl (by decide) (by decide) hfd
    (by rw [hing]; simp)
  obtain ⟨st1, hst1⟩ := h.2 (le_refl _) (by rw [hing]; decide)
  obtain ⟨sock1, g1, _, g3, _, _, _, g7, _⟩ := h.1 st1 hst1
  rw [hing] at g3
  exact ⟨⟨rfl, by decide, hfd, hing⟩, st1, sock1, hst1, g1, g3, g7⟩

/-! ## The last submitter -/

theorem lastmsg_kept_line_step (st st1 : State) (s : Nat) (a : Nat) (p : printer_socket)
    (h : printer_line_step st s = some st1) (hp : st.heap a = some (sockobj.printer p)) :
    ∃ p1, st1.heap a = some (sockobj.printer p1) ∧ p1.lastmsgsock = p.lastmsgsock := by
  obtain ⟨sock, l, target, len, hs, _, htarget, hst1⟩ := printer_line_step_inv st st1 s h
  subst hst1
  by_cases ha : a = s
  · subst ha
    rw [hs] at hp
    have hsp : sock = p := by
      have := Option.some.inj hp
      injection this
    subst hsp
    refine ⟨_, printer_line_body_heap_self st a sock l target len, ?_⟩
    exact (ack_tokens_fields _ _).2.2.2.1
  · by_cases hal : a = l
    · subst hal
      rw [Function.update_noteq ha, hp] at htarget
      have ht : target = sockobj.printer p := (Option.some.inj htarget).symm
      subst ht
      refine ⟨p, ?_, rfl⟩
      simp [printer_line_body, route_line, Function.update_noteq ha, hp]
    · rw [← printer_line_body_heap_other st s sock l target len a ha hal] at hp
      exact ⟨p, hp, rfl⟩

theorem lastmsg_kept_drain (s : Nat) :
    ∀ (fuel : Nat) (st st1 : State) (a : Nat) (p : printer_socket),
      printer_drain fuel st s = some st1 → st.heap a = some (sockobj.printer p) →
      ∃ p1, st1.heap a = some (sockobj.printer p1) ∧ p1.lastmsgsock = p.lastmsgsock := by
  intro fuel
  induction fuel with
  | zero =>
    intro st st1 a p h _
    simp [printer_drain] at h
  | succ fuel ih =>
    intro st st1 a p h hp
    unfold printer_drain at h
    split at h
    · split at h
      · cases hstep : printer_line_step st s with
        | none => simp [hstep] at h
        | some st2 =>
          simp only [hstep, Option.bind_some] at h
          obtain ⟨p2, hp2, hl2⟩ := lastmsg_kept_line_step st st2 s a p hstep hp
          obtain ⟨p1, hp1, hl1⟩ := ih st2 st1 a p2 h hp2
          exact ⟨p1, hp1, by rw [hl1, hl2]⟩
      · rw [← Option.some.inj h]
        exact ⟨p, hp, rfl⟩
    · exact absurd h (by simp)

theorem lastmsg_kept_printer_read (fuel : Nat) (st st1 : State) (s : Nat) (fd : Nat → OsRead)
    (al : Alloc) (a : Nat) (p : printer_socket)
    (h : printer_read_handler fuel st s fd al = some st1)
    (hnr : is_reopen fuel st (Event.readable s fd al) = false)
    (hp : st.heap a = some (sockobj.printer p)) :
    ∃ p1, st1.heap a = some (sockobj.printer p1) ∧ p1.lastmsgsock = p.lastmsgsock := by
  unfold printer_read_handler at h
  split at h
  · rename_i sock hs
    split at h
    · exact absurd h (by simp)
    · rename_i rx1 r calls hw
      have hr : r ≠ 0 := by
        intro hr0
        simp [is_reopen, hs, hw, hr0] at hnr
      rw [if_neg hr] at h
      by_cases ha : a = s
      · subst ha
        rw [hs] at hp
        have hsp : sock = p := by
          have := Option.some.inj hp
          injection this
        subst hsp
        exact lastmsg_kept_drain a fuel _ st1 a { sock with rxbuffer := rx1 } h
          (Function.update_same _ _ _)
      · exact lastmsg_kept_drain s fuel _ st1 a p h
          (by show Function.update st.heap s _ a = _; rw [Function.update_noteq ha, hp])
  · exact absurd h (by simp)

theorem lastmsg_kept_client_read (fuel : Nat) (st st1 : State) (s : Nat) (fd : Nat → OsRead)
    (a : Nat) (p : printer_socket)
    (h : client_read_handler fuel st s fd = some st1)
    (hp : st.heap a = some (sockobj.printer p)) (htok : p.tokens = 0) :
    ∃ p1, st1.heap a = some (sockobj.printer p1) ∧ p1.lastmsgsock = p.lastmsgsock := by
  unfold client_read_handler at h
  split at h
  · rename_i sock hs
    have has : a ≠ s := by
      intro hc
      rw [hc, hs] at hp
      simp at hp
    split at h
    · exact absurd h (by simp)
    · rename_i rx1 r calls hw
      split at h
      · rw [← Option.some.inj h]
        exact ⟨p, by show Function.update st.heap s none a = _; rw [Function.update_noteq has, hp],
          rfl⟩
      · dsimp only at h
        split at h
        · split at h
          · rename_i q hq
            split at h
            · rename_i hpos
              have hap : a ≠ st.printer := by
                intro hc
                rw [← hc, Function.update_noteq has, hp] at hq
                have hqp : p = q := by
                  have := Option.some.inj hq
                  injection this
                rw [← hqp] at hpos
                omega
              rw [← Option.some.inj h]
              refine ⟨p, ?_, rfl⟩
              show Function.update (Function.update (Function.update st.heap s _) s _) st.printer _ a
                = _
              rw [Function.update_noteq hap, Function.update_noteq has,
                Function.update_noteq has, hp]
            · rw [← Option.some.inj h]
              exact ⟨p, by show Function.update st.heap s _ a = _;
                           rw [Function.update_noteq has, hp], rfl⟩
          · exact absurd h (by simp)
        · rw [← Option.some.inj h]
          exact ⟨p, by show Function.update st.heap s _ a = _;
                       rw [Function.update_noteq has, hp], rfl⟩
  · exact absurd h (by simp)

theorem lastmsg_kept_listen_read (st st1 : State) (s : Nat) (al : Alloc) (a : Nat)
    (p : printer_socket) (h : listen_read_handler st s al = some st1)
    (hp : st.heap a = some (sockobj.printer p)) :
    ∃ p1, st1.heap a = some (sockobj.printer p1) ∧ p1.lastmsgsock = p.lastmsgsock := by
  unfold listen_read_handler at h
  split at h
  · split at h
    · exact absurd h (by simp)
    · rename_i hfree
      have ha : a ≠ al.addr := by
        intro hc
        rw [← hc, hp] at hfree
        simp at hfree
      rw [← Option.some.inj h]
      exact ⟨p, by show Function.update st.heap al.addr _ a = _;
                   rw [Function.update_noteq ha, hp], rfl⟩
  · exact absurd h (by simp)

theorem lastmsg_kept_printer_write (st st1 : State) (s : Nat) (a : Nat) (p : printer_socket)
    (h : printer_write_handler st s = some st1)
    (hp : st.heap a = some (sockobj.printer p)) :
    ∃ p1, st1.heap a = some (sockobj.printer p1) ∧ p1.lastmsgsock = p.lastmsgsock := by
  unfold printer_write_handler at h
  split at h
  · rename_i sock hs
    by_cases ha : a = s
    · subst ha
      rw [hs] at hp
      have hsp : sock = p := by
        have := Option.some.inj hp
        injection this
      subst hsp
      split at h
      · rw [← Option.some.inj h]
        exact ⟨_, Function.update_same _ _ _, rfl⟩
      · rw [← Option.some.inj h]
        exact ⟨_, Function.update_same _ _ _, rfl⟩
    · split at h
      · rw [← Option.some.inj h]
        exact ⟨p, by show Function.update st.heap s _ a = _;
                     rw [Function.update_noteq ha, hp], rfl⟩
      · rw [← Option.some.inj h]
        exact ⟨p, by show Function.update st.heap s _ a = _;
                     rw [Function.update_noteq ha, hp], rfl⟩
  · exact absurd h (by simp)

theorem lastmsg_kept_client_write (st st1 : State) (s : Nat) (w : OsWrite) (a : Nat)
    (p : printer_socket) (h : client_write_handler st s w = some st1)
    (hp : st.heap a = some (sockobj.printer p)) :
    ∃ p1, st1.heap a = some (sockobj.printer p1) ∧ p1.lastmsgsock = p.lastmsgsock := by
  unfold client_write_handler at h
  split at h
  · rename_i sock hs
    have ha : a ≠ s := by
      intro hc
      rw [hc, hs] at hp
      simp at hp
    split at h
    · rw [← Option.some.inj h]
      exact ⟨p, by show Function.update st.heap s _ a = _;
                   rw [Function.update_noteq ha, hp], rfl⟩
    · rw [← Option.some.inj h]
      exact ⟨p, by show Function.update st.heap s _ a = _;
                   rw [Function.update_noteq ha, hp], rfl⟩
  · exact absurd h (by simp)

theorem lastmsg_set_local_read (st st1 : State) (s : Nat) (rd : OsRead)
    (h : local_read_handler st s rd = some st1) :
    ∃ p1, st1.heap st.printer = some (sockobj.printer p1) ∧ p1.lastmsgsock = some s := by
  unfold local_read_handler at h
  split at h
  · exact absurd h (by simp)
  · dsimp only at h
    split at h
    · exact absurd h (by simp)
    · split at h
      · rw [← Option.some.inj h]
        exact ⟨_, Function.update_same _ _ _, rfl⟩
      · exact absurd h (by simp)

/-- C11, counterexample: a client (address 2) submits `A\n`, the device is
written (`tokens = 0`, `lastmsgsock` is the client); then stdin is readable with
`X\n`: `tokens` is still 0 and `lastmsgsock` has become the stdin socket
(address 0). -/
theorem C11_stdin_overwrites_lastmsgsock_without_token :
    (run 16 (init_state boot_config)
      [accept_event, read_event 2 [65, 10], Event.writable 1 (OsWrite.accepted 0)]).map
      (fun st => (device_tokens st, device_lastmsgsock st)) = some (some 0, some 2) ∧
    (run 16 (init_state boot_config)
      [accept_event, read_event 2 [65, 10], Event.writable 1 (OsWrite.accepted 0),
       read_event 0 [88, 10]]).map
      (fun st => (device_tokens st, device_lastmsgsock st)) = some (some 0, some 0) := by
  refine ⟨by decide, by decide⟩

/-- C11 as amended: for every handler step other than a stdin-readable step
and a device-readable step that reopens the device (client readable, device
readable with bytes, listener readable, device writable, client writable,
error-ready) taken from a state in which a device socket has `tokens = 0`, the
`lastmsgsock` of that device socket is the same after the step as before. A
stdin-readable step sets the `lastmsgsock` of the device `printer` points to,
to the stdin socket, whatever the token count. -/
theorem C11_lastmsgsock_kept_except_by_stdin (fuel : Nat) (st st1 : State) (e : Event)
    (a : Nat) (p : printer_socket)
    (hstep : step fuel st e = some st1)
    (hp : st.heap a = some (sockobj.printer p)) (htok : p.tokens = 0) :
    (is_stdin_read st e = false → is_reopen fuel st e = false →
      ∃ p1, st1.heap a = some (sockobj.printer p1) ∧ p1.lastmsgsock = p.lastmsgsock) ∧
    (is_stdin_read st e = true →
      ∃ p1, st1.heap st.printer = some (sockobj.printer p1) ∧
        p1.lastmsgsock = some (event_socket e)) := by
  cases e with
  | readable s fd al =>
    simp only [step] at hstep
    split at hstep
    · split at hstep
      · rename_i fd0 hs
        refine ⟨fun hns => ?_, fun _ => lastmsg_set_local_read st st1 s _ hstep⟩
        simp [is_stdin_read, hs] at hns
      · rename_i q hs
        refine ⟨fun _ hnr => lastmsg_kept_printer_read fuel st st1 s fd al a p hstep hnr hp,
          fun hst => ?_⟩
        simp [is_stdin_read, hs] at hst
      · rename_i q hs
        refine ⟨fun _ _ => lastmsg_kept_client_read fuel st st1 s fd a p hstep hp htok,
          fun hst => ?_⟩
        simp [is_stdin_read, hs] at hst
      · rename_i q hs
        refine ⟨fun _ _ => lastmsg_kept_listen_read st st1 s al a p hstep hp, fun hst => ?_⟩
        simp [is_stdin_read, hs] at hst
      · exact absurd hstep (by simp)
    · exact absurd hstep (by simp)
  | writable s w =>
    refine ⟨fun _ _ => ?_, fun hst => by simp [is_stdin_read] at hst⟩
    simp only [step] at hstep
    split at hstep
    · split at hstep
      · rw [← Option.some.inj hstep]; exact ⟨p, hp, rfl⟩
      · exact lastmsg_kept_printer_write st st1 s a p hstep hp
      · exact lastmsg_kept_client_write st st1 s w a p hstep hp
      · rw [← Option.some.inj hstep]; exact ⟨p, hp, rfl⟩
      · exact absurd hstep (by simp)
    · exact absurd hstep (by simp)
  | errored s =>
    refine ⟨fun _ _ => ?_, fun hst => by simp [is_stdin_read] at hst⟩
    simp only [step] at hstep
    split at hstep
    · split at hstep
      · rw [← Option.some.inj hstep]; exact ⟨p, hp, rfl⟩
      · exact absurd hstep (by simp)
    · exact absurd hstep (by simp)

/-- C11 as amended, applied to a client-readable step taken while the device
has no token. -/
theorem C11_lastmsgsock_kept_except_by_stdin_witness :
    (stalled_state.heap 1 = some (sockobj.printer { sample_printer with tokens := 0 }) ∧
      is_stdin_read stalled_state (read_event 2 [66, 10]) = false ∧
      is_reopen 16 stalled_state (read_event 2 [66, 10]) = false) ∧
    ∃ st1 p1, step 16 stalled_state (read_event 2 [66, 10]) = some st1 ∧
      st1.heap 1 = some (sockobj.printer p1) ∧ p1.lastmsgsock = some 2 := by
  obtain ⟨st1, hst1⟩ : ∃ st1, step 16 stalled_state (read_event 2 [66, 10]) = some st1 :=
    Option.isSome_iff_exists.mp (by decide)
  obtain ⟨p1, h1, h2⟩ := (C11_lastmsgsock_kept_except_by_stdin 16 stalled_state st1
    (read_event 2 [66, 10]) 1 { sample_printer with tokens := 0 } hst1 rfl rfl).1
    (by decide) (by decide)
  exact ⟨⟨rfl, by decide, by decide⟩, st1, p1, hst1, h1, h2⟩

/-! ## Client disconnect -/

/-- `case SOCKTYPE_CLIENT` of the read dispatch when `ringbuffer_writefromfd`
returns 0: the client is destroyed. -/
theorem client_read_zero (fuel : Nat) (st : State) (s : Nat) (sock : client_socket)
    (fd : Nat → OsRead) (rx1 : ringbuffer) (calls : Nat)
    (hs : st.heap s = some (sockobj.client sock))
    (hw : ringbuffer_writefromfd fuel sock.rxbuffer fd (ringbuffer_canwrite sock.rxbuffer)
      = some (rx1, 0, calls)) :
    client_read_handler fuel st s fd
      = some { st with heap := Function.update st.heap s none
                       buf := sock2a sock.addr st.buf BUFFER_SIZE
                       readsockets := array_delete st.readsockets s
                       writesockets := array_delete st.writesockets s
                       errorsockets := array_delete st.errorsockets s } := by
  simp only [client_read_handler, hs, hw, if_true]

theorem ingested_of_zero_read (rb : ringbuffer) (fd : Nat → OsRead) (nchars : Nat)
    (hh : rb.head < 1024) (hz : fd 0 = OsRead.bytes []) : ingested rb fd nchars = [] := by
  unfold ingested
  by_cases hn0 : ingest_limit rb nchars = 0
  · simp [hn0]
  · have hns : ¬ second_read rb fd nchars := by
      unfold second_read first_request
      rw [hz]
      simp only [os_bytes, List.length_nil]
      omega
    simp [hn0, hns, hz, os_bytes]

/-- C18, counterexample: a client reported error-ready stays in `readsockets`
and `errorsockets` and is not freed; a client whose `read` returns `-1` also
stays, and the byte `A` it had in its rx ring is gone from the readable
content. -/
theorem C18_socket_error_keeps_client :
    (run 16 (init_state boot_config) [accept_event, Event.errored 2]).map
      (fun st => (st.readsockets, st.writesockets, st.errorsockets, (st.heap 2).isSome))
      = some ([0, 1, 5, 2], [], [0, 1, 5, 2], true) ∧
    (run 16 (init_state boot_config) [accept_event, read_event 2 [65]]).map
      (fun st => client_rx st 2) = some [65] ∧
    (run 16 (init_state boot_config) [accept_event, read_event 2 [65], error_read_event 2]).map
      (fun st => (st.readsockets, st.errorsockets, (st.heap 2).isSome, client_rx st 2))
      = some ([0, 1, 5, 2], [0, 1, 5, 2], true, []) := by
  refine ⟨by decide, by decide, by decide⟩

/-- C18 as amended: client disconnect covers the zero-byte read only. When the
`read` of the client-readable handler returns 0 bytes (and no `read` fails),
whenever the handler returns the client socket is freed and one occurrence of
it is removed from each of `readsockets`, `writesockets` and `errorsockets`, so
that it is in none of them when they held it at most once; the handler returns
when `head` of the rx ring is not the last index. A client reported
error-ready is left as it is: the error dispatch changes nothing. -/
theorem C18_disconnect_on_zero_read_only (fuel : Nat) (st : State) (s : Nat)
    (sock : client_socket) (fd : Nat → OsRead)
    (hs : st.heap s = some (sockobj.client sock))
    (hh : sock.rxbuffer.head < 1024) (ht : sock.rxbuffer.tail < 1024)
    (hfd : ∀ k, fd k ≠ OsRead.error) (hz : fd 0 = OsRead.bytes []) :
    (∀ st1, client_read_handler fuel st s fd = some st1 →
      st1.heap s = none ∧
      st1.readsockets = array_delete st.readsockets s ∧
      st1.writesockets = array_delete st.writesockets s ∧
      st1.errorsockets = array_delete st.errorsockets s ∧
      (st.readsockets.Nodup → s ∉ st1.readsockets) ∧
      (st.writesockets.Nodup → s ∉ st1.writesockets) ∧
      (st.errorsockets.Nodup → s ∉ st1.errorsockets)) ∧
    (1028 ≤ fuel → sock.rxbuffer.head ≠ 1023 →
      ∃ st1, client_read_handler fuel st s fd = some st1) ∧
    (s ∈ st.errorsockets → step fuel st (Event.errored s) = some st) := by
  have hing := ingested_of_zero_read sock.rxbuffer fd (ringbuffer_canwrite sock.rxbuffer) hh hz
  refine ⟨?_, ?_, ?_⟩
  · intro st1 hst1
    cases hw : ringbuffer_writefromfd fuel sock.rxbuffer fd (ringbuffer_canwrite sock.rxbuffer) with
    | none => simp [client_read_handler, hs, hw] at hst1
    | some res =>
      obtain ⟨rx1, r, calls⟩ := res
      obtain ⟨_, _, _, w4, _⟩ := writefromfd_result fuel sock.rxbuffer rx1 fd _ r calls hh ht hfd hw
      rw [hing] at w4
      simp only [List.length_nil] at w4
      subst w4
      rw [client_read_zero fuel st s sock fd rx1 calls hs hw] at hst1
      rw [← Option.some.inj hst1]
      refine ⟨Function.update_same _ _ _, rfl, rfl, rfl, ?_, ?_, ?_⟩
      · intro hnd hmem
        exact ((array_delete_mem _ _ _ hnd).mp hmem).1 rfl
      · intro hnd hmem
        exact ((array_delete_mem _ _ _ hnd).mp hmem).1 rfl
      · intro hnd hmem
        exact ((array_delete_mem _ _ _ hnd).mp hmem).1 rfl
  · intro hf hlast
    obtain ⟨rx1, hw⟩ := writefromfd_returns fuel sock.rxbuffer fd
      (ringbuffer_canwrite sock.rxbuffer) hh ht hfd
      (by rw [hing]; simp only [List.length_nil, Nat.add_zero]; omega) hf
    rw [hing] at hw
    exact ⟨_, client_read_zero fuel st s sock fd rx1 _ hs hw⟩
  · intro hmem
    simp [step, hmem, hs]

/-- C18 as amended, applied to the sample client at end of file. -/
theorem C18_disconnect_on_zero_read_only_witness :
    (sample_state.heap 2 = some (sockobj.client sample_client) ∧
      sample_state.readsockets.Nodup ∧ sample_state.errorsockets.Nodup) ∧
    ∃ st1, client_read_handler 1028 sample_state 2 (fun _ => OsRead.bytes []) = some st1 ∧
      st1.heap 2 = none ∧ 2 ∉ st1.readsockets ∧ 2 ∉ st1.errorsockets := by
  have h := C18_disconnect_on_zero_read_only 1028 sample_state 2 sample_client
    (fun _ => OsRead.bytes []) rfl (by decide) (by decide) (by intro k; simp) rfl
  obtain ⟨st1, hst1⟩ := h.2.1 (le_refl _) (by decide)
  obtain ⟨g1, _, _, _, g5, _, g7⟩ := h.1 st1 hst1
  exact ⟨⟨rfl, by decide, by decide⟩, st1, hst1, g1, g5 (by decide), g7 (by decide)⟩

/-! ## Claims the code does not meet -/

set_option maxRecDepth 1000000

/-- C12, the code at the claim's own example: clients A (address 2) and B
(address 7) submit `A1\n` and `B1\n` before the device is written. The device is
sent `A1\n` alone, but `lastmsgsock` was overwritten by B's submit, so the
first `ok\n` is appended to B's tx ring and nothing to A's; the token is back
and `B1\n` is still in the device tx ring, yet the device is not in
`writesockets`, so the next device-writable step of the example has no run. -/
theorem C12_first_ok_goes_to_second_submitter :
    (run 16 (init_state boot_config)
      [accept_event, accept_event_b, read_event 2 [65, 49, 10], read_event 7 [66, 49, 10],
       Event.writable 1 (OsWrite.accepted 0), read_event 1 [111, 107, 10]]).map
      (fun st => (st.writes, client_tx st 2, client_tx st 7))
      = some ([(3, [65, 49, 10])], [], [111, 107, 10]) ∧
    (run 16 (init_state boot_config)
      [accept_event, accept_event_b, read_event 2 [65, 49, 10], read_event 7 [66, 49, 10],
       Event.writable 1 (OsWrite.accepted 0), read_event 1 [111, 107, 10]]).map
      (fun st => (device_tx st, device_tokens st, st.writesockets))
      = some ([66, 49, 10], some 1, [7]) ∧
    (run 16 (init_state boot_config)
      [accept_event, accept_event_b, read_event 2 [65, 49, 10], read_event 7 [66, 49, 10],
       Event.writable 1 (OsWrite.accepted 0), read_event 1 [111, 107, 10],
       Event.writable 1 (OsWrite.accepted 0)]).isSome = false := by
  refine ⟨by decide, by decide, by decide⟩

/-- C14, the code at two failing inputs: on a ring holding `A` with `'\n'` in
the unused slot at `head`, `ringbuffer_scannl` sets `nl = 1` although no `'\n'`
is readable; on a full ring whose first readable byte is `'\n'` it sets
`nl = 0`. -/
theorem C14_scannl_counts_tail_to_head_inclusive :
    (ringbuffer_scannl 16 nl_at_head_ring).map (fun rb => (rb.nl, (readable rb).count 10))
      = some (1, 0) ∧
    ringbuffer_canread full_ring = 1023 ∧
    (ringbuffer_scannl 16 full_ring).map (fun rb => (rb.nl, (readable rb).count 10))
      = some (0, 1) := by
  refine ⟨by decide, by decide, by decide⟩

/-- C15, the code at a failing input: the ring holding `A\n` with `nl = 1`
satisfies the newline invariant; after `ringbuffer_readtofd` with both bytes
accepted the ring is empty and `nl` is still 1. The same happens to a ring
filled by `ringbuffer_write` from empty. -/
theorem C15_readtofd_leaves_nl :
    nl_inv sample_ring ∧
    (ringbuffer_readtofd sample_ring (OsWrite.accepted 2)).2.1 = [65, 10] ∧
    readable (ringbuffer_readtofd sample_ring (OsWrite.accepted 2)).1 = [] ∧
    (ringbuffer_readtofd sample_ring (OsWrite.accepted 2)).1.nl = 1 ∧
    ¬ nl_inv (ringbuffer_readtofd sample_ring (OsWrite.accepted 2)).1 ∧
    (ringbuffer_readtofd (ringbuffer_write empty_ring sample_bytes 3).1 (OsWrite.accepted 3)).1.nl
      = 1 := by
  refine ⟨by decide, by decide, by decide, by decide, by decide, by decide⟩

/-- C19, the code at a failing input: the device's `read` returns 0 bytes in
the start-up state and the device is reopened at address 9. The old socket
(address 1) is freed and in none of the three arrays, the fresh one is in
`readsockets` and `errorsockets` with `tokens = maxtoken = 1`, but `printer` still holds
the old address: a following stdin submit, and a following client submit, go
through the freed pointer and have no defined result. -/
theorem C19_printer_pointer_not_updated :
    (run 16 (init_state boot_config) [reopen_event]).map
      (fun st => (st.readsockets, st.writesockets, st.errorsockets))
      = some ([0, 5, 9], [], [0, 5, 9]) ∧
    (run 16 (init_state boot_config) [reopen_event]).map
      (fun st => (st.printer, (st.heap 1).isSome, tokens_at st 9, device_tokens st))
      = some (1, false, some (1, 1), none) ∧
    (run 16 (init_state boot_config) [reopen_event, read_event 0 [65, 10]]).isSome = false ∧
    (run 16 (init_state boot_config)
      [accept_event, reopen_event, read_event 2 [65, 10]]).isSome = false := by
  refine ⟨by decide, by decide, by decide, by decide⟩

/-- C20, the code at a failing input: stdin submits `A\n` and then `B\n`, the
device is written `A\n` (`tokens = 0`), the device answers `ok\n`. Afterwards
`tokens = 1` and the device tx ring holds the complete line `B\n`, but
`writesockets` is empty: the device is not write-interested. -/
theorem C20_ok_does_not_register_write_interest :
    (run 16 (init_state boot_config)
      [read_event 0 [65, 10], read_event 0 [66, 10], Event.writable 1 (OsWrite.accepted 0),
       read_event 1 [111, 107, 10]]).map
      (fun st => (device_tokens st, device_tx st, st.writesockets, st.writes))
    = some (some 1, [66, 10], [], [(3, [65, 10]), (0, [60, 32, 111, 107, 10])]) := by
  decide

/-! ## Write interest of the device -/

theorem complete_lines_drop (l : List Nat) (n : Nat) (h : complete_lines l) :
    complete_lines (l.drop n) := by
  intro b hb
  apply h b
  rw [List.getLast?_drop] at hb
  split at hb
  · simp at hb
  · exact hb

/-- On a ring that satisfies the newline invariant and holds complete lines
only, `nl = 0` means the ring is empty. -/
theorem canread_of_complete_lines (rb : ringbuffer) (hinv : nl_inv rb)
    (hc : complete_lines (readable rb)) (hnl : rb.nl = 0) : ringbuffer_canread rb = 0 := by
  rw [← readable_length]
  cases hl : (readable rb).getLast? with
  | none =>
    rw [List.getLast?_eq_none_iff] at hl
    rw [hl]
    rfl
  | some b =>
    have hb := hc b hl
    subst hb
    have hmem : 10 ∈ readable rb := List.mem_of_getLast?_eq_some hl
    have hcount : 0 < (readable rb).count 10 := List.count_pos_iff.mpr hmem
    unfold nl_inv at hinv
    omega

/-- C21, counterexample: stdin delivers the single byte `A` (no `'\n'`) in the
start-up state, which puts the device into `writesockets`; after the
device-writable handler the tx ring still holds `A` with `nl = 0`, nothing was
written, `tokens = 1`, and the device is still in `writesockets`. The same
state arises from a client whose line `A\n` arrives in two reads. -/
theorem C21_unterminated_line_keeps_write_interest :
    (run 16 (init_state boot_config) [read_event 0 [65]]).map
      (fun st => (device_tx st, device_tx_nl st, device_tokens st, st.writesockets))
      = some ([65], some 0, some 1, [1]) ∧
    (run 16 (init_state boot_config)
      [read_event 0 [65], Event.writable 1 (OsWrite.accepted 0)]).map
      (fun st => (device_tx st, device_tx_nl st, device_tokens st, st.writesockets))
      = some ([65], some 0, some 1, [1]) ∧
    (run 16 (init_state boot_config)
      [read_event 0 [65], Event.writable 1 (OsWrite.accepted 0)]).map (fun st => st.writes)
      = some [] ∧
    (run 16 (init_state boot_config)
      [accept_event, read_event 2 [65], read_event 2 [10],
        Event.writable 1 (OsWrite.accepted 0)]).map
      (fun st => (device_tx st, device_tx_nl st, device_tokens st, st.writesockets))
      = some ([65], some 0, some 1, [1]) := by
  refine ⟨by decide, by decide, by decide, by decide⟩

/-- C21 as amended: one run of the device-writable handler on a device socket
returns, and afterwards: if the tx ring is empty (`ringbuffer_canread = 0`) or
`tokens = 0`, the device is not in `writesockets` (which held no pointer
twice); otherwise `writesockets` is as before. When the tx ring held complete
lines only and satisfied the newline invariant before the run, a newline count
of 0 after the run means the tx ring is empty, so the device is not in
`writesockets`. -/
theorem C21_write_interest_cleared_when_empty_or_no_token (st : State) (s : Nat)
    (sock : printer_socket)
    (hs : st.heap s = some (sockobj.printer sock)) (hnd : st.writesockets.Nodup) :
    ∃ st1 sock1, printer_write_handler st s = some st1 ∧
      st1.heap s = some (sockobj.printer sock1) ∧
      (ringbuffer_canread sock1.txbuffer = 0 ∨ sock1.tokens = 0 → s ∉ st1.writesockets) ∧
      (¬ (ringbuffer_canread sock1.txbuffer = 0 ∨ sock1.tokens = 0) →
        st1.writesockets = st.writesockets) ∧
      (sock.txbuffer.head < 1024 → sock.txbuffer.tail < 1024 → nl_inv sock.txbuffer →
        complete_lines (readable sock.txbuffer) →
        sock1.txbuffer.nl = 0 → s ∉ st1.writesockets) := by
  have hdel : s ∉ array_delete st.writesockets s := fun hmem =>
    ((array_delete_mem _ _ _ hnd).mp hmem).1 rfl
  by_cases hnl : sock.txbuffer.nl > 0
  · simp only [printer_write_handler, hs, hnl, if_true]
    refine ⟨_, { sock with txbuffer := (ringbuffer_readline sock.txbuffer st.buf BUFFER_SIZE).1,
                           tokens := sock.tokens - 1 }, rfl, ?_, ?_, ?_, ?_⟩
    · simp only [printer_write_finish, Function.update_same]
    · intro h
      simp only [printer_write_finish, h, if_true]
      exact hdel
    · intro h
      simp only [printer_write_finish, h, if_false]
    · intro hh ht hinv hc hz
      have hne : sock.txbuffer.nl ≠ 0 := by omega
      have hmem := mem_of_nl_inv sock.txbuffer hinv hne
      have hi := readline_inv sock.txbuffer st.buf BUFFER_SIZE hh ht hinv
      have hl := readline_line sock.txbuffer st.buf BUFFER_SIZE hh ht hmem hne (le_refl _)
      have hc1 : complete_lines
          (readable (ringbuffer_readline sock.txbuffer st.buf BUFFER_SIZE).1) := by
        rw [hl.2.2.2.2.2.2.2]
        exact complete_lines_drop _ _ hc
      have h0 := canread_of_complete_lines _ hi.2.2 hc1 hz
      simp only [printer_write_finish, h0, true_or, if_true]
      exact hdel
  · simp only [printer_write_handler, hs, hnl, if_false]
    refine ⟨_, sock, rfl, ?_, ?_, ?_, ?_⟩
    · simp only [printer_write_finish, Function.update_same]
    · intro h
      simp only [printer_write_finish, h, if_true]
      exact hdel
    · intro h
      simp only [printer_write_finish, h, if_false]
    · intro hh ht hinv hc hz
      have h0 := canread_of_complete_lines _ hinv hc hz
      simp only [printer_write_finish, h0, true_or, if_true]
      exact hdel

/-- C21 as amended, applied to the sample device, which holds the line `A\n`
and one token. -/
theorem C21_write_interest_cleared_when_empty_or_no_token_witness :
    (sample_state.heap 1 = some (sockobj.printer sample_printer) ∧
      sample_state.writesockets.Nodup) ∧
    ∃ st1 sock1, printer_write_handler sample_state 1 = some st1 ∧
      st1.heap 1 = some (sockobj.printer sock1) ∧
      (ringbuffer_canread sock1.txbuffer = 0 ∨ sock1.tokens = 0 → 1 ∉ st1.writesockets) := by
  obtain ⟨st1, sock1, h1, h2, h3, _, _⟩ :=
    C21_write_interest_cleared_when_empty_or_no_token sample_state 1 sample_printer rfl
      (by decide)
  exact ⟨⟨rfl, by decide⟩, st1, sock1, h1, h2, h3⟩

/-! ## Termination of the newline scan -/

/-- With `head` at the last index the exit test `i != head + 1` compares a
masked index with 1024 and never fails. -/
theorem scannl_loop_never_returns :
    ∀ (fuel i : Nat) (rb : ringbuffer), rb.head = 1023 → i < 1024 →
      ringbuffer_scannl_loop fuel i rb = none := by
  intro fuel
  induction fuel with
  | zero => intro i rb _ _; rfl
  | succ n ih =>
    intro i rb hh hi
    unfold ringbuffer_scannl_loop
    have hne : i ≠ u32 (rb.head + 1) := by
      rw [hh]
      simp only [u32, UINT_MOD]
      omega
    rw [if_pos hne]
    have hi1 : mask (u32 (i + 1)) < 1024 := by
      rw [mask_eq]
      exact Nat.mod_lt _ (by norm_num)
    by_cases h10 : rb.data i = 10
    · simp only [h10, if_true]
      exact ih _ _ hh hi1
    · simp only [h10, if_false]
      exact ih _ _ hh hi1

theorem scannl_never_returns (fuel : Nat) (rb : ringbuffer) (hh : rb.head = 1023)
    (ht : rb.tail < 1024) : ringbuffer_scannl fuel rb = none :=
  scannl_loop_never_returns fuel rb.tail { rb with nl := 0 } hh ht

/-- A `ringbuffer_writefromfd` that would leave `head` at the last index never
returns. -/
theorem writefromfd_never_returns (fuel : Nat) (rb : ringbuffer) (fd : Nat → OsRead)
    (nchars : Nat) (hh : rb.head < 1024) (ht : rb.tail < 1024)
    (hfd : ∀ k, fd k ≠ OsRead.error)
    (hlast : (rb.head + (ingested rb fd nchars).length) % 1024 = 1023) :
    ringbuffer_writefromfd fuel rb fd nchars = none := by
  obtain ⟨rbF, k0, _, _, c1, c2, _, _, c5⟩ := writefromfd_char rb fd nchars hh ht hfd
  rw [c5 fuel]
  split
  · rfl
  · rw [scannl_never_returns _ rbF (by rw [c2, hlast]) (by rw [c1]; exact ht)]
    rfl

theorem client_read_never_returns (fuel : Nat) (st : State) (s : Nat) (sock : client_socket)
    (fd : Nat → OsRead) (hs : st.heap s = some (sockobj.client sock))
    (hh : sock.rxbuffer.head < 1024) (ht : sock.rxbuffer.tail < 1024)
    (hfd : ∀ k, fd k ≠ OsRead.error)
    (hlast : (sock.rxbuffer.head
      + (ingested sock.rxbuffer fd (ringbuffer_canwrite sock.rxbuffer)).length) % 1024 = 1023) :
    client_read_handler fuel st s fd = none := by
  simp only [client_read_handler, hs,
    writefromfd_never_returns fuel sock.rxbuffer fd _ hh ht hfd hlast]

/-- C22: for a ring with `head, tail < 1024`, `ringbuffer_scannl` returns
(within 1025 tests of its loop condition) when `head` is not the last index,
and never returns when `head = 1023`: the loop bound `head + 1` is then 1024,
which the masked scan index never equals. -/
theorem C22_scannl_returns_unless_head_is_last (rb : ringbuffer)
    (hh : rb.head < 1024) (ht : rb.tail < 1024) :
    (rb.head = 1023 → ∀ fuel, ringbuffer_scannl fuel rb = none) ∧
    (rb.head ≠ 1023 → ∀ fuel, 1024 < fuel → ∃ rb1, ringbuffer_scannl fuel rb = some rb1) := by
  refine ⟨?_, ?_⟩
  · intro h fuel
    exact scannl_never_returns fuel rb h ht
  · intro h fuel hf
    exact scannl_returns fuel rb (by omega) ht hf

/-- C22 applied to the ring with `head = 1023` and `tail = 0`: the scan never
returns. -/
theorem C22_scannl_returns_unless_head_is_last_witness :
    (last_index_ring.head < 1024 ∧ last_index_ring.tail < 1024 ∧ last_index_ring.head = 1023) ∧
    ∀ fuel, ringbuffer_scannl fuel last_index_ring = none :=
  ⟨⟨by decide, by decide, rfl⟩,
    (C22_scannl_returns_unless_head_is_last last_index_ring (by decide) (by decide)).1 rfl⟩

/-- A `read` that finds 1023 bytes fills an empty ring whose `head` is index 0
in one call. -/
theorem ingested_fill_bytes (rb : ringbuffer) (hh : rb.head = 0) (ht : rb.tail = 0) :
    (ingested rb (fun _ => OsRead.bytes fill_bytes) (ringbuffer_canwrite rb)).length = 1023 := by
  have hcw : ringbuffer_canwrite rb = 1023 := by
    rw [canwrite_eq rb (by omega) (by omega), hh, ht]
  have hlim : ingest_limit rb (ringbuffer_canwrite rb) = 1023 := by
    simp only [ingest_limit, hcw, min_self]
  have hfr : first_request rb (ringbuffer_canwrite rb) = 1023 := by
    simp only [first_request, hlim, hh]
    rfl
  have hns : ¬ second_read rb (fun _ => OsRead.bytes fill_bytes) (ringbuffer_canwrite rb) := by
    intro h
    have := h.2.2
    omega
  unfold ingested
  rw [if_neg (by omega), if_neg hns, hfr]
  simp only [os_bytes, fill_bytes, List.length_take, List.length_replicate, min_self]

/-- A client connects and its first `read` delivers 1023 bytes, as many as the
empty rx ring can take: `head` becomes 1023 and the client-readable handler
does not return, whatever the fuel. -/
theorem client_read_of_1023_bytes_never_returns :
    (run 16 (init_state boot_config) [accept_event]).map
      (fun st => (st.readsockets, client_rx st 2)) = some ([0, 1, 5, 2], []) ∧
    (∀ fuel, run fuel (init_state boot_config) [accept_event, read_event 2 fill_bytes] = none) := by
  refine ⟨by decide, ?_⟩
  intro fuel
  have hacc : step fuel (init_state boot_config) accept_event
      = step 0 (init_state boot_config) accept_event := rfl
  simp only [run, hacc]
  cases hst : step 0 (init_state boot_config) accept_event with
  | none => rfl
  | some stA =>
    have hA : (step 0 (init_state boot_config) accept_event).map
        (fun st => match st.heap 2 with
          | some (sockobj.client c) => some (c.rxbuffer.head, c.rxbuffer.tail)
          | _ => none) = some (some (0, 0)) := by decide
    rw [hst] at hA
    simp only [Option.map_some', Option.some.injEq] at hA
    have hstep : step fuel stA (read_event 2 fill_bytes) = none := by
      simp only [read_event, step]
      split
      · split at hA
        · rename_i c hc
          simp only [Option.some.injEq, Prod.mk.injEq] at hA
          simp only [hc]
          apply client_read_never_returns fuel stA 2 c _ hc (by omega) (by omega)
          · intro k
            simp
          · rw [ingested_fill_bytes c.rxbuffer hA.1 hA.2, hA.1]
        · simp at hA
      · rfl
    simp only [Option.some_bind]
    rw [hstep]
    rfl

/-! ## Response lines without a live submitter -/

/-- A response line that arrives while `lastmsgsock` points to no live socket,
in two runs from start-up. The device sends `ok\n` before any submit:
`lastmsgsock` was never assigned and the device-readable step has no result.
A client submits `A\n`, the device is written (`tokens = 0`), the client
disconnects: its socket is freed and `lastmsgsock` still holds its address; the
device-readable step with `ok\n` has no result, so the token is not returned.
With the client still connected the same step returns the token. -/
theorem device_line_without_live_submitter :
    device_lastmsgsock (init_state boot_config) = none ∧
    (run 16 (init_state boot_config) [read_event 1 [111, 107, 10]]).isSome = false ∧
    (run 16 (init_state boot_config)
      [accept_event, read_event 2 [65, 10], Event.writable 1 (OsWrite.accepted 0),
       read_event 2 []]).map
      (fun st => (device_tokens st, device_lastmsgsock st, (st.heap 2).isSome))
      = some (some 0, some 2, false) ∧
    (run 16 (init_state boot_config)
      [accept_event, read_event 2 [65, 10], Event.writable 1 (OsWrite.accepted 0),
       read_event 2 [], read_event 1 [111, 107, 10]]).isSome = false ∧
    (run 16 (init_state boot_config)
      [accept_event, read_event 2 [65, 10], Event.writable 1 (OsWrite.accepted 0),
       read_event 1 [111, 107, 10]]).map (fun st => device_tokens st) = some (some 1) := by
  refine ⟨by decide, by decide, by decide, by decide, by decide⟩

end Netrap
